import Mathlib

/-!
Verification of the deterministic state-transition kernel (epoch-structured
ledger core) against its natural-language specification.

The Rust sources are shallowly embedded: byte strings (`Vec<u8>`, `[u8; N]`)
become `List Nat` whose entries are byte values, machine integers become
`Nat` with explicit reductions modulo `2^w` exactly where the Rust code
wraps, and fallible functions return `Except TransitionError`.  Every
definition is translated from the corresponding source item (module and
function names are kept); the few places where a definition follows the
specification's words instead (the vendored Ed25519 verifier, and the
spec-side comparison functions for refinement claims) say so in their doc
comments.
-/

set_option maxRecDepth 10000

namespace Kernel

/-- Error enumeration from `lib.rs` (`TransitionError`). -/
inductive TransitionError where
  | MathOverflow
  | DivisionByZero
  | InvalidSerialization
  | DuplicateKey
  | InvalidMerkleWitness
  | InvalidVdfProof
  | InvalidSignature
  | BondTooSmall
  | PayloadLimitExceeded
  | FraudWindowExpired
  | KernelHashMismatch
deriving DecidableEq, Repr

deriving instance DecidableEq for Except

/-- Byte strings (`Vec<u8>` / `[u8; n]`) are lists of byte values. -/
abbrev Bytes := List Nat

/-- Rust `Vec<u8>` / `[u8; 32]` lexicographic strict order (`a < b`).
For equal-length lists this agrees with the `Ord` instance used by the
source on keys and public keys. -/
def bytesLt : Bytes → Bytes → Bool
  | [], [] => false
  | [], _ :: _ => true
  | _ :: _, [] => false
  | a :: as, b :: bs => if a < b then true else if b < a then false else bytesLt as bs

/-- Lexicographic `a ≤ b` on byte strings (Rust `<=` on `Vec<u8>`). -/
def bytesLe (a b : Bytes) : Bool := bytesLt a b || a == b

theorem bytesLt_irrefl (a : Bytes) : bytesLt a a = false := by
  induction a with
  | nil => rfl
  | cons x xs ih => simp [bytesLt, ih]

theorem bytesLe_refl (a : Bytes) : bytesLe a a = true := by
  simp [bytesLe]

theorem bytesLt_trans : ∀ {a b c : Bytes},
    bytesLt a b = true → bytesLt b c = true → bytesLt a c = true := by
  intro a
  induction a with
  | nil =>
    intro b c hab hbc
    cases b with
    | nil => simp [bytesLt] at hab
    | cons y ys =>
      cases c with
      | nil => simp [bytesLt] at hbc
      | cons z zs => simp [bytesLt]
  | cons x xs ih =>
    intro b c hab hbc
    cases b with
    | nil => simp [bytesLt] at hab
    | cons y ys =>
      cases c with
      | nil => simp [bytesLt] at hbc
      | cons z zs =>
        simp only [bytesLt] at hab hbc ⊢
        split at hab
        · rename_i hxy
          split at hbc
          · rename_i hyz
            simp [show x < z by omega]
          · split at hbc
            · exact absurd hbc (by simp)
            · rename_i h1 h2
              have : y = z := by omega
              subst this
              simp [hxy]
        · split at hab
          · exact absurd hab (by simp)
          · rename_i h1 h2
            have hxy : x = y := by omega
            subst hxy
            split at hbc
            · rename_i hyz
              simp [hyz]
            · split at hbc
              · exact absurd hbc (by simp)
              · rename_i h3 h4
                have : x = z := by omega
                subst this
                simp [ih hab hbc]

theorem bytesLt_asymm {a b : Bytes} (h : bytesLt a b = true) : bytesLt b a = false := by
  by_contra hc
  have hba : bytesLt b a = true := by
    cases hb : bytesLt b a
    · exact absurd hb hc
    · rfl
  have := bytesLt_trans h hba
  rw [bytesLt_irrefl] at this
  exact absurd this (by simp)

theorem bytesLt_total : ∀ (a b : Bytes),
    bytesLt a b = true ∨ bytesLt b a = true ∨ a = b := by
  intro a
  induction a with
  | nil =>
    intro b
    cases b with
    | nil => right; right; rfl
    | cons y ys => left; rfl
  | cons x xs ih =>
    intro b
    cases b with
    | nil => right; left; rfl
    | cons y ys =>
      rcases Nat.lt_trichotomy x y with hxy | hxy | hxy
      · left; simp [bytesLt, hxy]
      · subst hxy
        rcases ih ys with h | h | h
        · left; simp [bytesLt, h]
        · right; left; simp [bytesLt, h]
        · right; right; rw [h]
      · right; left; simp [bytesLt, hxy]

-- ──────────────────────────────────────────────────────────────────────────
-- Word helpers: machine integers as Nat with explicit wrap
-- ──────────────────────────────────────────────────────────────────────────

/-- Truncate to a 32-bit word (Rust `u32` wrapping). -/
def w32 (n : Nat) : Nat := n % 4294967296

/-- Truncate to a 64-bit word (Rust `u64` wrapping). -/
def w64 (n : Nat) : Nat := n % 18446744073709551616

/-- Rust `u32::rotate_right` on a 32-bit word. -/
def rotr32 (x k : Nat) : Nat :=
  w32 (Nat.lor (Nat.shiftRight x k) (Nat.shiftLeft x (32 - k)))

/-- Rust `u64::rotate_right` on a 64-bit word. -/
def rotr64 (x k : Nat) : Nat :=
  w64 (Nat.lor (Nat.shiftRight x k) (Nat.shiftLeft x (64 - k)))

/-- Rust bitwise NOT on `u32` (`!x`). -/
def not32 (x : Nat) : Nat := 4294967295 - x

/-- Rust bitwise NOT on `u64` (`!x`). -/
def not64 (x : Nat) : Nat := 18446744073709551615 - x

/-- Big-endian bytes of an `n`-byte unsigned integer (`to_be_bytes`). -/
def beBytes : Nat → Nat → Bytes
  | 0, _ => []
  | k + 1, v => beBytes k (v / 256) ++ [v % 256]

/-- Read a 32-bit big-endian word from four bytes (`u32::from_be_bytes`). -/
def beWord4 (a b c d : Nat) : Nat := ((a * 256 + b) * 256 + c) * 256 + d

-- ──────────────────────────────────────────────────────────────────────────
-- SHA-256 (physics/hashing.rs), FIPS 180-4 §6.2.2
-- ──────────────────────────────────────────────────────────────────────────

/-- SHA-256 initial hash values (`H` in `hashing.rs`). -/
def sha256H : List Nat :=
  [1779033703, 3144134277, 1013904242, 2773480762,
   1359893119, 2600822924, 528734635, 1541459225]

/-- SHA-256 round constants (`K` in `hashing.rs`). -/
def sha256K : List Nat :=
  [1116352408, 1899447441, 3049323471, 3921009573,
   961987163, 1508970993, 2453635748, 2870763221,
   3624381080, 310598401, 607225278, 1426881987,
   1925078388, 2162078206, 2614888103, 3248222580,
   3835390401, 4022224774, 264347078, 604807628,
   770255983, 1249150122, 1555081692, 1996064986,
   2554220882, 2821834349, 2952996808, 3210313671,
   3336571891, 3584528711, 113926993, 338241895,
   666307205, 773529912, 1294757372, 1396182291,
   1695183700, 1986661051, 2177026350, 2456956037,
   2730485921, 2820302411, 3259730800, 3345764771,
   3516065817, 3600352804, 4094571909, 275423344,
   430227734, 506948616, 659060556, 883997877,
   958139571, 1322822218, 1537002063, 1747873779,
   1955562222, 2024104815, 2227730452, 2361852424,
   2428436474, 2756734187, 3204031479, 3329325298]

/-- FIPS 180-4 §4.1.2 `Ch`. -/
def ch32 (x y z : Nat) : Nat := Nat.xor (Nat.land x y) (Nat.land (not32 x) z)

/-- FIPS 180-4 §4.1.2 `Maj`. -/
def maj32 (x y z : Nat) : Nat :=
  Nat.xor (Nat.xor (Nat.land x y) (Nat.land x z)) (Nat.land y z)

/-- FIPS 180-4 §4.1.2 Σ₀. -/
def bigSigma0 (x : Nat) : Nat :=
  Nat.xor (Nat.xor (rotr32 x 2) (rotr32 x 13)) (rotr32 x 22)

/-- FIPS 180-4 §4.1.2 Σ₁. -/
def bigSigma1 (x : Nat) : Nat :=
  Nat.xor (Nat.xor (rotr32 x 6) (rotr32 x 11)) (rotr32 x 25)

/-- FIPS 180-4 §4.1.2 σ₀. -/
def smallSigma0 (x : Nat) : Nat :=
  Nat.xor (Nat.xor (rotr32 x 7) (rotr32 x 18)) (Nat.shiftRight x 3)

/-- FIPS 180-4 §4.1.2 σ₁. -/
def smallSigma1 (x : Nat) : Nat :=
  Nat.xor (Nat.xor (rotr32 x 17) (rotr32 x 19)) (Nat.shiftRight x 10)

/-- First 16 words of the message schedule from one 64-byte block. -/
def scheduleInit : Bytes → List Nat
  | a :: b :: c :: d :: rest => beWord4 a b c d :: scheduleInit rest
  | _ => []

/-- Extend the message schedule to 64 words (`compress` step 1). -/
def scheduleExtend (w : List Nat) : Nat → List Nat
  | 0 => w
  | k + 1 =>
    let t := w.length
    let next := w32 (smallSigma1 (w.getD (t - 2) 0) + w.getD (t - 7) 0 +
      smallSigma0 (w.getD (t - 15) 0) + w.getD (t - 16) 0)
    scheduleExtend (w ++ [next]) k

/-- Working-variable state for the 64 SHA-256 rounds. -/
structure Sha256Regs where
  a : Nat
  b : Nat
  c : Nat
  d : Nat
  e : Nat
  f : Nat
  g : Nat
  h : Nat

/-- One SHA-256 round (`compress` step 3 body). -/
def sha256Round (r : Sha256Regs) (kt wt : Nat) : Sha256Regs :=
  let t1 := w32 (r.h + bigSigma1 r.e + ch32 r.e r.f r.g + kt + wt)
  let t2 := w32 (bigSigma0 r.a + maj32 r.a r.b r.c)
  { a := w32 (t1 + t2), b := r.a, c := r.b, d := r.c,
    e := w32 (r.d + t1), f := r.e, g := r.f, h := r.g }

/-- Process one 64-byte block (`compress` in `hashing.rs`). -/
def sha256Compress (state : List Nat) (block : Bytes) : List Nat :=
  let w := scheduleExtend (scheduleInit block) 48
  let init : Sha256Regs :=
    { a := state.getD 0 0, b := state.getD 1 0, c := state.getD 2 0,
      d := state.getD 3 0, e := state.getD 4 0, f := state.getD 5 0,
      g := state.getD 6 0, h := state.getD 7 0 }
  let r := (List.zip sha256K w).foldl (fun r kw => sha256Round r kw.1 kw.2) init
  [w32 (state.getD 0 0 + r.a), w32 (state.getD 1 0 + r.b),
   w32 (state.getD 2 0 + r.c), w32 (state.getD 3 0 + r.d),
   w32 (state.getD 4 0 + r.e), w32 (state.getD 5 0 + r.f),
   w32 (state.getD 6 0 + r.g), w32 (state.getD 7 0 + r.h)]

/-- Split a byte string into successive 64-byte blocks.  The first
argument is fuel, always called with the list length; each step removes
64 bytes, so the fuel never runs out on a non-empty list. -/
def chunks64 : Nat → Bytes → List Bytes
  | _, [] => []
  | 0, l => [l]
  | fuel + 1, l => l.take 64 :: chunks64 fuel (l.drop 64)

/-- FIPS 180-4 §5.1.1 padding: the byte stream fed by `sha256` in
`hashing.rs` (message, `128`, zeros to 56 mod 64, 64-bit big-endian
bit length, the latter computed with `wrapping_mul`). -/
def sha256Pad (input : Bytes) : Bytes :=
  let bitLen := w64 (input.length * 8)
  let zeros := (64 + 56 - (input.length + 1) % 64) % 64
  input ++ [128] ++ List.replicate zeros 0 ++ beBytes 8 bitLen

/-- Compute SHA-256 over a byte string (`sha256` in `hashing.rs`),
returning the 32 digest bytes. -/
def sha256 (input : Bytes) : Bytes :=
  let padded := sha256Pad input
  let blocks := chunks64 padded.length padded
  let final := blocks.foldl sha256Compress sha256H
  final.flatMap (fun word => beBytes 4 word)

/-- Domain-separation byte for Merkle leaves (`LEAF_PREFIX`, 0). -/
def LEAF_DOMAIN : Nat := 0

/-- Domain-separation byte for Merkle inner nodes (`NODE_PREFIX`, 1). -/
def NODE_DOMAIN : Nat := 1

/-- Hash a Merkle leaf: `SHA256(0 ‖ leaf_bytes)` (`hash_leaf`). -/
def hash_leaf (leafBytes : Bytes) : Bytes := sha256 (LEAF_DOMAIN :: leafBytes)

/-- Hash a Merkle inner node: `SHA256(1 ‖ left ‖ right)` (`hash_node`). -/
def hash_node (left right : Bytes) : Bytes :=
  sha256 (NODE_DOMAIN :: (left ++ right))

/-- FIPS 180-4 test vector: SHA-256 of the empty string. -/
theorem sha256_empty_vector :
    sha256 [] =
      [227, 176, 196, 66, 152, 252, 28, 20,
       154, 251, 244, 200, 153, 111, 185, 36,
       39, 174, 65, 228, 100, 155, 147, 76,
       164, 149, 153, 27, 120, 82, 184, 85] := by
  decide

/-- FIPS 180-4 test vector: SHA-256 of `"abc"`. -/
theorem sha256_abc_vector :
    sha256 [97, 98, 99] =
      [186, 120, 22, 191, 143, 1, 207, 234,
       65, 65, 64, 222, 93, 174, 34, 35,
       176, 3, 97, 163, 150, 23, 122, 156,
       180, 16, 255, 97, 242, 0, 21, 173] := by
  decide

-- ──────────────────────────────────────────────────────────────────────────
-- Merkle tree (physics/merkle.rs)
-- ──────────────────────────────────────────────────────────────────────────

/-- Maximum allowed Merkle tree depth (`MAX_MERKLE_DEPTH`). -/
def MAX_MERKLE_DEPTH : Nat := 40

/-- Root of the empty tree: `SHA256(0)` (`empty_tree_root`). -/
def empty_tree_root : Bytes := sha256 [LEAF_DOMAIN]

/-- Loop of `next_power_of_two`: doubling `result` while it is below `n`.
Fuel (first argument) is `n` itself, which always suffices. -/
def npotLoop : Nat → Nat → Nat → Nat
  | 0, result, _ => result
  | fuel + 1, result, n => if result < n then npotLoop fuel (result * 2) n else result

/-- Smallest power of two `≥ n`, 1 for `n ≤ 1` (`next_power_of_two`). -/
def next_power_of_two (n : Nat) : Nat :=
  if n ≤ 1 then 1 else npotLoop n 1 n

/-- One bottom-up reduction step: hash adjacent pairs (`chunks_exact(2)`). -/
def pairUp : List Bytes → List Bytes
  | a :: b :: rest => hash_node a b :: pairUp rest
  | _ => []

/-- The `while nodes.len() > 1` reduction loop of `compute_merkle_root`,
including the defensive odd-count duplication.  Fuel is the starting
node count, which bounds the level count. -/
def buildLevels : Nat → List Bytes → List Bytes
  | 0, nodes => nodes
  | fuel + 1, nodes =>
    if nodes.length > 1 then
      let next := pairUp nodes
      let next :=
        if next.length % 2 ≠ 0 ∧ next.length > 1 then
          next ++ [(next.getLast?).getD []]
        else next
      buildLevels fuel next
    else nodes

/-- Merkle root over pre-serialized leaves (`compute_merkle_root`). -/
def compute_merkle_root (leaves : List Bytes) : Except TransitionError Bytes :=
  if leaves = [] then .ok empty_tree_root
  else if leaves.length > 2 ^ MAX_MERKLE_DEPTH then .error .PayloadLimitExceeded
  else
    let nodes := leaves.map hash_leaf
    let paddedLen := next_power_of_two nodes.length
    let padded := nodes ++ List.replicate (paddedLen - nodes.length) ((nodes.getLast?).getD [])
    .ok ((buildLevels padded.length padded).getD 0 [])

-- ──────────────────────────────────────────────────────────────────────────
-- Witness types (state/witness.rs)
-- ──────────────────────────────────────────────────────────────────────────

/-- Maximum byte length of a leaf mutation key (`MAX_KEY_BYTES`). -/
def MAX_KEY_BYTES : Nat := 64

/-- Maximum byte length of a leaf mutation value (`MAX_VALUE_BYTES`). -/
def MAX_VALUE_BYTES : Nat := 4096

/-- Which side of its parent the current node occupies (`NodePosition`). -/
inductive NodePosition where
  | Left
  | Right
deriving DecidableEq, Repr

/-- One level in a Merkle authentication path (`MerklePathNode`). -/
structure MerklePathNode where
  sibling : Bytes
  position : NodePosition
deriving DecidableEq, Repr

/-- An authentication path from a leaf to the Merkle root (`MerklePath`). -/
structure MerklePath where
  nodes : List MerklePathNode
deriving DecidableEq, Repr

namespace MerklePath

/-- Construct a path, enforcing the depth limit (`MerklePath::new`). -/
def new (nodes : List MerklePathNode) : Except TransitionError MerklePath :=
  if nodes.length > MAX_MERKLE_DEPTH then .error .InvalidMerkleWitness
  else .ok ⟨nodes⟩

/-- Walk the path from `start` to the root (`MerklePath::walk`). -/
def walk (p : MerklePath) (start : Bytes) : Bytes :=
  p.nodes.foldl
    (fun current node =>
      match node.position with
      | .Left => hash_node current node.sibling
      | .Right => hash_node node.sibling current)
    start

/-- Verify that walking from `leafHash` reaches `expectedRoot`
(`MerklePath::verify`). -/
def verify (p : MerklePath) (leafHash expectedRoot : Bytes) :
    Except TransitionError Unit :=
  if p.walk leafHash ≠ expectedRoot then .error .InvalidMerkleWitness
  else .ok ()

/-- Walk the path with a new leaf hash (`MerklePath::reconstruct_root`). -/
def reconstruct_root (p : MerklePath) (newLeafHash : Bytes) : Bytes :=
  p.walk newLeafHash

end MerklePath

/-- A single authenticated leaf update (`LeafMutation`). -/
structure LeafMutation where
  key : Bytes
  old_value : Bytes
  new_value : Bytes
  path : MerklePath
deriving DecidableEq, Repr

/-- Size-limit validation (`LeafMutation::validate_sizes`). -/
def LeafMutation.validate_sizes (m : LeafMutation) : Except TransitionError Unit :=
  if m.key = [] ∨ m.key.length > MAX_KEY_BYTES then .error .InvalidSerialization
  else if m.old_value.length > MAX_VALUE_BYTES then .error .InvalidSerialization
  else if m.new_value.length > MAX_VALUE_BYTES then .error .InvalidSerialization
  else .ok ()

/-- Aggregate statistics for entropy computation (`EntropyStats`). -/
structure EntropyStats where
  active_bonded_magnitude_raw : Nat
  total_supply_raw : Nat
  unique_active_validators : Nat
  optimal_validator_count : Nat
deriving DecidableEq, Repr

/-- Internally-checkable constraints (`EntropyStats::validate`). -/
def EntropyStats.validate (s : EntropyStats) : Except TransitionError Unit :=
  if s.active_bonded_magnitude_raw > s.total_supply_raw then .error .MathOverflow
  else if s.optimal_validator_count = 0 then .error .DivisionByZero
  else .ok ()

/-- A single Ed25519 validator signature (`ValidatorSignature`);
`validator_pubkey` is 32 bytes, `signature` 64 bytes. -/
structure ValidatorSignature where
  validator_pubkey : Bytes
  signature : Bytes
deriving DecidableEq, Repr

/-- Maximum payloads per epoch (`MAX_PAYLOADS_PER_EPOCH`, `epoch.rs`). -/
def MAX_PAYLOADS_PER_EPOCH : Nat := 10000

/-- Maximum validator signatures per epoch (`MAX_VALIDATOR_SIGNATURES`). -/
def MAX_VALIDATOR_SIGNATURES : Nat := MAX_PAYLOADS_PER_EPOCH

/-- Everything the host provides for one epoch transition
(`StateWitnessBundle`). -/
structure StateWitnessBundle where
  bond_witnesses : List LeafMutation
  entropy_stats : EntropyStats
  impact_witnesses : List LeafMutation
  validator_signatures : List ValidatorSignature
  validator_witnesses : List LeafMutation
deriving DecidableEq, Repr

/-- Combined payload-count validation (`StateWitnessBundle::validate_limits`). -/
def StateWitnessBundle.validate_limits (w : StateWitnessBundle) :
    Except TransitionError Unit :=
  let total := w.bond_witnesses.length + w.impact_witnesses.length +
    w.validator_witnesses.length
  if total > MAX_PAYLOADS_PER_EPOCH then .error .PayloadLimitExceeded
  else if w.validator_signatures.length > MAX_VALIDATOR_SIGNATURES then
    .error .PayloadLimitExceeded
  else .ok ()

-- ──────────────────────────────────────────────────────────────────────────
-- apply_pool_mutations (state/witness.rs)
-- ──────────────────────────────────────────────────────────────────────────

/-- The strict-ascending key precheck of `apply_pool_mutations` step 2:
true iff no adjacent pair satisfies `mutations[i-1].key >= mutations[i].key`. -/
def keysStrictAscending : List LeafMutation → Bool
  | m1 :: m2 :: rest => bytesLt m1.key m2.key && keysStrictAscending (m2 :: rest)
  | _ => true

/-- The evolving-root verification loop of `apply_pool_mutations` step 3. -/
def applyMutationsLoop : Bytes → List LeafMutation → Except TransitionError Bytes
  | root, [] => .ok root
  | root, m :: rest => do
    let oldLeafHash := hash_leaf m.old_value
    m.path.verify oldLeafHash root
    let newLeafHash := hash_leaf m.new_value
    applyMutationsLoop (m.path.reconstruct_root newLeafHash) rest

/-- Apply authenticated leaf mutations to a pool root
(`apply_pool_mutations`). -/
def apply_pool_mutations (currentRoot : Bytes) (mutations : List LeafMutation) :
    Except TransitionError Bytes :=
  if mutations = [] then .ok currentRoot
  else if keysStrictAscending mutations then applyMutationsLoop currentRoot mutations
  else .error .InvalidSerialization

-- ──────────────────────────────────────────────────────────────────────────
-- Spec-side description of the Model A evolving-root rule (for claim C1)
-- ──────────────────────────────────────────────────────────────────────────

/-- Spec-side: some adjacent pair of mutations has keys equal or in
non-ascending lexicographic byte order.  Written from the claim text, to
be compared with the source's ordering precheck. -/
def someAdjacentPairUnordered (mutations : List LeafMutation) : Bool :=
  (mutations.zip mutations.tail).any (fun p => !bytesLt p.1.key p.2.key)

/-- Spec-side: starting from `r₀`, verify each mutation's path against
`hash_leaf(old_value)` with expected root `rᵢ₋₁` (mismatch fails with
`InvalidMerkleWitness`) and let `rᵢ` be the root obtained by walking the
path from `hash_leaf(new_value)`.  Written from the claim text. -/
def evolveRootSpec : Bytes → List LeafMutation → Except TransitionError Bytes
  | r, [] => .ok r
  | r, m :: rest =>
    if m.path.walk (hash_leaf m.old_value) = r then
      evolveRootSpec (m.path.walk (hash_leaf m.new_value)) rest
    else .error .InvalidMerkleWitness

/-- Spec-side rendering of the whole Model A rule as stated by the claim:
empty input passes the root through, unordered adjacent keys fail with
`InvalidSerialization`, otherwise the evolving-root loop runs. -/
def poolMutationsModelA (currentRoot : Bytes) (mutations : List LeafMutation) :
    Except TransitionError Bytes :=
  if mutations = [] then .ok currentRoot
  else if someAdjacentPairUnordered mutations then .error .InvalidSerialization
  else evolveRootSpec currentRoot mutations

-- ──────────────────────────────────────────────────────────────────────────
-- Fixed-point scalar (math/fixed.rs)
-- ──────────────────────────────────────────────────────────────────────────

/-- The scaling factor (`SCALE = 10^12`). -/
def SCALE : Nat := 1000000000000

/-- Largest `u128` value. -/
def U128_MAX : Nat := 340282366920938463463374607431768211455

/-- `MAX_SAFE_BALANCE_RAW = u128::MAX / SCALE`. -/
def MAX_SAFE_BALANCE_RAW : Nat := U128_MAX / SCALE

/-- The constitutional fixed-point type (`Fixed(u128)`); the inner raw
value is scaled by `SCALE`. -/
structure Fixed where
  raw : Nat
deriving DecidableEq, Repr

namespace Fixed

/-- Construct from a pre-scaled raw value (`Fixed::from_raw`). -/
def from_raw (raw : Nat) : Except TransitionError Fixed :=
  if raw > MAX_SAFE_BALANCE_RAW then .error .MathOverflow else .ok ⟨raw⟩

/-- Construct from a whole-unit count (`Fixed::from_units`); the
multiplication is `u128::checked_mul`. -/
def from_units (wholeUnits : Nat) : Except TransitionError Fixed :=
  if wholeUnits * SCALE > U128_MAX then .error .MathOverflow
  else from_raw (wholeUnits * SCALE)

/-- Scaled multiplication `(a·b)/SCALE` with checked overflow
(`Fixed::mul_scaled`). -/
def mul_scaled (a b : Fixed) : Except TransitionError Fixed :=
  if a.raw * b.raw > U128_MAX then .error .MathOverflow
  else from_raw (a.raw * b.raw / SCALE)

/-- Scaled division `(a·SCALE)/b` with zero-denominator precheck
(`Fixed::div_scaled`). -/
def div_scaled (a b : Fixed) : Except TransitionError Fixed :=
  if b.raw = 0 then .error .DivisionByZero
  else if a.raw * SCALE > U128_MAX then .error .MathOverflow
  else from_raw (a.raw * SCALE / b.raw)

/-- Zero test (`Fixed::is_zero`). -/
def is_zero (a : Fixed) : Bool := a.raw = 0

/-- The zero value (`Fixed::zero`). -/
def zero : Fixed := ⟨0⟩

end Fixed

-- ──────────────────────────────────────────────────────────────────────────
-- Entropy scalar (state/entropy.rs)
-- ──────────────────────────────────────────────────────────────────────────

/-- Global entropy scalar (`compute_entropy`):
`(active_bonded / total_supply) · (unique / optimal)` in `Fixed`
arithmetic. -/
def compute_entropy (activeBondedMagnitude totalSupply : Fixed)
    (uniqueActiveValidators optimalValidatorCount : Nat) :
    Except TransitionError Fixed :=
  if totalSupply.is_zero ∨ optimalValidatorCount = 0 then
    .error .DivisionByZero
  else do
    let bondedRatio ← activeBondedMagnitude.div_scaled totalSupply
    let uniqueValFixed ← Fixed.from_units uniqueActiveValidators
    let optimalValFixed ← Fixed.from_units optimalValidatorCount
    let validatorRatio ← uniqueValFixed.div_scaled optimalValFixed
    bondedRatio.mul_scaled validatorRatio

-- ──────────────────────────────────────────────────────────────────────────
-- Canonical JSON (physics/canonical_json.rs): limits and value tree
-- ──────────────────────────────────────────────────────────────────────────

/-- Maximum nesting depth for objects and arrays (`MAX_DEPTH`). -/
def MAX_DEPTH : Nat := 32

/-- Maximum key-value pairs per object (`MAX_OBJECT_FIELDS`). -/
def MAX_OBJECT_FIELDS : Nat := 64

/-- Maximum items per array (`MAX_ARRAY_ITEMS`). -/
def MAX_ARRAY_ITEMS : Nat := 1024

/-- Maximum total input size in bytes (`MAX_INPUT_BYTES`). -/
def MAX_INPUT_BYTES : Nat := 65536

/-- A parsed JSON value (`Value` in `canonical_json.rs`).  Number
literals are forbidden by the grammar, so no number constructor exists. -/
inductive JVal where
  | jnull
  | jbool (b : Bool)
  | jstr (s : Bytes)
  | jarr (items : List JVal)
  | jobj (pairs : List (Bytes × JVal))

-- ──────────────────────────────────────────────────────────────────────────
-- Canonical JSON: the recursive-descent parser
-- ──────────────────────────────────────────────────────────────────────────

/-- Skip JSON whitespace (`Parser::skip_whitespace`): space, tab,
newline, carriage return. -/
def skipWs : Bytes → Bytes
  | b :: rest =>
    if b = 32 ∨ b = 9 ∨ b = 10 ∨ b = 13 then skipWs rest else b :: rest
  | [] => []

/-- Value of one hexadecimal digit byte, upper or lower case, as accepted
by Rust's `u32::from_str_radix(_, 16)`. -/
def hexDigitVal? (b : Nat) : Option Nat :=
  if 48 ≤ b ∧ b ≤ 57 then some (b - 48)
  else if 97 ≤ b ∧ b ≤ 102 then some (b - 87)
  else if 65 ≤ b ∧ b ≤ 70 then some (b - 55)
  else none

/-- Decode the four bytes after `\u` the way the source does:
`str::from_utf8` followed by `u32::from_str_radix(_, 16)`.  The latter
also accepts a single leading `+`; any other shape fails. -/
def hexQuad? (a b c d : Nat) : Option Nat :=
  if a = 43 then
    match hexDigitVal? b, hexDigitVal? c, hexDigitVal? d with
    | some vb, some vc, some vd => some ((vb * 16 + vc) * 16 + vd)
    | _, _, _ => none
  else
    match hexDigitVal? a, hexDigitVal? b, hexDigitVal? c, hexDigitVal? d with
    | some va, some vb, some vc, some vd =>
      some (((va * 16 + vb) * 16 + vc) * 16 + vd)
    | _, _, _, _ => none

/-- Rust `char::from_u32`: rejects surrogates and out-of-range values. -/
def charFromCodepoint? (n : Nat) : Option Nat :=
  if 55296 ≤ n ∧ n ≤ 57343 then none
  else if n > 1114111 then none
  else some n

/-- UTF-8 encoding of a Unicode scalar value (`char::encode_utf8`). -/
def encodeUtf8 (n : Nat) : Bytes :=
  if n < 128 then [n]
  else if n < 2048 then [192 + n / 64, 128 + n % 64]
  else if n < 65536 then [224 + n / 4096, 128 + n / 64 % 64, 128 + n % 64]
  else [240 + n / 262144, 128 + n / 4096 % 64, 128 + n / 64 % 64, 128 + n % 64]

/-- Body of `Parser::parse_string` after the opening quote: returns the
decoded content bytes and the remaining input. -/
def parseStringBody : Bytes → Except TransitionError (Bytes × Bytes)
  | [] => .error .InvalidSerialization
  | b :: rest =>
    if b = 34 then .ok ([], rest)
    else if b = 92 then
      match rest with
      | [] => .error .InvalidSerialization
      | e :: r =>
        if e = 34 then (parseStringBody r).map (fun p => (34 :: p.1, p.2))
        else if e = 92 then (parseStringBody r).map (fun p => (92 :: p.1, p.2))
        else if e = 47 then (parseStringBody r).map (fun p => (47 :: p.1, p.2))
        else if e = 98 then (parseStringBody r).map (fun p => (8 :: p.1, p.2))
        else if e = 102 then (parseStringBody r).map (fun p => (12 :: p.1, p.2))
        else if e = 110 then (parseStringBody r).map (fun p => (10 :: p.1, p.2))
        else if e = 114 then (parseStringBody r).map (fun p => (13 :: p.1, p.2))
        else if e = 116 then (parseStringBody r).map (fun p => (9 :: p.1, p.2))
        else if e = 117 then
          match r with
          | a :: b2 :: c :: d :: r2 =>
            match hexQuad? a b2 c d with
            | none => .error .InvalidSerialization
            | some n =>
              match charFromCodepoint? n with
              | none => .error .InvalidSerialization
              | some cp =>
                (parseStringBody r2).map (fun p => (encodeUtf8 cp ++ p.1, p.2))
          | _ => .error .InvalidSerialization
        else .error .InvalidSerialization
    else if b < 32 then .error .InvalidSerialization
    else (parseStringBody rest).map (fun p => (b :: p.1, p.2))

/-- `Parser::parse_string`: expect the opening quote, then the body. -/
def parseString : Bytes → Except TransitionError (Bytes × Bytes)
  | [] => .error .InvalidSerialization
  | b :: rest =>
    if b = 34 then parseStringBody rest else .error .InvalidSerialization

/-- One tail byte of a valid object key: `[a-z0-9_]`. -/
def validKeyTailByte (b : Nat) : Bool :=
  (97 ≤ b && b ≤ 122) || (48 ≤ b && b ≤ 57) || b == 95

/-- The object-key grammar `^[a-z][a-z0-9_]*$` checked by
`Parser::parse_object`. -/
def validKey : Bytes → Bool
  | [] => false
  | b :: rest => (97 ≤ b && b ≤ 122) && rest.all validKeyTailByte

/-- True iff some key occurs twice in the member list (the source's
duplicate-key scan over already-parsed pairs). -/
def keysDup : List (Bytes × JVal) → Bool
  | [] => false
  | p :: rest => rest.any (fun q => q.1 == p.1) || keysDup rest

mutual

/-- Fueled rendering of `Parser::parse_value`.  `strictDup = true` is
the source parser; `false` is the identical grammar with only the
duplicate-key rejection removed (used to state claim C9).  `none`
means the fuel ran out, which cannot happen at the fuel chosen by
`canonicalize`. -/
def parseValue (strictDup : Bool) :
    Nat → Nat → Bytes → Option (Except TransitionError (JVal × Bytes))
  | 0, _, _ => none
  | fuel + 1, depth, s =>
    let s := skipWs s
    match s with
    | 34 :: _ =>
      match parseString s with
      | .error e => some (.error e)
      | .ok (str, r) => some (.ok (.jstr str, r))
    | 123 :: _ => parseObject strictDup fuel depth s
    | 91 :: _ => parseArray strictDup fuel depth s
    | 116 :: _ =>
      if s.take 4 = [116, 114, 117, 101] then some (.ok (.jbool true, s.drop 4))
      else some (.error .InvalidSerialization)
    | 102 :: _ =>
      if s.take 5 = [102, 97, 108, 115, 101] then
        some (.ok (.jbool false, s.drop 5))
      else some (.error .InvalidSerialization)
    | 110 :: _ =>
      if s.take 4 = [110, 117, 108, 108] then some (.ok (.jnull, s.drop 4))
      else some (.error .InvalidSerialization)
    | _ => some (.error .InvalidSerialization)
termination_by structural fuel _d _s => fuel

/-- Fueled rendering of `Parser::parse_object`: consume `{`, bump and
check the depth, handle the empty object, otherwise run the member loop. -/
def parseObject (strictDup : Bool) :
    Nat → Nat → Bytes → Option (Except TransitionError (JVal × Bytes))
  | 0, _, _ => none
  | fuel + 1, depth, s =>
    match s with
    | 123 :: rest =>
      if depth + 1 > MAX_DEPTH then some (.error .InvalidSerialization)
      else
        let rest := skipWs rest
        if rest.head? = some 125 then some (.ok (.jobj [], rest.tail))
        else parseMembers strictDup fuel (depth + 1) [] rest
    | _ => some (.error .InvalidSerialization)
termination_by structural fuel _d _s => fuel

/-- Fueled rendering of the member loop inside `Parser::parse_object`;
`pairs` is the list parsed so far (the source's `pairs` vector). -/
def parseMembers (strictDup : Bool) :
    Nat → Nat → List (Bytes × JVal) → Bytes →
      Option (Except TransitionError (JVal × Bytes))
  | 0, _, _, _ => none
  | fuel + 1, depth, pairs, s =>
    if pairs.length ≥ MAX_OBJECT_FIELDS then some (.error .InvalidSerialization)
    else
      match parseString (skipWs s) with
      | .error e => some (.error e)
      | .ok (key, r1) =>
        if !validKey key then some (.error .InvalidSerialization)
        else if strictDup && pairs.any (fun p => p.1 == key) then
          some (.error .DuplicateKey)
        else
          match skipWs r1 with
          | 58 :: r2 =>
            match parseValue strictDup fuel depth (skipWs r2) with
            | none => none
            | some (.error e) => some (.error e)
            | some (.ok (v, r3)) =>
              match skipWs r3 with
              | 44 :: r4 => parseMembers strictDup fuel depth (pairs ++ [(key, v)]) r4
              | 125 :: r4 => some (.ok (.jobj (pairs ++ [(key, v)]), r4))
              | _ => some (.error .InvalidSerialization)
          | _ => some (.error .InvalidSerialization)
termination_by structural fuel _d _p _s => fuel

/-- Fueled rendering of `Parser::parse_array`. -/
def parseArray (strictDup : Bool) :
    Nat → Nat → Bytes → Option (Except TransitionError (JVal × Bytes))
  | 0, _, _ => none
  | fuel + 1, depth, s =>
    match s with
    | 91 :: rest =>
      if depth + 1 > MAX_DEPTH then some (.error .InvalidSerialization)
      else
        let rest := skipWs rest
        if rest.head? = some 93 then some (.ok (.jarr [], rest.tail))
        else parseItems strictDup fuel (depth + 1) [] rest
    | _ => some (.error .InvalidSerialization)
termination_by structural fuel _d _s => fuel

/-- Fueled rendering of the item loop inside `Parser::parse_array`. -/
def parseItems (strictDup : Bool) :
    Nat → Nat → List JVal → Bytes →
      Option (Except TransitionError (JVal × Bytes))
  | 0, _, _, _ => none
  | fuel + 1, depth, items, s =>
    if items.length ≥ MAX_ARRAY_ITEMS then some (.error .InvalidSerialization)
    else
      match parseValue strictDup fuel depth (skipWs s) with
      | none => none
      | some (.error e) => some (.error e)
      | some (.ok (v, r)) =>
        match skipWs r with
        | 44 :: r2 => parseItems strictDup fuel depth (items ++ [v]) r2
        | 93 :: r2 => some (.ok (.jarr (items ++ [v]), r2))
        | _ => some (.error .InvalidSerialization)
termination_by structural fuel _d _i _s => fuel

end

-- ──────────────────────────────────────────────────────────────────────────
-- Canonical JSON: the emitter
-- ──────────────────────────────────────────────────────────────────────────

/-- Lowercase hex digit byte (`HEX_LOWER` indexing). -/
def hexLowerDigit (n : Nat) : Nat := if n < 10 then 48 + n else 87 + n

/-- Escape one content byte (`emit_string_content` match arms). -/
def escStringByte (b : Nat) : Bytes :=
  if b = 34 then [92, 34]
  else if b = 92 then [92, 92]
  else if b = 8 then [92, 98]
  else if b = 12 then [92, 102]
  else if b = 10 then [92, 110]
  else if b = 13 then [92, 114]
  else if b = 9 then [92, 116]
  else if b < 32 then [92, 117, 48, 48, hexLowerDigit (b / 16), hexLowerDigit (b % 16)]
  else [b]

/-- Canonical escaping of string content (`emit_string_content`). -/
def emit_string_content (s : Bytes) : Bytes := s.flatMap escStringByte

/-- Stable insertion of a pair into a key-sorted member list: the new
pair goes after every existing pair whose key is `≤` its own. -/
def insertPairByKey (x : Bytes × JVal) :
    List (Bytes × JVal) → List (Bytes × JVal)
  | [] => [x]
  | y :: ys =>
    if bytesLt y.1 x.1 then y :: insertPairByKey x ys else x :: y :: ys

/-- Stable sort of object members by ascending key byte order — the
`indices.sort_by(pairs[a].0.cmp(&pairs[b].0))` step of `emit`. -/
def sortPairsByKey : List (Bytes × JVal) → List (Bytes × JVal)
  | [] => []
  | x :: xs => insertPairByKey x (sortPairsByKey xs)

mutual

/-- Recursively sort every object's members by key.  Rust's `emit`
sorts each object as it emits; emitting `canonValue v` in plain order
(`emitRaw`) produces the identical bytes. -/
def canonValue : JVal → JVal
  | .jnull => .jnull
  | .jbool b => .jbool b
  | .jstr s => .jstr s
  | .jarr items => .jarr (canonList items)
  | .jobj pairs => .jobj (sortPairsByKey (canonPairs pairs))
termination_by structural v => v

/-- `canonValue` mapped over array items. -/
def canonList : List JVal → List JVal
  | [] => []
  | v :: rest => canonValue v :: canonList rest
termination_by structural l => l

/-- `canonValue` mapped over member values. -/
def canonPairs : List (Bytes × JVal) → List (Bytes × JVal)
  | [] => []
  | p :: rest => (p.1, canonValue p.2) :: canonPairs rest
termination_by structural l => l

end

mutual

/-- Emit a value as JCS bytes in stored member order (`emit`, with the
per-object sort factored out into `canonValue`). -/
def emitRaw : JVal → Bytes
  | .jnull => [110, 117, 108, 108]
  | .jbool true => [116, 114, 117, 101]
  | .jbool false => [102, 97, 108, 115, 101]
  | .jstr s => 34 :: (emit_string_content s ++ [34])
  | .jarr items => 91 :: (emitItems items ++ [93])
  | .jobj pairs => 123 :: (emitMembers pairs ++ [125])
termination_by structural v => v

/-- Comma-joined item emission. -/
def emitItems : List JVal → Bytes
  | [] => []
  | v :: rest => emitRaw v ++ emitItemsTail rest
termination_by structural l => l

/-- Items after the first, each preceded by a comma. -/
def emitItemsTail : List JVal → Bytes
  | [] => []
  | v :: rest => 44 :: (emitRaw v ++ emitItemsTail rest)
termination_by structural l => l

/-- Comma-joined member emission (`"key":value`). -/
def emitMembers : List (Bytes × JVal) → Bytes
  | [] => []
  | p :: rest =>
    34 :: (emit_string_content p.1 ++ (34 :: (58 :: (emitRaw p.2 ++ emitMembersTail rest))))
termination_by structural l => l

/-- Members after the first, each preceded by a comma. -/
def emitMembersTail : List (Bytes × JVal) → Bytes
  | [] => []
  | p :: rest =>
    44 :: (34 :: (emit_string_content p.1 ++ (34 :: (58 :: (emitRaw p.2 ++ emitMembersTail rest)))))
termination_by structural l => l

end

/-- Emit a value as canonical JCS bytes exactly as the source's `emit`
does: every object's members in ascending key byte order. -/
def emit (v : JVal) : Bytes := emitRaw (canonValue v)

-- ──────────────────────────────────────────────────────────────────────────
-- Canonical JSON: public API
-- ──────────────────────────────────────────────────────────────────────────

/-- The fuel `canonicalize` hands the fueled parser; sufficient for any
input of the given length (each unit of nesting consumes at least one
input byte, and at most two fuel units are spent per byte). -/
def parseFuel (len : Nat) : Nat := 2 * len + 4

/-- Canonicalize JSON input (`canonicalize`): size cap, BOM rejection,
parse, trailing-content check, canonical emission. -/
def canonicalize (input : Bytes) : Except TransitionError Bytes :=
  if input.length > MAX_INPUT_BYTES then .error .InvalidSerialization
  else if input.take 3 = [239, 187, 191] then .error .InvalidSerialization
  else
    match parseValue true (parseFuel input.length) 0 input with
    | none => .error .InvalidSerialization
    | some (.error e) => .error e
    | some (.ok (v, rest)) =>
      if skipWs rest = [] then .ok (emit v)
      else .error .InvalidSerialization

/-- The same pipeline as `canonicalize` with only the duplicate-key rule
removed, returning the parsed tree.  This formalises "JSON input
(conforming to the canonical grammar except for duplicate keys)" for
claim C9. -/
def parseDocumentLastWins (input : Bytes) : Except TransitionError JVal :=
  if input.length > MAX_INPUT_BYTES then .error .InvalidSerialization
  else if input.take 3 = [239, 187, 191] then .error .InvalidSerialization
  else
    match parseValue false (parseFuel input.length) 0 input with
    | none => .error .InvalidSerialization
    | some (.error e) => .error e
    | some (.ok (v, rest)) =>
      if skipWs rest = [] then .ok v
      else .error .InvalidSerialization

mutual

/-- Some object anywhere in the value repeats a key. -/
def hasDupKeys : JVal → Bool
  | .jnull => false
  | .jbool _ => false
  | .jstr _ => false
  | .jarr items => hasDupKeysList items
  | .jobj pairs => keysDup pairs || hasDupKeysPairs pairs
termination_by structural v => v

/-- `hasDupKeys` over array items. -/
def hasDupKeysList : List JVal → Bool
  | [] => false
  | v :: rest => hasDupKeys v || hasDupKeysList rest
termination_by structural l => l

/-- `hasDupKeys` over member values. -/
def hasDupKeysPairs : List (Bytes × JVal) → Bool
  | [] => false
  | p :: rest => hasDupKeys p.2 || hasDupKeysPairs rest
termination_by structural l => l

end

/-- Numeric-string grammar check (`validate_numeric_string`):
`^(0|[1-9][0-9]*)$`. -/
def validate_numeric_string (s : Bytes) : Except TransitionError Unit :=
  if s = [] then .error .InvalidSerialization
  else if s = [48] then .ok ()
  else if ¬ (49 ≤ s.headD 0 ∧ s.headD 0 ≤ 57) then .error .InvalidSerialization
  else if s.tail.all (fun b => 48 ≤ b && b ≤ 57) then .ok ()
  else .error .InvalidSerialization

-- ──────────────────────────────────────────────────────────────────────────
-- Canonical JSON: structural measures and invariants used in the proofs
-- ──────────────────────────────────────────────────────────────────────────

mutual

/-- Nesting height of a value: number of object/array levels. -/
def heightOf : JVal → Nat
  | .jnull => 0
  | .jbool _ => 0
  | .jstr _ => 0
  | .jarr items => 1 + heightList items
  | .jobj pairs => 1 + heightPairs pairs
termination_by structural v => v

/-- Maximum height over array items. -/
def heightList : List JVal → Nat
  | [] => 0
  | v :: rest => max (heightOf v) (heightList rest)
termination_by structural l => l

/-- Maximum height over member values. -/
def heightPairs : List (Bytes × JVal) → Nat
  | [] => 0
  | p :: rest => max (heightOf p.2) (heightPairs rest)
termination_by structural l => l

end

/-- Keys of adjacent members are strictly ascending in byte order. -/
def keysStrictSorted : List (Bytes × JVal) → Bool
  | [] => true
  | [_] => true
  | p :: q :: rest => bytesLt p.1 q.1 && keysStrictSorted (q :: rest)

mutual

/-- A value already in canonical form: every object within its size cap,
keys valid and strictly ascending; every array within its size cap. -/
def canonB : JVal → Bool
  | .jnull => true
  | .jbool _ => true
  | .jstr _ => true
  | .jarr items => decide (items.length ≤ MAX_ARRAY_ITEMS) && canonListB items
  | .jobj pairs =>
    decide (pairs.length ≤ MAX_OBJECT_FIELDS) && keysStrictSorted pairs &&
      pairs.all (fun p => validKey p.1) && canonPairsB pairs
termination_by structural v => v

/-- `canonB` over array items. -/
def canonListB : List JVal → Bool
  | [] => true
  | v :: rest => canonB v && canonListB rest
termination_by structural l => l

/-- `canonB` over member values. -/
def canonPairsB : List (Bytes × JVal) → Bool
  | [] => true
  | p :: rest => canonB p.2 && canonPairsB rest
termination_by structural l => l

end

mutual

/-- A value as the strict parser can produce it: every object within its
size cap, keys valid and pairwise distinct; every array within its cap. -/
def wfB : JVal → Bool
  | .jnull => true
  | .jbool _ => true
  | .jstr _ => true
  | .jarr items => decide (items.length ≤ MAX_ARRAY_ITEMS) && wfListB items
  | .jobj pairs =>
    decide (pairs.length ≤ MAX_OBJECT_FIELDS) && !keysDup pairs &&
      pairs.all (fun p => validKey p.1) && wfPairsB pairs
termination_by structural v => v

/-- `wfB` over array items. -/
def wfListB : List JVal → Bool
  | [] => true
  | v :: rest => wfB v && wfListB rest
termination_by structural l => l

/-- `wfB` over member values. -/
def wfPairsB : List (Bytes × JVal) → Bool
  | [] => true
  | p :: rest => wfB p.2 && wfPairsB rest
termination_by structural l => l

end

mutual

/-- Fuel sufficient for `parseValue` to reparse an emitted value. -/
def fuelNeedV : JVal → Nat
  | .jnull => 1
  | .jbool _ => 1
  | .jstr _ => 1
  | .jarr items => 2 + fuelNeedItems items
  | .jobj pairs => 2 + fuelNeedPairs pairs
termination_by structural v => v

/-- Fuel sufficient for the item loop on an emitted item list. -/
def fuelNeedItems : List JVal → Nat
  | [] => 1
  | v :: rest => 1 + fuelNeedV v + fuelNeedItems rest
termination_by structural l => l

/-- Fuel sufficient for the member loop on an emitted member list. -/
def fuelNeedPairs : List (Bytes × JVal) → Nat
  | [] => 1
  | p :: rest => 1 + fuelNeedV p.2 + fuelNeedPairs rest
termination_by structural l => l

end

-- ──────────────────────────────────────────────────────────────────────────
-- SHA-512 (physics/sha512.rs), FIPS 180-4 §6.4
-- ──────────────────────────────────────────────────────────────────────────

/-- SHA-512 initial hash values (`H` in `sha512.rs`). -/
def sha512H : List Nat :=
  [7640891576956012808, 13503953896175478587,
   4354685564936845355, 11912009170470909681,
   5840696475078001361, 11170449401992604703,
   2270897969802886507, 6620516959819538809]

/-- SHA-512 round constants (`K` in `sha512.rs`). -/
def sha512K : List Nat :=
  [4794697086780616226, 8158064640168781261, 13096744586834688815, 16840607885511220156,
   4131703408338449720, 6480981068601479193, 10538285296894168987, 12329834152419229976,
   15566598209576043074, 1334009975649890238, 2608012711638119052, 6128411473006802146,
   8268148722764581231, 9286055187155687089, 11230858885718282805, 13951009754708518548,
   16472876342353939154, 17275323862435702243, 1135362057144423861, 2597628984639134821,
   3308224258029322869, 5365058923640841347, 6679025012923562964, 8573033837759648693,
   10970295158949994411, 12119686244451234320, 12683024718118986047, 13788192230050041572,
   14330467153632333762, 15395433587784984357, 489312712824947311, 1452737877330783856,
   2861767655752347644, 3322285676063803686, 5560940570517711597, 5996557281743188959,
   7280758554555802590, 8532644243296465576, 9350256976987008742, 10552545826968843579,
   11727347734174303076, 12113106623233404929, 14000437183269869457, 14369950271660146224,
   15101387698204529176, 15463397548674623760, 17586052441742319658, 1182934255886127544,
   1847814050463011016, 2177327727835720531, 2830643537854262169, 3796741975233480872,
   4115178125766777443, 5681478168544905931, 6601373596472566643, 7507060721942968483,
   8399075790359081724, 8693463985226723168, 9568029438360202098, 10144078919501101548,
   10430055236837252648, 11840083180663258601, 13761210420658862357, 14299343276471374635,
   14566680578165727644, 15097957966210449927, 16922976911328602910, 17689382322260857208,
   500013540394364858, 748580250866718886, 1242879168328830382, 1977374033974150939,
   2944078676154940804, 3659926193048069267, 4368137639120453308, 4836135668995329356,
   5532061633213252278, 6448918945643986474, 6902733635092675308, 7801388544844847127]

/-- FIPS 180-4 §4.1.3 `Ch` on 64-bit words. -/
def ch64 (x y z : Nat) : Nat := Nat.xor (Nat.land x y) (Nat.land (not64 x) z)

/-- FIPS 180-4 §4.1.3 `Maj` on 64-bit words. -/
def maj64 (x y z : Nat) : Nat :=
  Nat.xor (Nat.xor (Nat.land x y) (Nat.land x z)) (Nat.land y z)

/-- FIPS 180-4 §4.1.3 Σ₀ (SHA-512). -/
def bigSigma1298 (x : Nat) : Nat :=
  Nat.xor (Nat.xor (rotr64 x 28) (rotr64 x 34)) (rotr64 x 39)

/-- FIPS 180-4 §4.1.3 Σ₁ (SHA-512). -/
def bigSigma1x512 (x : Nat) : Nat :=
  Nat.xor (Nat.xor (rotr64 x 14) (rotr64 x 18)) (rotr64 x 41)

/-- FIPS 180-4 §4.1.3 σ₀ (SHA-512). -/
def smallSigma1298 (x : Nat) : Nat :=
  Nat.xor (Nat.xor (rotr64 x 1) (rotr64 x 8)) (Nat.shiftRight x 7)

/-- FIPS 180-4 §4.1.3 σ₁ (SHA-512). -/
def smallSigma1x512 (x : Nat) : Nat :=
  Nat.xor (Nat.xor (rotr64 x 19) (rotr64 x 61)) (Nat.shiftRight x 6)

/-- First 16 words (64-bit) of the SHA-512 message schedule. -/
def schedule512Init : Bytes → List Nat
  | a :: b :: c :: d :: e :: f :: g :: h :: rest =>
    (((((((a * 256 + b) * 256 + c) * 256 + d) * 256 + e) * 256 + f) * 256 + g) * 256 + h)
      :: schedule512Init rest
  | _ => []

/-- Extend the SHA-512 message schedule to 80 words. -/
def schedule512Extend (w : List Nat) : Nat → List Nat
  | 0 => w
  | k + 1 =>
    let t := w.length
    let next := w64 (smallSigma1x512 (w.getD (t - 2) 0) + w.getD (t - 7) 0 +
      smallSigma1298 (w.getD (t - 15) 0) + w.getD (t - 16) 0)
    schedule512Extend (w ++ [next]) k

/-- Working-variable state for the 80 SHA-512 rounds. -/
structure Sha512Regs where
  a : Nat
  b : Nat
  c : Nat
  d : Nat
  e : Nat
  f : Nat
  g : Nat
  h : Nat

/-- One SHA-512 round. -/
def sha512Round (r : Sha512Regs) (kt wt : Nat) : Sha512Regs :=
  let t1 := w64 (r.h + bigSigma1x512 r.e + ch64 r.e r.f r.g + kt + wt)
  let t2 := w64 (bigSigma1298 r.a + maj64 r.a r.b r.c)
  { a := w64 (t1 + t2), b := r.a, c := r.b, d := r.c,
    e := w64 (r.d + t1), f := r.e, g := r.f, h := r.g }

/-- Process one 128-byte block (`compress` in `sha512.rs`). -/
def sha512Compress (state : List Nat) (block : Bytes) : List Nat :=
  let w := schedule512Extend (schedule512Init block) 64
  let init : Sha512Regs :=
    { a := state.getD 0 0, b := state.getD 1 0, c := state.getD 2 0,
      d := state.getD 3 0, e := state.getD 4 0, f := state.getD 5 0,
      g := state.getD 6 0, h := state.getD 7 0 }
  let r := (List.zip sha512K w).foldl (fun r kw => sha512Round r kw.1 kw.2) init
  [w64 (state.getD 0 0 + r.a), w64 (state.getD 1 0 + r.b),
   w64 (state.getD 2 0 + r.c), w64 (state.getD 3 0 + r.d),
   w64 (state.getD 4 0 + r.e), w64 (state.getD 5 0 + r.f),
   w64 (state.getD 6 0 + r.g), w64 (state.getD 7 0 + r.h)]

/-- Split into 128-byte blocks (fuel = list length, always sufficient). -/
def chunks128 : Nat → Bytes → List Bytes
  | _, [] => []
  | 0, l => [l]
  | fuel + 1, l => l.take 128 :: chunks128 fuel (l.drop 128)

/-- FIPS 180-4 §5.1.2 padding as fed by `sha512` in `sha512.rs`:
message, `128`, zeros to 112 mod 128, then the 128-bit big-endian bit
length whose high 64 bits are zero. -/
def sha512Pad (input : Bytes) : Bytes :=
  let bitLenLo := w64 (input.length * 8)
  let zeros := (128 + 112 - (input.length + 1) % 128) % 128
  input ++ [128] ++ List.replicate zeros 0 ++ beBytes 8 0 ++ beBytes 8 bitLenLo

/-- Compute SHA-512 over a byte string (`sha512` in `sha512.rs`),
returning the 64 digest bytes. -/
def sha512 (input : Bytes) : Bytes :=
  let padded := sha512Pad input
  let blocks := chunks128 padded.length padded
  let final := blocks.foldl sha512Compress sha512H
  final.flatMap (fun word => beBytes 8 word)

/-- FIPS 180-4 test vector: SHA-512 of `"abc"`. -/
theorem sha512_abc_vector :
    sha512 [97, 98, 99] =
      [221, 175, 53, 161, 147, 97, 122, 186,
       204, 65, 115, 73, 174, 32, 65, 49,
       18, 230, 250, 78, 137, 169, 126, 162,
       10, 158, 238, 230, 75, 85, 211, 154,
       33, 146, 153, 42, 39, 79, 193, 168,
       54, 186, 60, 35, 163, 254, 235, 189,
       69, 77, 68, 35, 100, 60, 232, 14,
       42, 154, 201, 79, 165, 76, 164, 159] := by
  decide

-- ──────────────────────────────────────────────────────────────────────────
-- Ed25519 strict verification
-- ──────────────────────────────────────────────────────────────────────────

/-- The field prime `2^255 - 19`. -/
def edP : Nat := 57896044618658097711785492504343953926634992332820282019728792003956564819949

/-- The group order `L = 2^252 + 27742317777372353535851937790883648493`. -/
def edL : Nat := 7237005577332262213973186563042994240857116359379907606001950938285454250989

/-- The curve constant `d = -121665/121666 mod p`. -/
def edD : Nat := 37095705934669439343138083508754565189542113879843219016388785533085940283555

/-- `sqrt(-1) mod p = 2^((p-1)/4)`, used by point decompression. -/
def edSqrtM1 : Nat :=
  19681161376707505956807079304988542015446066515923890162744021073123829784752

/-- A point on the twisted Edwards curve in extended homogeneous
coordinates `(X : Y : Z : T)` with `x = X/Z`, `y = Y/Z`, `T = XY/Z`. -/
structure EdPoint where
  X : Nat
  Y : Nat
  Z : Nat
  T : Nat
deriving DecidableEq, Repr

/-- The identity element (affine `(0, 1)`). -/
def edId : EdPoint := ⟨0, 1, 1, 0⟩

/-- The Ed25519 base point `B` (RFC 8032 §5.1). -/
def edB : EdPoint :=
  { X := 15112221349535400772501151409588531511454012693041857206046113283949847762202,
    Y := 46316835694926478169428394003475163141307993866256225615783033603165251855960,
    Z := 1,
    T := 15112221349535400772501151409588531511454012693041857206046113283949847762202 *
      46316835694926478169428394003475163141307993866256225615783033603165251855960 % edP }

/-- Subtraction mod `p` on canonical representatives. -/
def subP (a b : Nat) : Nat := (a + edP - b % edP) % edP

/-- Unified complete addition on the twisted Edwards curve
(`add-2008-hwcd`, valid for doubling as well since `d` is non-square). -/
def edAdd (p1 p2 : EdPoint) : EdPoint :=
  let A := p1.X * p2.X % edP
  let B := p1.Y * p2.Y % edP
  let C := edD * p1.T % edP * p2.T % edP
  let D := p1.Z * p2.Z % edP
  let E := subP (subP ((p1.X + p1.Y) * (p2.X + p2.Y) % edP) A) B
  let F := subP D C
  let G := (D + C) % edP
  let H := (B + A) % edP
  { X := E * F % edP, Y := G * H % edP, Z := F * G % edP, T := E * H % edP }

/-- Scalar multiplication by `k`: binary double-and-add, processing the
least-significant bit first, accumulator-passing; fuel is a bit-count
bound, 256 in every use. -/
def edSmulGo : Nat → Nat → EdPoint → EdPoint → EdPoint
  | 0, _, _, acc => acc
  | fuel + 1, k, P, acc =>
    if k = 0 then acc
    else
      edSmulGo fuel (k / 2) (edAdd P P)
        (if k % 2 = 1 then edAdd acc P else acc)

/-- Scalar multiplication `k · P`. -/
def edSmul (k : Nat) (P : EdPoint) : EdPoint := edSmulGo 256 k P edId

/-- Projective equality of two extended points. -/
def edEq (p1 p2 : EdPoint) : Bool :=
  (p1.X * p2.Z % edP == p2.X * p1.Z % edP) &&
    (p1.Y * p2.Z % edP == p2.Y * p1.Z % edP)

/-- Modular exponentiation mod `p`: square-and-multiply from the
least-significant exponent bit, accumulator-passing; fuel is a bit
bound on the exponent, 256 in every use. -/
def powModPGo : Nat → Nat → Nat → Nat → Nat
  | 0, _, _, r => r
  | fuel + 1, b, e, r =>
    if e = 0 then r
    else
      powModPGo fuel (b * b % edP) (e / 2)
        (if e % 2 = 1 then r * (b % edP) % edP else r)

/-- Modular exponentiation `b ^ e mod p`. -/
def powModP (fuel b e : Nat) : Nat := powModPGo fuel b e 1

/-- Little-endian interpretation of a byte string. -/
def leNat : Bytes → Nat
  | [] => 0
  | b :: rest => b + 256 * leNat rest

/-- Point decompression per RFC 8032 §5.1.3: split off the sign bit,
reject non-canonical `y`, recover `x` from the curve equation by the
`(p+3)/8` exponentiation, reject when no square root exists or when
`x = 0` carries sign 1. -/
def edDecompress (bytes : Bytes) : Option EdPoint :=
  if bytes.length ≠ 32 then none
  else
    let raw := leNat bytes
    let sign := raw / 2 ^ 255
    let y := raw % 2 ^ 255
    if y ≥ edP then none
    else
      let y2 := y * y % edP
      let u := subP y2 1
      let v := (edD * y2 + 1) % edP
      let vInv := powModP 256 v (edP - 2)
      let x2 := u * vInv % edP
      let x0 := powModP 256 x2 ((edP + 3) / 8)
      let xCand :=
        if x0 * x0 % edP = x2 then some x0
        else if x0 * x0 % edP = subP 0 x2 then some (x0 * edSqrtM1 % edP)
        else none
      match xCand with
      | none => none
      | some x =>
        if x = 0 ∧ sign = 1 then none
        else
          let x := if x % 2 ≠ sign then edP - x else x
          some { X := x, Y := y, Z := 1, T := x * y % edP }

/-- A point whose eight-fold multiple is the identity (small order). -/
def edIsSmallOrder (P : EdPoint) : Bool :=
  let p2 := edAdd P P
  let p4 := edAdd p2 p2
  let p8 := edAdd p4 p4
  edEq p8 edId

/-- Modelled from the spec: the vendored `ed25519-dalek`
`verify_strict` behind `physics/ed25519.rs::verify`, which is not part
of this repository's sources.  Per spec §4.4 and RFC 8032: decompress
the public key and `R`, require the scalar `s < L` (canonical), reject
small-order `A` and `R`, hash `R ‖ A ‖ M` with SHA-512 reduced mod `L`,
and require the cofactorless equation `s·B = R + k·A`.  Returns
`Ok(())` or `InvalidSignature` exactly like the wrapper. -/
def ed25519_verify (pubkey message signature : Bytes) :
    Except TransitionError Unit :=
  if pubkey.length ≠ 32 ∨ signature.length ≠ 64 then .error .InvalidSignature
  else
    match edDecompress pubkey with
    | none => .error .InvalidSignature
    | some A =>
      let rBytes := signature.take 32
      let sBytes := signature.drop 32
      let s := leNat sBytes
      if s ≥ edL then .error .InvalidSignature
      else
        match edDecompress rBytes with
        | none => .error .InvalidSignature
        | some R =>
          if edIsSmallOrder A || edIsSmallOrder R then .error .InvalidSignature
          else
            let k := leNat (sha512 (rBytes ++ pubkey ++ message)) % edL
            if edEq (edSmul s edB) (edAdd R (edSmul k A)) then .ok ()
            else .error .InvalidSignature

-- ──────────────────────────────────────────────────────────────────────────
-- Signature gate (state/witness.rs)
-- ──────────────────────────────────────────────────────────────────────────

/-- Domain byte for the epoch signing root (`SIGNING_DOMAIN_PREFIX`). -/
def SIGNING_DOMAIN : Nat := 2

/-- Canonical serialization of one mutation inside the bundle hash:
2-byte big-endian lengths (the `as u16` casts wrap) followed by the
bytes, for key, old value, new value. -/
def serializeMutation (m : LeafMutation) : Bytes :=
  beBytes 2 m.key.length ++ m.key ++
    beBytes 2 m.old_value.length ++ m.old_value ++
    beBytes 2 m.new_value.length ++ m.new_value

/-- Canonical serialization of one mutation vector
(`serialize_mutations`): 4-byte big-endian count, then each mutation. -/
def serialize_mutations (mutations : List LeafMutation) : Bytes :=
  beBytes 4 mutations.length ++ mutations.flatMap serializeMutation

/-- Canonical hash of the three mutation vectors (`compute_bundle_hash`). -/
def compute_bundle_hash (w : StateWitnessBundle) : Bytes :=
  sha256 (serialize_mutations w.bond_witnesses ++
    serialize_mutations w.impact_witnesses ++
    serialize_mutations w.validator_witnesses)

/-- The digest validators sign (`compute_epoch_signing_root`):
`SHA256(2 ‖ prev_state_root ‖ bundle_hash ‖ epoch_number_be8 ‖
kernel_hash)`. -/
def compute_epoch_signing_root (prevStateRoot bundleHash : Bytes)
    (epochNumber : Nat) (kernelHash : Bytes) : Bytes :=
  sha256 (SIGNING_DOMAIN :: (prevStateRoot ++ bundleHash ++
    beBytes 8 epochNumber ++ kernelHash))

/-- Strict ascending pubkey order over adjacent signature pairs (the
structural loop of `verify_quorum` step 1). -/
def pubkeysStrictAscending : List ValidatorSignature → Bool
  | s1 :: s2 :: rest =>
    bytesLt s1.validator_pubkey s2.validator_pubkey &&
      pubkeysStrictAscending (s2 :: rest)
  | _ => true

/-- Verify every signature against the signing root (`verify_quorum`
step 2; all signatures checked, first failure reported). -/
def verifyAllSignatures (signingRoot : Bytes) :
    List ValidatorSignature → Except TransitionError Unit
  | [] => .ok ()
  | sig :: rest => do
    ed25519_verify sig.validator_pubkey signingRoot sig.signature
    verifyAllSignatures signingRoot rest

/-- Quorum verification (`verify_quorum`): pubkey ordering, signature
verification, then the threshold `(2·optimal + 2)/3` computed in
wrapping `u64` arithmetic exactly as the unchecked source expression
does. -/
def verify_quorum (signatures : List ValidatorSignature)
    (signingRoot : Bytes) (optimalValidatorCount : Nat) :
    Except TransitionError Unit := do
  if pubkeysStrictAscending signatures then
    verifyAllSignatures signingRoot signatures
    let threshold := w64 (2 * optimalValidatorCount + 2) / 3
    if signatures.length < threshold then .error .InvalidSignature
    else .ok ()
  else .error .InvalidSerialization

-- ──────────────────────────────────────────────────────────────────────────
-- EpochState (state/epoch.rs)
-- ──────────────────────────────────────────────────────────────────────────

/-- An all-zero 32-byte digest. -/
def zeroDigest : Bytes := List.replicate 32 0

/-- The canonical committed state at the end of one epoch
(`EpochState`); `u128`/`u64` fields are `Nat` values kept within their
machine ranges by every constructor in the code. -/
structure EpochState where
  bond_pool_root : Bytes
  entropy_metric_scaled : Nat
  epoch_number : Nat
  impact_pool_root : Bytes
  kernel_hash : Bytes
  previous_root : Bytes
  state_root : Bytes
  validator_set_root : Bytes
  vdf_challenge_seed : Bytes
deriving DecidableEq, Repr

/-- Hex encoding of one digest byte pair (`encode_digest` body; the
`b >> 4` nibble is reduced mod 16 exactly as the `u8` value guarantees). -/
def encode_digest (d : Bytes) : Bytes :=
  d.flatMap (fun b => [hexLowerDigit (b / 16 % 16), hexLowerDigit (b % 16)])

/-- Reversed decimal digits of `v`; fuel bounds the digit count. -/
def decDigitsRev : Nat → Nat → Bytes
  | 0, _ => []
  | fuel + 1, v => if v = 0 then [] else (48 + v % 10) :: decDigitsRev fuel (v / 10)

/-- Decimal encoding of an unsigned integer (`encode_u128`). -/
def encode_u128 (n : Nat) : Bytes :=
  if n = 0 then [48] else (decDigitsRev n n).reverse

/-- Decimal encoding of a `u64` (`encode_u64`, delegates to `encode_u128`). -/
def encode_u64 (n : Nat) : Bytes := encode_u128 n

/-- ASCII bytes of a literal. -/
def asciiBytes (s : String) : Bytes := s.toList.map Char.toNat

/-- Canonical JSON bytes of the eight committed fields, alphabetical
key order, `state_root` excluded (`build_commitment_json`). -/
def build_commitment_json (s : EpochState) : Bytes :=
  asciiBytes "\x7b\"bond_pool_root\":\"" ++ encode_digest s.bond_pool_root ++
  asciiBytes "\",\"entropy_metric_scaled\":\"" ++ encode_u128 s.entropy_metric_scaled ++
  asciiBytes "\",\"epoch_number\":\"" ++ encode_u64 s.epoch_number ++
  asciiBytes "\",\"impact_pool_root\":\"" ++ encode_digest s.impact_pool_root ++
  asciiBytes "\",\"kernel_hash\":\"" ++ encode_digest s.kernel_hash ++
  asciiBytes "\",\"previous_root\":\"" ++ encode_digest s.previous_root ++
  asciiBytes "\",\"validator_set_root\":\"" ++ encode_digest s.validator_set_root ++
  asciiBytes "\",\"vdf_challenge_seed\":\"" ++ encode_digest s.vdf_challenge_seed ++
  asciiBytes "\"\x7d"

namespace EpochState

/-- Canonical JSON bytes with the `canonicalize` self-check
(`EpochState::canonical_bytes`). -/
def canonical_bytes (s : EpochState) : Except TransitionError Bytes :=
  let raw := build_commitment_json s
  match canonicalize raw with
  | .error e => .error e
  | .ok checked =>
    if checked ≠ raw then .error .InvalidSerialization else .ok raw

/-- `SHA256(canonical_bytes)` (`EpochState::compute_state_root`). -/
def compute_state_root (s : EpochState) : Except TransitionError Bytes :=
  (s.canonical_bytes).map sha256

/-- Assign the computed root (`EpochState::commit`). -/
def commit (s : EpochState) : Except TransitionError EpochState :=
  (s.compute_state_root).map (fun r => { s with state_root := r })

/-- The placeholder genesis state (`EpochState::genesis`): all-zero
fields, then the computed root assigned (`unwrap_or` keeps zeros). -/
def genesis : EpochState :=
  let s : EpochState :=
    { bond_pool_root := zeroDigest, entropy_metric_scaled := 0,
      epoch_number := 0, impact_pool_root := zeroDigest,
      kernel_hash := zeroDigest, previous_root := zeroDigest,
      state_root := zeroDigest, validator_set_root := zeroDigest,
      vdf_challenge_seed := zeroDigest }
  { s with state_root := (s.compute_state_root).toOption.getD zeroDigest }

end EpochState

-- ──────────────────────────────────────────────────────────────────────────
-- Epoch transition (transition.rs)
-- ──────────────────────────────────────────────────────────────────────────

/-- Largest `u64` value. -/
def U64_MAX : Nat := 18446744073709551615

/-- Rust `u64::checked_add`. -/
def checkedAddU64 (a b : Nat) : Option Nat :=
  if a + b > U64_MAX then none else some (a + b)

/-- Advance one epoch without payload processing (`apply_epoch_dry_run`). -/
def apply_epoch_dry_run (prev : EpochState) (payloadCount : Nat)
    (kernelHash : Bytes) : Except TransitionError EpochState :=
  if payloadCount > MAX_PAYLOADS_PER_EPOCH then .error .PayloadLimitExceeded
  else
    match checkedAddU64 prev.epoch_number 1 with
    | none => .error .MathOverflow
    | some newEpochNumber =>
      EpochState.commit
        { bond_pool_root := prev.bond_pool_root,
          entropy_metric_scaled := prev.entropy_metric_scaled,
          epoch_number := newEpochNumber,
          impact_pool_root := prev.impact_pool_root,
          kernel_hash := kernelHash,
          previous_root := prev.state_root,
          state_root := zeroDigest,
          validator_set_root := prev.validator_set_root,
          vdf_challenge_seed := zeroDigest }

/-- Advance one epoch using an authenticated witness bundle
(`apply_epoch`): limits, entropy stats, checked epoch increment,
signature gate, the three pool mutations, entropy recomputation,
assembly and commit. -/
def apply_epoch (prev : EpochState) (witness : StateWitnessBundle)
    (kernelHash : Bytes) : Except TransitionError EpochState := do
  witness.validate_limits
  witness.entropy_stats.validate
  match checkedAddU64 prev.epoch_number 1 with
  | none => .error .MathOverflow
  | some newEpochNumber => do
    let bundleHash := compute_bundle_hash witness
    let signingRoot := compute_epoch_signing_root prev.state_root bundleHash
      newEpochNumber kernelHash
    verify_quorum witness.validator_signatures signingRoot
      witness.entropy_stats.optimal_validator_count
    let newValidatorSetRoot ← apply_pool_mutations prev.validator_set_root
      witness.validator_witnesses
    let newImpactPoolRoot ← apply_pool_mutations prev.impact_pool_root
      witness.impact_witnesses
    let newBondPoolRoot ← apply_pool_mutations prev.bond_pool_root
      witness.bond_witnesses
    let activeBonded ← Fixed.from_raw witness.entropy_stats.active_bonded_magnitude_raw
    let totalSupply ← Fixed.from_raw witness.entropy_stats.total_supply_raw
    let entropy ← compute_entropy activeBonded totalSupply
      witness.entropy_stats.unique_active_validators
      witness.entropy_stats.optimal_validator_count
    EpochState.commit
      { bond_pool_root := newBondPoolRoot,
        entropy_metric_scaled := entropy.raw,
        epoch_number := newEpochNumber,
        impact_pool_root := newImpactPoolRoot,
        kernel_hash := kernelHash,
        previous_root := prev.state_root,
        state_root := zeroDigest,
        validator_set_root := newValidatorSetRoot,
        vdf_challenge_seed := zeroDigest }

-- ──────────────────────────────────────────────────────────────────────────
-- Concrete instances used by the claim evaluations
-- ──────────────────────────────────────────────────────────────────────────

/-- A demo Ed25519 public key (derived from the 32-byte secret `[1; 32]`,
the same construction the repository's own signature tests use). -/
def demoPubkey : Bytes :=
  [138, 136, 227, 221, 116, 9, 241, 149, 253, 82, 219, 45, 60, 186, 93, 114,
   202, 103, 9, 191, 29, 148, 18, 27, 243, 116, 136, 1, 180, 15, 111, 92]

/-- Previous state for the C5 run: all-zero fields except a validator
pool holding the single leaf `hash_leaf("")`. -/
def c5prev : EpochState :=
  { bond_pool_root := zeroDigest, entropy_metric_scaled := 0, epoch_number := 0,
    impact_pool_root := zeroDigest, kernel_hash := zeroDigest,
    previous_root := zeroDigest, state_root := zeroDigest,
    validator_set_root :=
      [110, 52, 11, 156, 255, 179, 122, 152, 156, 165, 68, 230, 187, 120, 10, 44,
       120, 144, 29, 63, 179, 55, 56, 118, 133, 17, 163, 6, 23, 175, 160, 29],
    vdf_challenge_seed := zeroDigest }

/-- A leaf mutation whose key is 65 bytes long — above `MAX_KEY_BYTES`. -/
def c5mut : LeafMutation :=
  { key := List.replicate 65 97, old_value := [], new_value := [118],
    path := ⟨[]⟩ }

/-- Demo signature over the C5 epoch signing root by `demoPubkey`. -/
def c5sig : Bytes :=
  [166, 155, 107, 41, 151, 80, 64, 33, 200, 127, 67, 19, 181, 68, 146, 116,
   207, 138, 136, 255, 64, 191, 182, 146, 40, 119, 189, 229, 27, 25, 100, 179,
   202, 135, 151, 222, 221, 196, 211, 129, 103, 6, 90, 105, 47, 119, 251, 87,
   241, 243, 60, 183, 193, 189, 45, 174, 93, 82, 97, 52, 202, 141, 99, 1]

/-- A fully signed witness bundle carrying the oversized-key mutation. -/
def c5bundle : StateWitnessBundle :=
  { bond_witnesses := [],
    entropy_stats := { active_bonded_magnitude_raw := 0, total_supply_raw := 1000,
                       unique_active_validators := 1, optimal_validator_count := 1 },
    impact_witnesses := [],
    validator_signatures := [{ validator_pubkey := demoPubkey, signature := c5sig }],
    validator_witnesses := [c5mut] }

/-- The committed state `apply_epoch` produces for the C5 run. -/
def c5next : EpochState :=
  { bond_pool_root := zeroDigest, entropy_metric_scaled := 0, epoch_number := 1,
    impact_pool_root := zeroDigest, kernel_hash := zeroDigest,
    previous_root := zeroDigest,
    state_root :=
      [21, 34, 118, 60, 69, 147, 184, 112, 156, 168, 181, 54, 66, 63, 209, 120,
       102, 252, 169, 184, 111, 11, 5, 125, 200, 39, 114, 212, 114, 19, 182, 18],
    validator_set_root :=
      [58, 125, 97, 62, 75, 233, 116, 143, 123, 174, 2, 230, 83, 126, 15, 8,
       21, 234, 20, 179, 169, 108, 50, 183, 98, 71, 18, 123, 88, 163, 60, 145],
    vdf_challenge_seed := zeroDigest }

/-- Previous state for the C6 run: validator pool = `hash_leaf("a")`,
impact pool = `hash_leaf("c")`. -/
def c6prev : EpochState :=
  { bond_pool_root := zeroDigest, entropy_metric_scaled := 0, epoch_number := 0,
    impact_pool_root :=
      [89, 127, 203, 49, 40, 45, 52, 101, 76, 32, 13, 52, 24, 252, 165, 112,
       92, 100, 142, 191, 50, 110, 199, 61, 141, 222, 241, 24, 65, 248, 118, 216],
    kernel_hash := zeroDigest, previous_root := zeroDigest, state_root := zeroDigest,
    validator_set_root :=
      [2, 42, 105, 121, 230, 218, 183, 170, 90, 228, 195, 229, 228, 95, 126, 151,
       113, 18, 167, 230, 53, 147, 130, 13, 190, 193, 236, 115, 138, 36, 249, 60],
    vdf_challenge_seed := zeroDigest }

/-- Demo signature over the C6 epoch signing root by `demoPubkey`. -/
def c6sig : Bytes :=
  [253, 57, 83, 119, 208, 229, 233, 165, 232, 169, 47, 14, 179, 169, 127, 225,
   102, 115, 247, 240, 74, 154, 201, 203, 162, 225, 245, 217, 120, 5, 215, 204,
   111, 191, 252, 194, 32, 191, 85, 234, 14, 208, 180, 177, 79, 123, 134, 97,
   54, 224, 177, 185, 205, 182, 174, 214, 60, 199, 152, 238, 128, 162, 214, 11]

/-- A signed bundle in which the same key `"k"` appears in both the
validator pool and the impact pool. -/
def c6bundle : StateWitnessBundle :=
  { bond_witnesses := [],
    entropy_stats := { active_bonded_magnitude_raw := 0, total_supply_raw := 1000,
                       unique_active_validators := 1, optimal_validator_count := 1 },
    impact_witnesses :=
      [{ key := [107], old_value := [99], new_value := [100], path := ⟨[]⟩ }],
    validator_signatures := [{ validator_pubkey := demoPubkey, signature := c6sig }],
    validator_witnesses :=
      [{ key := [107], old_value := [97], new_value := [98], path := ⟨[]⟩ }] }

/-- The committed state `apply_epoch` produces for the C6 run. -/
def c6next : EpochState :=
  { bond_pool_root := zeroDigest, entropy_metric_scaled := 0, epoch_number := 1,
    impact_pool_root :=
      [208, 112, 220, 91, 141, 169, 174, 167, 220, 15, 90, 212, 194, 157, 137, 150,
       82, 0, 5, 156, 154, 12, 236, 163, 171, 213, 218, 36, 146, 220, 183, 29],
    kernel_hash := zeroDigest, previous_root := zeroDigest,
    state_root :=
      [248, 73, 216, 230, 145, 95, 58, 208, 187, 92, 207, 225, 185, 88, 244, 63,
       82, 109, 145, 239, 192, 201, 122, 76, 159, 166, 238, 213, 105, 106, 25, 113],
    validator_set_root :=
      [87, 235, 53, 97, 93, 71, 243, 78, 199, 20, 202, 205, 245, 253, 116, 96,
       138, 94, 142, 16, 39, 36, 232, 11, 36, 178, 135, 192, 194, 123, 106, 49],
    vdf_challenge_seed := zeroDigest }

/-- A state sitting at the largest representable epoch number. -/
def maxEpochState : EpochState :=
  { bond_pool_root := zeroDigest, entropy_metric_scaled := 0,
    epoch_number := U64_MAX, impact_pool_root := zeroDigest,
    kernel_hash := zeroDigest, previous_root := zeroDigest,
    state_root := zeroDigest, validator_set_root := zeroDigest,
    vdf_challenge_seed := zeroDigest }

/-- An empty witness bundle whose limits and entropy stats validate. -/
def emptyOkBundle : StateWitnessBundle :=
  { bond_witnesses := [],
    entropy_stats := { active_bonded_magnitude_raw := 0, total_supply_raw := 1000,
                       unique_active_validators := 1, optimal_validator_count := 1 },
    impact_witnesses := [], validator_signatures := [], validator_witnesses := [] }

/-- The all-zero uncommitted state. -/
def zeroState : EpochState :=
  { bond_pool_root := zeroDigest, entropy_metric_scaled := 0, epoch_number := 0,
    impact_pool_root := zeroDigest, kernel_hash := zeroDigest,
    previous_root := zeroDigest, state_root := zeroDigest,
    validator_set_root := zeroDigest, vdf_challenge_seed := zeroDigest }

/-- The state `apply_epoch_dry_run` produces from `zeroState`. -/
def zeroStateNext : EpochState :=
  { bond_pool_root := zeroDigest, entropy_metric_scaled := 0, epoch_number := 1,
    impact_pool_root := zeroDigest, kernel_hash := zeroDigest,
    previous_root := zeroDigest,
    state_root :=
      [90, 103, 51, 20, 38, 189, 107, 116, 227, 147, 115, 163, 37, 161, 205, 156,
       121, 2, 147, 212, 120, 240, 184, 228, 87, 5, 240, 35, 190, 146, 219, 35],
    validator_set_root := zeroDigest, vdf_challenge_seed := zeroDigest }


-- ──────────────────────────────────────────────────────────────────────────
-- Canonical-JSON measures: concrete inputs and the commitment object
-- ──────────────────────────────────────────────────────────────────────────

/-- Bytes contributed by one member in comma-separated position. -/
def memberEmitLen (p : Bytes × JVal) : Nat :=
  4 + (emit_string_content p.1).length + (emitRaw p.2).length

/-- The eight committed fields as a JSON object value, in the exact key
order `build_commitment_json` writes them. -/
def commitmentPairs (s : EpochState) : List (Bytes × JVal) :=
  [ (asciiBytes "bond_pool_root", .jstr (encode_digest s.bond_pool_root)),
    (asciiBytes "entropy_metric_scaled", .jstr (encode_u128 s.entropy_metric_scaled)),
    (asciiBytes "epoch_number", .jstr (encode_u64 s.epoch_number)),
    (asciiBytes "impact_pool_root", .jstr (encode_digest s.impact_pool_root)),
    (asciiBytes "kernel_hash", .jstr (encode_digest s.kernel_hash)),
    (asciiBytes "previous_root", .jstr (encode_digest s.previous_root)),
    (asciiBytes "validator_set_root", .jstr (encode_digest s.validator_set_root)),
    (asciiBytes "vdf_challenge_seed", .jstr (encode_digest s.vdf_challenge_seed)) ]

-- ── plain bytes escape to themselves ──

/-- The bytes of `{"b":"2","a":"1"}`: valid but not key-sorted. -/
def c8input : Bytes :=
  [123, 34, 98, 34, 58, 34, 50, 34, 44, 34, 97, 34, 58, 34, 49, 34, 125]

/-- The bytes of `{"a":"1","b":"2"}`: the canonical form of `c8input`. -/
def c8output : Bytes :=
  [123, 34, 97, 34, 58, 34, 49, 34, 44, 34, 98, 34, 58, 34, 50, 34, 125]

/-- The bytes of `{"a":"1","a":"2"}`: a duplicate key in one object. -/
def c9input : Bytes :=
  [123, 34, 97, 34, 58, 34, 49, 34, 44, 34, 97, 34, 58, 34, 50, 34, 125]

/-- The tree the duplicate-tolerant parser reads from `c9input`. -/
def c9value : JVal := .jobj [([97], .jstr [49]), ([97], .jstr [50])]

end Kernel

-- ════════════════════════════════════════════════════════════════════════
-- Claim theorems
-- ════════════════════════════════════════════════════════════════════════

namespace Kernel

theorem keysStrictAscending_eq_not_someAdjacent (mutations : List LeafMutation) :
    keysStrictAscending mutations = !someAdjacentPairUnordered mutations := by
  induction mutations with
  | nil => rfl
  | cons m rest ih =>
    cases rest with
    | nil => rfl
    | cons m2 rest2 =>
      simp only [keysStrictAscending, someAdjacentPairUnordered] at *
      simp only [List.tail_cons, List.zip_cons_cons, List.any_cons] at *
      rw [ih]
      cases bytesLt m.key m2.key <;> simp

theorem applyMutationsLoop_eq_evolveRootSpec (root : Bytes)
    (mutations : List LeafMutation) :
    applyMutationsLoop root mutations = evolveRootSpec root mutations := by
  induction mutations generalizing root with
  | nil => rfl
  | cons m rest ih =>
    simp only [applyMutationsLoop, evolveRootSpec, MerklePath.verify,
      MerklePath.reconstruct_root]
    by_cases h : m.path.walk (hash_leaf m.old_value) = root
    · simp [h, ih, Bind.bind, Except.bind]
    · simp [h, Bind.bind, Except.bind]

/-- C1: `apply_pool_mutations(current_root, mutations)` implements exactly
the Model A evolving-root rule as stated: empty input returns the root
unchanged; any adjacent key pair that is equal or non-ascending fails with
`InvalidSerialization`; otherwise each mutation's path is verified against
`hash_leaf(old_value)` at the evolving root (mismatch fails with
`InvalidMerkleWitness`) and the final evolved root is returned. -/
theorem C1_apply_pool_mutations_implements_model_A
    (currentRoot : Bytes) (mutations : List LeafMutation) :
    apply_pool_mutations currentRoot mutations =
      poolMutationsModelA currentRoot mutations := by
  unfold apply_pool_mutations poolMutationsModelA
  by_cases hnil : mutations = []
  · simp [hnil]
  · simp only [if_neg hnil]
    rw [applyMutationsLoop_eq_evolveRootSpec, keysStrictAscending_eq_not_someAdjacent]
    cases h : someAdjacentPairUnordered mutations <;> simp

/-- C4: a witnessed counterexample to the claimed `[0, 1]` bound of
`compute_entropy`.  The inputs pass every epoch-path gate
(`EntropyStats::validate` accepts bonded = supply = `1.0`, optimal = 10,
and `unique_active_validators = 100` is unconstrained), yet the result is
the `Fixed` raw value `10^13 = 10.0 · SCALE`, strictly above `1.0`:
the validator ratio `unique/optimal = 10` is never clamped, contradicting
the function's own documented range. -/
theorem C4_compute_entropy_exceeds_one :
    EntropyStats.validate ⟨1000000000000, 1000000000000, 100, 10⟩ = .ok () ∧
      Fixed.from_raw 1000000000000 = .ok ⟨1000000000000⟩ ∧
      compute_entropy ⟨1000000000000⟩ ⟨1000000000000⟩ 100 10 =
        .ok ⟨10000000000000⟩ ∧
      10000000000000 > SCALE := by
  refine ⟨by decide, by decide, ?_, by decide⟩
  decide

/-- C10: the Merkle root of a single-leaf tree is the bare domain-separated
leaf hash (no padding to two leaves), and consequently the empty
authentication path authenticates that leaf against itself. -/
theorem C10_single_leaf_root_is_leaf_hash :
    (∀ l : Bytes, compute_merkle_root [l] = .ok (hash_leaf l)) ∧
      (∀ l : Bytes,
        (MerklePath.mk []).verify (hash_leaf l) (hash_leaf l) = .ok ()) := by
  constructor
  · intro l
    simp [compute_merkle_root, next_power_of_two, buildLevels]
  · intro l
    simp [MerklePath.verify, MerklePath.walk]

-- ──────────────────────────────────────────────────────────────────────────
-- Transition helper lemmas
-- ──────────────────────────────────────────────────────────────────────────

theorem commit_preserves_fields {s next : EpochState}
    (h : s.commit = .ok next) :
    next.epoch_number = s.epoch_number ∧ next.previous_root = s.previous_root := by
  unfold EpochState.commit EpochState.compute_state_root at h
  cases hc : s.canonical_bytes with
  | error e => rw [hc] at h; simp [Except.map] at h
  | ok bytes =>
    rw [hc] at h
    simp only [Except.map, Except.ok.injEq] at h
    subst h
    exact ⟨rfl, rfl⟩

theorem checkedAddU64_some {a n : Nat} (h : checkedAddU64 a 1 = some n) :
    n = a + 1 := by
  unfold checkedAddU64 at h
  split at h
  · exact absurd h (by simp)
  · simpa using h.symm

theorem checkedAddU64_max_none : checkedAddU64 U64_MAX 1 = none := by decide

set_option maxRecDepth 2000000 in
set_option maxHeartbeats 4000000 in
theorem apply_epoch_c5_eval :
    apply_epoch c5prev c5bundle zeroDigest = .ok c5next := by
  decide

set_option maxRecDepth 2000000 in
set_option maxHeartbeats 4000000 in
theorem apply_epoch_c6_eval :
    apply_epoch c6prev c6bundle zeroDigest = .ok c6next := by
  decide

set_option maxRecDepth 2000000 in
set_option maxHeartbeats 4000000 in
theorem dry_run_zeroState_eval :
    apply_epoch_dry_run zeroState 0 zeroDigest = .ok zeroStateNext := by
  decide

-- ──────────────────────────────────────────────────────────────────────────
-- C3
-- ──────────────────────────────────────────────────────────────────────────

/-- C3 (amended): on every `Ok` result of `apply_epoch` or
`apply_epoch_dry_run`, the epoch number increments by exactly one and
`previous_root` chains to the prior `state_root`; and at
`epoch_number = u64::MAX` the transition fails with `MathOverflow`
provided the checks that run before the increment pass (bundle limits
and entropy stats for `apply_epoch`; the payload-count cap for the dry
run) — otherwise those earlier checks report their own error first. -/
theorem C3_epoch_increment_and_chaining :
    (∀ (prev : EpochState) (w : StateWitnessBundle) (kh : Bytes)
        (next : EpochState), apply_epoch prev w kh = .ok next →
        next.epoch_number = prev.epoch_number + 1 ∧
          next.previous_root = prev.state_root) ∧
    (∀ (prev : EpochState) (pc : Nat) (kh : Bytes) (next : EpochState),
        apply_epoch_dry_run prev pc kh = .ok next →
        next.epoch_number = prev.epoch_number + 1 ∧
          next.previous_root = prev.state_root) ∧
    (∀ (prev : EpochState) (w : StateWitnessBundle) (kh : Bytes),
        prev.epoch_number = U64_MAX →
        w.validate_limits = .ok () → w.entropy_stats.validate = .ok () →
        apply_epoch prev w kh = .error .MathOverflow) ∧
    (∀ (prev : EpochState) (pc : Nat) (kh : Bytes),
        prev.epoch_number = U64_MAX → pc ≤ MAX_PAYLOADS_PER_EPOCH →
        apply_epoch_dry_run prev pc kh = .error .MathOverflow) := by
  refine ⟨?_, ?_, ?_, ?_⟩
  · intro prev w kh next h
    unfold apply_epoch at h
    cases hv : w.validate_limits with
    | error e => rw [hv] at h; simp [Bind.bind, Except.bind] at h
    | ok u =>
      cases u
      rw [hv] at h
      simp only [Bind.bind, Except.bind] at h
      cases he : w.entropy_stats.validate with
      | error e => rw [he] at h; simp at h
      | ok u =>
        cases u
        rw [he] at h
        simp only at h
        cases hadd : checkedAddU64 prev.epoch_number 1 with
        | none => rw [hadd] at h; simp at h
        | some n =>
          rw [hadd] at h
          simp only at h
          cases hq : verify_quorum w.validator_signatures
              (compute_epoch_signing_root prev.state_root
                (compute_bundle_hash w) n kh)
              w.entropy_stats.optimal_validator_count with
          | error e => rw [hq] at h; simp at h
          | ok u =>
            cases u
            rw [hq] at h
            simp only at h
            cases hp1 : apply_pool_mutations prev.validator_set_root
                w.validator_witnesses with
            | error e => rw [hp1] at h; simp at h
            | ok vroot =>
              rw [hp1] at h
              simp only at h
              cases hp2 : apply_pool_mutations prev.impact_pool_root
                  w.impact_witnesses with
              | error e => rw [hp2] at h; simp at h
              | ok iroot =>
                rw [hp2] at h
                simp only at h
                cases hp3 : apply_pool_mutations prev.bond_pool_root
                    w.bond_witnesses with
                | error e => rw [hp3] at h; simp at h
                | ok broot =>
                  rw [hp3] at h
                  simp only at h
                  cases hf1 : Fixed.from_raw
                      w.entropy_stats.active_bonded_magnitude_raw with
                  | error e => rw [hf1] at h; simp at h
                  | ok ab =>
                    rw [hf1] at h
                    simp only at h
                    cases hf2 : Fixed.from_raw w.entropy_stats.total_supply_raw with
                    | error e => rw [hf2] at h; simp at h
                    | ok ts =>
                      rw [hf2] at h
                      simp only at h
                      cases hce : compute_entropy ab ts
                          w.entropy_stats.unique_active_validators
                          w.entropy_stats.optimal_validator_count with
                      | error e => rw [hce] at h; simp at h
                      | ok ent =>
                        rw [hce] at h
                        simp only at h
                        have hfields := commit_preserves_fields h
                        have hn := checkedAddU64_some hadd
                        subst hn
                        simpa using hfields
  · intro prev pc kh next h
    unfold apply_epoch_dry_run at h
    split at h
    · exact absurd h (by simp)
    · cases hadd : checkedAddU64 prev.epoch_number 1 with
      | none => rw [hadd] at h; simp at h
      | some n =>
        rw [hadd] at h
        simp only at h
        have hfields := commit_preserves_fields h
        have hn := checkedAddU64_some hadd
        subst hn
        simpa using hfields
  · intro prev w kh hmax hv he
    unfold apply_epoch
    rw [hv, he]
    simp only [Bind.bind, Except.bind]
    rw [hmax, checkedAddU64_max_none]
  · intro prev pc kh hmax hpc
    unfold apply_epoch_dry_run
    rw [if_neg (by omega)]
    rw [hmax, checkedAddU64_max_none]

/-- C3 counterexample: at `epoch_number = u64::MAX` with an oversized
payload count, the dry run fails with `PayloadLimitExceeded` — not with
`MathOverflow` as the claim universally asserts — because the payload
cap is checked before the epoch increment. -/
theorem C3_counterexample_earlier_check_wins :
    maxEpochState.epoch_number = U64_MAX ∧
      apply_epoch_dry_run maxEpochState 10001 zeroDigest =
        .error .PayloadLimitExceeded ∧
      TransitionError.PayloadLimitExceeded ≠ TransitionError.MathOverflow := by
  refine ⟨by decide, by decide, by decide⟩

/-- C3 witness: each conjunct of the amended claim applied at a
concrete input — a real signed `apply_epoch` run, a dry run from the
all-zero state, and both `u64::MAX` overflow cases. -/
theorem C3_epoch_increment_witness :
    (c5next.epoch_number = c5prev.epoch_number + 1 ∧
      c5next.previous_root = c5prev.state_root) ∧
    (zeroStateNext.epoch_number = zeroState.epoch_number + 1 ∧
      zeroStateNext.previous_root = zeroState.state_root) ∧
    apply_epoch maxEpochState emptyOkBundle zeroDigest = .error .MathOverflow ∧
    apply_epoch_dry_run maxEpochState 0 zeroDigest = .error .MathOverflow := by
  refine ⟨?_, ?_, ?_, ?_⟩
  · exact C3_epoch_increment_and_chaining.1 c5prev c5bundle zeroDigest c5next
      apply_epoch_c5_eval
  · exact C3_epoch_increment_and_chaining.2.1 zeroState 0 zeroDigest
      zeroStateNext dry_run_zeroState_eval
  · exact C3_epoch_increment_and_chaining.2.2.1 maxEpochState emptyOkBundle
      zeroDigest (by decide) (by decide) (by decide)
  · exact C3_epoch_increment_and_chaining.2.2.2 maxEpochState 0 zeroDigest
      (by decide) (by decide)

-- ──────────────────────────────────────────────────────────────────────────
-- C5 and C6
-- ──────────────────────────────────────────────────────────────────────────

/-- C5: `apply_epoch` commits a bundle containing a `LeafMutation` whose
key is 65 bytes — above `MAX_KEY_BYTES = 64` and rejected by
`LeafMutation::validate_sizes` — because the transition never invokes
the size validation.  The run passes limits, entropy, a real Ed25519
quorum and Merkle verification, and returns a committed state. -/
theorem C5_apply_epoch_accepts_oversized_key :
    c5mut ∈ c5bundle.validator_witnesses ∧
      c5mut.key.length = 65 ∧ MAX_KEY_BYTES = 64 ∧
      c5mut.validate_sizes = .error .InvalidSerialization ∧
      apply_epoch c5prev c5bundle zeroDigest = .ok c5next := by
  exact ⟨by decide, by decide, by decide, by decide, apply_epoch_c5_eval⟩

/-- C6: `apply_epoch` commits a bundle in which the same key `"k"`
appears in both the validator pool's and the impact pool's mutation
sequence — no cross-pool key check exists anywhere on the path. -/
theorem C6_apply_epoch_accepts_cross_pool_duplicate_key :
    c6bundle.validator_witnesses.map (fun m => m.key) = [[107]] ∧
      c6bundle.impact_witnesses.map (fun m => m.key) = [[107]] ∧
      apply_epoch c6prev c6bundle zeroDigest = .ok c6next := by
  exact ⟨by decide, by decide, apply_epoch_c6_eval⟩

-- ──────────────────────────────────────────────────────────────────────────
-- C7
-- ──────────────────────────────────────────────────────────────────────────

/-- C7: the quorum threshold `(2·optimal + 2)/3` is computed in
unchecked `u64` arithmetic, so at `optimal = 2^63` the numerator wraps
to 2 and the computed threshold is 0: `verify_quorum` accepts an empty
signature list, whereas the claimed threshold `⌈2·optimal/3⌉` is
6148914691236517206.  (At 2 ≤ optimal = 4 ≤ small values the two
formulas agree; the wrap breaks the claimed equality.) -/
theorem C7_verify_quorum_threshold_wraps :
    verify_quorum [] zeroDigest 9223372036854775808 = .ok () ∧
      w64 (2 * 9223372036854775808 + 2) / 3 = 0 ∧
      (2 * 9223372036854775808 + 2) / 3 = 6148914691236517206 := by
  refine ⟨by decide, by decide, by decide⟩

end Kernel

set_option maxHeartbeats 1600000

set_option maxHeartbeats 1600000

namespace Kernel

-- ── string round-trip ──

lemma parseStringBody_escByte (b : Nat) (rest : Bytes) :
    parseStringBody (escStringByte b ++ rest) =
      (parseStringBody rest).map (fun p => (b :: p.1, p.2)) := by
  by_cases h34 : b = 34
  · subst h34
    show parseStringBody (92 :: 34 :: rest) = _
    rw [parseStringBody.eq_def]; simp
  by_cases h92 : b = 92
  · subst h92
    show parseStringBody (92 :: 92 :: rest) = _
    rw [parseStringBody.eq_def]; simp
  by_cases h8 : b = 8
  · subst h8
    show parseStringBody (92 :: 98 :: rest) = _
    rw [parseStringBody.eq_def]; simp
  by_cases h12 : b = 12
  · subst h12
    show parseStringBody (92 :: 102 :: rest) = _
    rw [parseStringBody.eq_def]; simp
  by_cases h10 : b = 10
  · subst h10
    show parseStringBody (92 :: 110 :: rest) = _
    rw [parseStringBody.eq_def]; simp
  by_cases h13 : b = 13
  · subst h13
    show parseStringBody (92 :: 114 :: rest) = _
    rw [parseStringBody.eq_def]; simp
  by_cases h9 : b = 9
  · subst h9
    show parseStringBody (92 :: 116 :: rest) = _
    rw [parseStringBody.eq_def]; simp
  by_cases hlt : b < 32
  · interval_cases b <;>
      (first
        | omega
        | (simp only [escStringByte, hexLowerDigit]
           norm_num
           rw [parseStringBody.eq_def]
           simp [hexQuad?, hexDigitVal?, charFromCodepoint?, encodeUtf8]))
  · have hesc : escStringByte b = [b] := by
      unfold escStringByte
      simp [h34, h92, h8, h12, h10, h13, h9, hlt]
    rw [hesc]
    show parseStringBody (b :: rest) = _
    rw [parseStringBody.eq_def]
    simp [h34, h92, hlt]

lemma parseStringBody_emit (s rest : Bytes) :
    parseStringBody (emit_string_content s ++ (34 :: rest)) = .ok (s, rest) := by
  induction s with
  | nil =>
    show parseStringBody (34 :: rest) = _
    rw [parseStringBody.eq_def]; simp
  | cons b s ih =>
    have h : emit_string_content (b :: s) = escStringByte b ++ emit_string_content s := rfl
    rw [h, List.append_assoc, parseStringBody_escByte, ih]
    rfl

lemma parseString_emit (s rest : Bytes) :
    parseString (34 :: (emit_string_content s ++ (34 :: rest))) = .ok (s, rest) := by
  simp [parseString, parseStringBody_emit]

-- ── skipWs and emit heads ──

lemma skipWs_len (s : Bytes) : (skipWs s).length ≤ s.length := by
  induction s with
  | nil => simp [skipWs]
  | cons b rest ih =>
    unfold skipWs
    split
    · exact le_trans ih (by simp)
    · simp

lemma skipWs_cons_of_not_ws {b : Nat} (h : ¬(b = 32 ∨ b = 9 ∨ b = 10 ∨ b = 13))
    (rest : Bytes) : skipWs (b :: rest) = b :: rest := by
  unfold skipWs
  simp [h]

lemma emitRaw_head (v : JVal) :
    ∃ b t, emitRaw v = b :: t ∧
      (b = 34 ∨ b = 91 ∨ b = 102 ∨ b = 110 ∨ b = 116 ∨ b = 123) := by
  cases v with
  | jnull => exact ⟨110, _, rfl, by omega⟩
  | jbool b =>
    cases b
    · exact ⟨102, _, rfl, by omega⟩
    · exact ⟨116, _, rfl, by omega⟩
  | jstr s => exact ⟨34, _, rfl, by omega⟩
  | jarr items => exact ⟨91, _, rfl, by omega⟩
  | jobj pairs => exact ⟨123, _, rfl, by omega⟩

lemma skipWs_emitRaw (v : JVal) (rest : Bytes) :
    skipWs (emitRaw v ++ rest) = emitRaw v ++ rest := by
  obtain ⟨b, t, hv, hb⟩ := emitRaw_head v
  rw [hv]
  exact skipWs_cons_of_not_ws (by omega) _

-- ── sorted keys pairwise facts ──

lemma keysStrictSorted_iff_chain : ∀ l : List (Bytes × JVal),
    keysStrictSorted l = true ↔ List.Chain' (fun p q : Bytes × JVal => bytesLt p.1 q.1 = true) l
  | [] => by simp [keysStrictSorted]
  | [p] => by simp [keysStrictSorted]
  | p :: q :: rest => by
    rw [List.chain'_cons, ← keysStrictSorted_iff_chain (q :: rest)]
    simp [keysStrictSorted, Bool.and_eq_true]

lemma keysStrictSorted_pairwise {l : List (Bytes × JVal)}
    (h : keysStrictSorted l = true) :
    l.Pairwise (fun p q => bytesLt p.1 q.1 = true) := by
  have inst : IsTrans (Bytes × JVal) (fun p q => bytesLt p.1 q.1 = true) :=
    ⟨fun _ _ _ hab hbc => bytesLt_trans hab hbc⟩
  exact List.chain'_iff_pairwise.1 ((keysStrictSorted_iff_chain l).1 h)

lemma sorted_append_fresh {prev rest : List (Bytes × JVal)} {p : Bytes × JVal}
    (h : keysStrictSorted (prev ++ p :: rest) = true) :
    prev.any (fun q => q.1 == p.1) = false := by
  have hp := keysStrictSorted_pairwise h
  rw [List.pairwise_append] at hp
  by_contra hc
  rw [Bool.not_eq_false, List.any_eq_true] at hc
  obtain ⟨q, hq, hqe⟩ := hc
  have : bytesLt q.1 p.1 = true := hp.2.2 q hq p (by simp)
  rw [beq_iff_eq] at hqe
  rw [hqe] at this
  rw [bytesLt_irrefl] at this
  exact Bool.noConfusion this

lemma keysStrictSorted_tail {p : Bytes × JVal} {l : List (Bytes × JVal)}
    (h : keysStrictSorted (p :: l) = true) : keysStrictSorted l = true := by
  cases l with
  | nil => rfl
  | cons q rest =>
    rw [show keysStrictSorted (p :: q :: rest) = (bytesLt p.1 q.1 && keysStrictSorted (q :: rest)) from rfl,
      Bool.and_eq_true] at h
    exact h.2

end Kernel

namespace Kernel

-- ── fuel positivity and emit-tail shapes ──

lemma fuelNeedV_pos (v : JVal) : 1 ≤ fuelNeedV v := by
  cases v <;> simp [fuelNeedV] <;> omega

lemma fuelNeedItems_pos (l : List JVal) : 1 ≤ fuelNeedItems l := by
  cases l <;> simp [fuelNeedItems] <;> omega

lemma fuelNeedPairs_pos (l : List (Bytes × JVal)) : 1 ≤ fuelNeedPairs l := by
  cases l <;> simp [fuelNeedPairs] <;> omega

lemma emitMembersTail_cons (q : Bytes × JVal) (qs : List (Bytes × JVal)) :
    emitMembersTail (q :: qs) = 44 :: emitMembers (q :: qs) := by
  rw [emitMembersTail.eq_def, emitMembers.eq_def]

lemma emitItemsTail_cons (v : JVal) (vs : List JVal) :
    emitItemsTail (v :: vs) = 44 :: emitItems (v :: vs) := by
  rw [emitItemsTail.eq_def, emitItems.eq_def]

-- ── the round-trip induction ──

theorem jsonRoundTrip : ∀ fuel : Nat,
    (∀ (b : Bool) (v : JVal) (d : Nat) (rest : Bytes),
      canonB v = true → d + heightOf v ≤ MAX_DEPTH → fuelNeedV v ≤ fuel →
      parseValue b fuel d (emitRaw v ++ rest) = some (.ok (v, rest))) ∧
    (∀ (b : Bool) (prev pairs : List (Bytes × JVal)) (d : Nat) (rest : Bytes),
      pairs ≠ [] → (prev ++ pairs).length ≤ MAX_OBJECT_FIELDS →
      keysStrictSorted (prev ++ pairs) = true →
      ((prev ++ pairs).all fun p => validKey p.1) = true →
      canonPairsB pairs = true →
      d + heightPairs pairs ≤ MAX_DEPTH →
      fuelNeedPairs pairs ≤ fuel →
      parseMembers b fuel d prev (emitMembers pairs ++ (125 :: rest)) =
        some (.ok (.jobj (prev ++ pairs), rest))) ∧
    (∀ (b : Bool) (prevI items : List JVal) (d : Nat) (rest : Bytes),
      items ≠ [] → (prevI ++ items).length ≤ MAX_ARRAY_ITEMS →
      canonListB items = true →
      d + heightList items ≤ MAX_DEPTH →
      fuelNeedItems items ≤ fuel →
      parseItems b fuel d prevI (emitItems items ++ (93 :: rest)) =
        some (.ok (.jarr (prevI ++ items), rest))) := by
  intro fuel
  induction fuel using Nat.strong_induction_on with
  | _ fuel ih =>
  refine ⟨?_, ?_, ?_⟩
  · -- parseValue round trip
    intro b v d rest hc hh hf
    obtain ⟨f, rfl⟩ : ∃ f, fuel = f + 1 :=
      ⟨fuel - 1, by have := fuelNeedV_pos v; omega⟩
    cases v with
    | jnull =>
      show parseValue b (f + 1) d (110 :: 117 :: 108 :: 108 :: rest) = _
      rw [parseValue.eq_def]
      simp [skipWs, List.take, List.drop]
    | jbool bb =>
      cases bb
      · show parseValue b (f + 1) d (102 :: 97 :: 108 :: 115 :: 101 :: rest) = _
        rw [parseValue.eq_def]
        simp [skipWs, List.take, List.drop]
      · show parseValue b (f + 1) d (116 :: 114 :: 117 :: 101 :: rest) = _
        rw [parseValue.eq_def]
        simp [skipWs, List.take, List.drop]
    | jstr s =>
      have hs : (34 :: (emit_string_content s ++ [34])) ++ rest =
          34 :: (emit_string_content s ++ (34 :: rest)) := by simp
      show parseValue b (f + 1) d ((34 :: (emit_string_content s ++ [34])) ++ rest) = _
      rw [hs, parseValue.eq_def]
      simp only []
      rw [skipWs_cons_of_not_ws (by omega)]
      rw [parseString_emit s rest]
    | jarr items =>
      simp only [canonB, Bool.and_eq_true, decide_eq_true_eq] at hc
      simp only [heightOf] at hh
      simp only [fuelNeedV] at hf
      have hfi := fuelNeedItems_pos items
      obtain ⟨g, rfl⟩ : ∃ g, f = g + 1 := ⟨f - 1, by omega⟩
      have hs : (91 :: (emitItems items ++ [93])) ++ rest =
          91 :: (emitItems items ++ (93 :: rest)) := by simp
      show parseValue b (g + 1 + 1) d ((91 :: (emitItems items ++ [93])) ++ rest) = _
      rw [hs, parseValue.eq_def]
      simp only []
      rw [skipWs_cons_of_not_ws (by omega)]
      show parseArray b (g + 1) d (91 :: (emitItems items ++ (93 :: rest))) = _
      rw [parseArray.eq_def]
      simp only []
      have hd : ¬(d + 1 > MAX_DEPTH) := by omega
      rw [if_neg hd]
      cases items with
      | nil =>
        simp [emitItems, skipWs]
      | cons i is =>
        have hil : emitItems (i :: is) ++ (93 :: rest) =
            emitRaw i ++ (emitItemsTail is ++ (93 :: rest)) := by
          rw [emitItems.eq_def]; simp
        rw [hil, skipWs_emitRaw]
        obtain ⟨hb, t, hvi, hbset⟩ := emitRaw_head i
        rw [hvi]
        have hhead : ((hb :: t) ++ (emitItemsTail is ++ (93 :: rest))).head? ≠ some 93 := by
          simp; omega
        rw [if_neg hhead]
        rw [← hvi, ← List.append_assoc]
        have happ : emitRaw i ++ emitItemsTail is = emitItems (i :: is) := by
          rw [emitItems.eq_def]
        rw [happ]
        exact (ih g (by omega)).2.2 b [] (i :: is) (d + 1) rest (by simp)
          (by simpa using hc.1) hc.2 (by omega) (by omega)
    | jobj pairs =>
      simp only [canonB, Bool.and_eq_true, decide_eq_true_eq] at hc
      simp only [heightOf] at hh
      simp only [fuelNeedV] at hf
      have hfp := fuelNeedPairs_pos pairs
      obtain ⟨g, rfl⟩ : ∃ g, f = g + 1 := ⟨f - 1, by omega⟩
      have hs : (123 :: (emitMembers pairs ++ [125])) ++ rest =
          123 :: (emitMembers pairs ++ (125 :: rest)) := by simp
      show parseValue b (g + 1 + 1) d ((123 :: (emitMembers pairs ++ [125])) ++ rest) = _
      rw [hs, parseValue.eq_def]
      simp only []
      rw [skipWs_cons_of_not_ws (by omega)]
      show parseObject b (g + 1) d (123 :: (emitMembers pairs ++ (125 :: rest))) = _
      rw [parseObject.eq_def]
      simp only []
      have hd : ¬(d + 1 > MAX_DEPTH) := by omega
      rw [if_neg hd]
      cases pairs with
      | nil =>
        simp [emitMembers, skipWs]
      | cons p ps =>
        have hml : emitMembers (p :: ps) ++ (125 :: rest) =
            34 :: ((emit_string_content p.1 ++
              (34 :: (58 :: (emitRaw p.2 ++ emitMembersTail ps)))) ++ (125 :: rest)) := by
          rw [emitMembers.eq_def]; simp
        rw [hml]
        rw [skipWs_cons_of_not_ws (by omega)]
        rw [if_neg (by simp)]
        have hms : 34 :: ((emit_string_content p.1 ++
              (34 :: (58 :: (emitRaw p.2 ++ emitMembersTail ps)))) ++ (125 :: rest)) =
            emitMembers (p :: ps) ++ (125 :: rest) := hml.symm
        rw [hms]
        exact (ih g (by omega)).2.1 b [] (p :: ps) (d + 1) rest (by simp)
          (by simpa using hc.1.1.1) (by simpa using hc.1.1.2) (by simpa using hc.1.2)
          hc.2 (by omega) (by omega)
  · -- parseMembers round trip
    intro b prev pairs d rest hne hlen hsort hkeys hcp hh hf
    cases pairs with
    | nil => exact absurd rfl hne
    | cons p ps =>
    simp only [canonPairsB, Bool.and_eq_true] at hcp
    simp only [fuelNeedPairs] at hf
    have hfp := fuelNeedPairs_pos ps
    have hfv := fuelNeedV_pos p.2
    obtain ⟨g, rfl⟩ : ∃ g, fuel = g + 1 := ⟨fuel - 1, by omega⟩
    have hml : emitMembers (p :: ps) ++ (125 :: rest) =
        34 :: (emit_string_content p.1 ++
          (34 :: (58 :: (emitRaw p.2 ++ (emitMembersTail ps ++ (125 :: rest)))))) := by
      rw [emitMembers.eq_def]; simp
    rw [hml, parseMembers.eq_def]
    simp only []
    have hprev : ¬(prev.length ≥ MAX_OBJECT_FIELDS) := by
      simp only [List.length_append, List.length_cons] at hlen
      simp [MAX_OBJECT_FIELDS] at hlen ⊢
      omega
    rw [if_neg hprev]
    rw [skipWs_cons_of_not_ws (by omega)]
    rw [parseString_emit p.1 (58 :: (emitRaw p.2 ++ (emitMembersTail ps ++ (125 :: rest))))]
    simp only []
    have hvk : validKey p.1 = true := by
      simp only [List.all_append, List.all_cons, Bool.and_eq_true] at hkeys
      exact hkeys.2.1
    rw [hvk]
    simp only [Bool.not_true, Bool.false_eq_true, if_false]
    have hfresh : (prev.any fun q => q.1 == p.1) = false := sorted_append_fresh hsort
    rw [hfresh]
    simp only [Bool.and_false, Bool.false_eq_true, if_false]
    rw [skipWs_cons_of_not_ws (by omega)]
    simp only []
    rw [skipWs_emitRaw]
    have hhp : heightPairs (p :: ps) = max (heightOf p.2) (heightPairs ps) := by
      simp [heightPairs]
    rw [hhp] at hh
    have hmax1 := Nat.le_max_left (heightOf p.2) (heightPairs ps)
    have hmax2 := Nat.le_max_right (heightOf p.2) (heightPairs ps)
    rw [(ih g (by omega)).1 b p.2 d (emitMembersTail ps ++ (125 :: rest)) hcp.1
      (by omega) (by omega)]
    simp only []
    cases ps with
    | nil =>
      simp only [emitMembersTail, List.nil_append]
      rw [skipWs_cons_of_not_ws (by omega)]
    | cons q qs =>
      rw [emitMembersTail_cons, List.cons_append,
        skipWs_cons_of_not_ws (by omega)]
      have hres := (ih g (by omega)).2.1 b (prev ++ [(p.1, p.2)]) (q :: qs) d rest
        (by simp)
        (by simpa [List.append_assoc] using hlen)
        (by simpa [List.append_assoc] using hsort)
        (by simpa [List.append_assoc] using hkeys)
        hcp.2
        (by
          have hq : heightPairs (q :: qs) = max (heightOf q.2) (heightPairs qs) := by
            simp [heightPairs]
          omega)
        (by omega)
      rw [show (prev ++ [(p.1, p.2)]) ++ (q :: qs) = prev ++ (p.1, p.2) :: q :: qs by simp]
        at hres
      exact hres
  · -- parseItems round trip
    intro b prevI items d rest hne hlen hcl hh hf
    cases items with
    | nil => exact absurd rfl hne
    | cons i is =>
    simp only [canonListB, Bool.and_eq_true] at hcl
    simp only [fuelNeedItems] at hf
    have hfi := fuelNeedItems_pos is
    have hfv := fuelNeedV_pos i
    obtain ⟨g, rfl⟩ : ∃ g, fuel = g + 1 := ⟨fuel - 1, by omega⟩
    have hil : emitItems (i :: is) ++ (93 :: rest) =
        emitRaw i ++ (emitItemsTail is ++ (93 :: rest)) := by
      rw [emitItems.eq_def]; simp
    rw [hil, parseItems.eq_def]
    simp only []
    have hprev : ¬(prevI.length ≥ MAX_ARRAY_ITEMS) := by
      simp only [List.length_append, List.length_cons] at hlen
      simp [MAX_ARRAY_ITEMS] at hlen ⊢
      omega
    rw [if_neg hprev]
    rw [skipWs_emitRaw]
    have hhl : heightList (i :: is) = max (heightOf i) (heightList is) := by
      simp [heightList]
    rw [hhl] at hh
    have hmax1 := Nat.le_max_left (heightOf i) (heightList is)
    have hmax2 := Nat.le_max_right (heightOf i) (heightList is)
    rw [(ih g (by omega)).1 b i d (emitItemsTail is ++ (93 :: rest)) hcl.1
      (by omega) (by omega)]
    simp only []
    cases is with
    | nil =>
      simp only [emitItemsTail, List.nil_append]
      rw [skipWs_cons_of_not_ws (by omega)]
    | cons j js =>
      rw [emitItemsTail_cons, List.cons_append,
        skipWs_cons_of_not_ws (by omega)]
      have hres := (ih g (by omega)).2.2 b (prevI ++ [i]) (j :: js) d rest
        (by simp)
        (by simpa [List.append_assoc] using hlen)
        hcl.2
        (by
          have hq : heightList (j :: js) = max (heightOf j) (heightList js) := by
            simp [heightList]
          omega)
        (by omega)
      rw [show (prevI ++ [i]) ++ (j :: js) = prevI ++ i :: j :: js by simp] at hres
      exact hres

end Kernel

namespace Kernel

-- ── permutation and sorting facts ──

lemma all_of_perm {α : Type} {l l' : List α} (h : l.Perm l') (f : α → Bool) :
    l.all f = l'.all f := by
  rcases ha : l'.all f with _ | _
  · rcases hb : l.all f with _ | _
    · rfl
    · rw [List.all_eq_true] at hb
      rw [← Bool.not_eq_true, List.all_eq_true] at ha
      push_neg at ha
      obtain ⟨x, hx, hfx⟩ := ha
      exact absurd (hb x (h.mem_iff.2 hx)) (by simp [hfx])
  · rw [List.all_eq_true] at ha ⊢
    exact fun x hx => ha x (h.mem_iff.1 hx)

lemma insertPairByKey_perm (x : Bytes × JVal) :
    ∀ l, (insertPairByKey x l).Perm (x :: l)
  | [] => by simp [insertPairByKey]
  | y :: ys => by
    rw [insertPairByKey.eq_def]
    simp only []
    split
    · exact ((insertPairByKey_perm x ys).cons y).trans (List.Perm.swap x y ys)
    · exact List.Perm.refl _

lemma sortPairsByKey_perm : ∀ l, (sortPairsByKey l).Perm l
  | [] => List.Perm.refl _
  | x :: xs => by
    rw [sortPairsByKey.eq_def]
    exact (insertPairByKey_perm x (sortPairsByKey xs)).trans
      ((sortPairsByKey_perm xs).cons x)

-- ── canonValue as a map ──

lemma canonList_eq_map : ∀ l, canonList l = l.map canonValue
  | [] => rfl
  | v :: rest => by
    rw [canonList.eq_def]
    simp only []
    rw [canonList_eq_map rest, List.map_cons]

lemma canonPairs_eq_map : ∀ l,
    canonPairs l = l.map (fun p => (p.1, canonValue p.2))
  | [] => rfl
  | p :: rest => by
    rw [canonPairs.eq_def]
    simp only []
    rw [canonPairs_eq_map rest, List.map_cons]

-- ── emitted-members length only depends on the member multiset ──


lemma emitMembersTail_length : ∀ l,
    (emitMembersTail l).length = (l.map memberEmitLen).sum
  | [] => by simp [emitMembersTail]
  | p :: rest => by
    rw [emitMembersTail.eq_def]
    simp [emitMembersTail_length rest, memberEmitLen]
    omega

lemma emitMembers_length_succ (p : Bytes × JVal) (rest : List (Bytes × JVal)) :
    (emitMembers (p :: rest)).length + 1 = ((p :: rest).map memberEmitLen).sum := by
  rw [emitMembers.eq_def]
  simp [emitMembersTail_length rest, memberEmitLen]
  omega

lemma emitMembers_length_perm {l l' : List (Bytes × JVal)} (h : l.Perm l') :
    (emitMembers l).length = (emitMembers l').length := by
  cases l with
  | nil =>
    have : l' = [] := h.symm.eq_nil
    rw [this]
  | cons p rest =>
    cases l' with
    | nil => exact absurd h.eq_nil (by simp)
    | cons q rest' =>
      have h1 := emitMembers_length_succ p rest
      have h2 := emitMembers_length_succ q rest'
      have h3 := (h.map memberEmitLen).sum_eq
      omega

-- ── key-duplication facts ──

lemma keysDup_cons (p : Bytes × JVal) (rest : List (Bytes × JVal)) :
    keysDup (p :: rest) = ((rest.any fun q => q.1 == p.1) || keysDup rest) := by
  rw [keysDup.eq_def]

lemma keysDup_append_one : ∀ (l : List (Bytes × JVal)) (x : Bytes × JVal),
    keysDup l = false → (l.any fun q => q.1 == x.1) = false →
    keysDup (l ++ [x]) = false
  | [], x => by
    intro _ _
    rw [List.nil_append, keysDup_cons]
    simp [show keysDup ([] : List (Bytes × JVal)) = false from rfl]
  | p :: rest, x => by
    intro h1 h2
    rw [keysDup_cons, Bool.or_eq_false_iff] at h1
    simp only [List.any_cons, Bool.or_eq_false_iff] at h2
    rw [List.cons_append, keysDup_cons, Bool.or_eq_false_iff]
    constructor
    · rw [List.any_append, Bool.or_eq_false_iff]
      refine ⟨h1.1, ?_⟩
      simp only [List.any_cons, List.any_nil, Bool.or_false]
      have hne : ¬(p.1 = x.1) := by
        intro he
        rw [← he] at h2
        simp at h2
      simp [beq_iff_eq]
      intro he
      exact absurd he.symm hne
    · exact keysDup_append_one rest x h1.2 h2.2

lemma keysDup_true_of_mem :
    ∀ (l₁ : List (Bytes × JVal)) (x : Bytes × JVal) (l₂ : List (Bytes × JVal))
      (q : Bytes × JVal), q ∈ l₁ → q.1 = x.1 → keysDup (l₁ ++ x :: l₂) = true
  | [], _, _, _ => by simp
  | p :: rest, x, l₂, q => by
    intro hq hk
    rcases List.mem_cons.1 hq with rfl | hmem
    · rw [List.cons_append, keysDup_cons]
      have : (rest ++ x :: l₂).any (fun r => r.1 == q.1) = true := by
        rw [List.any_eq_true]
        exact ⟨x, by simp, by simp [beq_iff_eq, hk.symm]⟩
      simp [this]
    · rw [List.cons_append, keysDup_cons]
      rw [keysDup_true_of_mem rest x l₂ q hmem hk]
      simp

lemma keysDup_canonPairs (l : List (Bytes × JVal)) :
    keysDup (canonPairs l) = keysDup l := by
  rw [canonPairs_eq_map]
  induction l with
  | nil => rfl
  | cons p rest ih =>
    rw [List.map_cons, keysDup_cons, keysDup_cons, ← ih]
    congr 1
    rw [List.any_map]
    rfl

-- ── heights under canonicalization ──

lemma heightPairs_le_iff : ∀ {l : List (Bytes × JVal)} {k : Nat},
    heightPairs l ≤ k ↔ ∀ p ∈ l, heightOf p.2 ≤ k := by
  intro l
  induction l with
  | nil => simp [heightPairs]
  | cons p rest ih =>
    intro k
    simp [heightPairs, Nat.max_le, ih]

lemma heightPairs_perm {l l' : List (Bytes × JVal)} (h : l.Perm l') :
    heightPairs l = heightPairs l' := by
  refine Nat.le_antisymm (heightPairs_le_iff.2 ?_) (heightPairs_le_iff.2 ?_)
  · exact fun p hp => heightPairs_le_iff.1 (Nat.le_refl _) p (h.mem_iff.1 hp)
  · exact fun p hp => heightPairs_le_iff.1 (Nat.le_refl _) p (h.mem_iff.2 hp)

end Kernel

namespace Kernel

-- ── heights are preserved by canonicalization ──

mutual

lemma heightOf_canonValue : ∀ v, heightOf (canonValue v) = heightOf v
  | .jnull => rfl
  | .jbool _ => rfl
  | .jstr _ => rfl
  | .jarr items => by
    rw [canonValue.eq_def]
    simp only [heightOf]
    rw [heightList_canonList items]
  | .jobj pairs => by
    rw [canonValue.eq_def]
    simp only [heightOf]
    rw [heightPairs_perm (sortPairsByKey_perm (canonPairs pairs)),
      heightPairs_canonPairs pairs]
termination_by structural v => v

lemma heightList_canonList : ∀ l, heightList (canonList l) = heightList l
  | [] => rfl
  | v :: rest => by
    rw [canonList.eq_def]
    simp only [heightList]
    rw [heightOf_canonValue v, heightList_canonList rest]
termination_by structural l => l

lemma heightPairs_canonPairs : ∀ l, heightPairs (canonPairs l) = heightPairs l
  | [] => rfl
  | p :: rest => by
    rw [canonPairs.eq_def]
    simp only [heightPairs]
    rw [heightOf_canonValue p.2, heightPairs_canonPairs rest]
termination_by structural l => l

end

-- ── Bool "all" characterizations of the recursive predicates ──

lemma canonListB_eq_all : ∀ l, canonListB l = l.all canonB
  | [] => rfl
  | v :: rest => by
    rw [canonListB.eq_def]
    simp only []
    rw [canonListB_eq_all rest, List.all_cons]

lemma canonPairsB_eq_all : ∀ l, canonPairsB l = l.all fun p => canonB p.2
  | [] => rfl
  | p :: rest => by
    rw [canonPairsB.eq_def]
    simp only []
    rw [canonPairsB_eq_all rest, List.all_cons]

lemma wfListB_eq_all : ∀ l, wfListB l = l.all wfB
  | [] => rfl
  | v :: rest => by
    rw [wfListB.eq_def]
    simp only []
    rw [wfListB_eq_all rest, List.all_cons]

lemma wfPairsB_eq_all : ∀ l, wfPairsB l = l.all fun p => wfB p.2
  | [] => rfl
  | p :: rest => by
    rw [wfPairsB.eq_def]
    simp only []
    rw [wfPairsB_eq_all rest, List.all_cons]

-- ── insertion sort produces strictly sorted keys on duplicate-free input ──

lemma insertPairByKey_ne_nil (x : Bytes × JVal) (l : List (Bytes × JVal)) :
    insertPairByKey x l ≠ [] := by
  cases l with
  | nil => simp [insertPairByKey]
  | cons y ys =>
    rw [insertPairByKey.eq_def]
    simp only []
    split <;> simp

lemma insertPairByKey_head (x : Bytes × JVal) :
    ∀ (l : List (Bytes × JVal)) (h : Bytes × JVal),
      (insertPairByKey x l).head? = some h → h = x ∨ l.head? = some h
  | [], h => by
    simp [insertPairByKey]
    intro he
    exact he.symm
  | y :: ys, h => by
    rw [insertPairByKey.eq_def]
    simp only []
    split
    · intro hh
      right
      simpa using hh
    · intro hh
      left
      simp at hh
      exact hh.symm

lemma keysStrictSorted_cons_iff (p : Bytes × JVal) (l : List (Bytes × JVal)) :
    keysStrictSorted (p :: l) = true ↔
      ((∀ q, l.head? = some q → bytesLt p.1 q.1 = true) ∧
        keysStrictSorted l = true) := by
  cases l with
  | nil => simp [keysStrictSorted]
  | cons q rest =>
    rw [show keysStrictSorted (p :: q :: rest) =
      (bytesLt p.1 q.1 && keysStrictSorted (q :: rest)) from rfl]
    simp [Bool.and_eq_true]

lemma insertPairByKey_sorted (x : Bytes × JVal) :
    ∀ l, keysStrictSorted l = true → (∀ q ∈ l, q.1 ≠ x.1) →
      keysStrictSorted (insertPairByKey x l) = true
  | [] => by
    intro _ _
    simp [insertPairByKey, keysStrictSorted]
  | y :: ys => by
    intro hs hfresh
    rw [keysStrictSorted_cons_iff] at hs
    rw [insertPairByKey.eq_def]
    simp only []
    split
    · rename_i hlt
      rw [keysStrictSorted_cons_iff]
      refine ⟨?_, insertPairByKey_sorted x ys hs.2
        (fun q hq => hfresh q (List.mem_cons_of_mem y hq))⟩
      intro h hh
      rcases insertPairByKey_head x ys h hh with rfl | hmem
      · exact hlt
      · exact hs.1 h hmem
    · rename_i hnlt
      rw [keysStrictSorted_cons_iff]
      refine ⟨?_, (keysStrictSorted_cons_iff y ys).2 hs⟩
      intro h hh
      simp at hh
      rw [← hh]
      rcases bytesLt_total x.1 y.1 with h1 | h1 | h1
      · exact h1
      · exact absurd h1 (by simpa using hnlt)
      · exact absurd h1.symm (hfresh y (List.mem_cons_self y ys))

lemma sortPairsByKey_sorted : ∀ l, keysDup l = false →
    keysStrictSorted (sortPairsByKey l) = true
  | [] => by
    intro _
    rfl
  | x :: xs => by
    intro hd
    rw [keysDup_cons, Bool.or_eq_false_iff] at hd
    rw [sortPairsByKey.eq_def]
    simp only []
    refine insertPairByKey_sorted x (sortPairsByKey xs)
      (sortPairsByKey_sorted xs hd.2) ?_
    intro q hq
    have hqx : q ∈ xs := (sortPairsByKey_perm xs).mem_iff.1 hq
    have := hd.1
    rw [← Bool.not_eq_true, List.any_eq_true] at this
    intro he
    exact this ⟨q, hqx, by simp [beq_iff_eq, he]⟩

lemma sortPairsByKey_sorted_id : ∀ l, keysStrictSorted l = true →
    sortPairsByKey l = l
  | [] => by
    intro _
    rfl
  | x :: xs => by
    intro hs
    rw [keysStrictSorted_cons_iff] at hs
    rw [sortPairsByKey.eq_def]
    simp only []
    rw [sortPairsByKey_sorted_id xs hs.2]
    cases xs with
    | nil => rfl
    | cons y ys =>
      rw [insertPairByKey.eq_def]
      simp only []
      rw [if_neg]
      simp only [Bool.not_eq_true]
      exact bytesLt_asymm (hs.1 y rfl)

end Kernel

namespace Kernel

-- ── canonB and wfB unfoldings ──

lemma canonB_obj_iff (pairs : List (Bytes × JVal)) :
    canonB (.jobj pairs) = true ↔
      (pairs.length ≤ MAX_OBJECT_FIELDS ∧ keysStrictSorted pairs = true ∧
        (pairs.all fun p => validKey p.1) = true ∧ canonPairsB pairs = true) := by
  rw [canonB.eq_def]
  simp [Bool.and_eq_true, and_assoc]

lemma canonB_arr_iff (items : List JVal) :
    canonB (.jarr items) = true ↔
      (items.length ≤ MAX_ARRAY_ITEMS ∧ canonListB items = true) := by
  rw [canonB.eq_def]
  simp [Bool.and_eq_true]

lemma wfB_obj_iff (pairs : List (Bytes × JVal)) :
    wfB (.jobj pairs) = true ↔
      (pairs.length ≤ MAX_OBJECT_FIELDS ∧ keysDup pairs = false ∧
        (pairs.all fun p => validKey p.1) = true ∧ wfPairsB pairs = true) := by
  rw [wfB.eq_def]
  simp [Bool.and_eq_true, and_assoc]

lemma wfB_arr_iff (items : List JVal) :
    wfB (.jarr items) = true ↔
      (items.length ≤ MAX_ARRAY_ITEMS ∧ wfListB items = true) := by
  rw [wfB.eq_def]
  simp [Bool.and_eq_true]

-- ── wfB values canonicalize to canonB values ──

mutual

lemma canonValue_canonB : ∀ v, wfB v = true → canonB (canonValue v) = true
  | .jnull => fun _ => rfl
  | .jbool _ => fun _ => rfl
  | .jstr _ => fun _ => rfl
  | .jarr items => fun h => by
    rw [wfB_arr_iff] at h
    rw [canonValue.eq_def]
    simp only []
    rw [canonB_arr_iff, canonList_eq_map, List.length_map]
    rw [← canonList_eq_map]
    exact ⟨h.1, canonList_canonB items h.2⟩
  | .jobj pairs => fun h => by
    rw [wfB_obj_iff] at h
    rw [canonValue.eq_def]
    simp only []
    rw [canonB_obj_iff]
    have hperm := sortPairsByKey_perm (canonPairs pairs)
    refine ⟨?_, ?_, ?_, ?_⟩
    · rw [hperm.length_eq, canonPairs_eq_map, List.length_map]
      exact h.1
    · exact sortPairsByKey_sorted (canonPairs pairs)
        (by rw [keysDup_canonPairs]; exact h.2.1)
    · rw [all_of_perm hperm, canonPairs_eq_map, List.all_map]
      exact h.2.2.1
    · rw [canonPairsB_eq_all, all_of_perm hperm, ← canonPairsB_eq_all]
      exact canonPairs_canonB pairs h.2.2.2
termination_by structural v => v

lemma canonList_canonB : ∀ l, wfListB l = true → canonListB (canonList l) = true
  | [] => fun _ => rfl
  | v :: rest => fun h => by
    rw [wfListB.eq_def] at h
    simp only [Bool.and_eq_true] at h
    rw [canonList.eq_def]
    simp only []
    rw [canonListB.eq_def]
    simp only [Bool.and_eq_true]
    exact ⟨canonValue_canonB v h.1, canonList_canonB rest h.2⟩
termination_by structural l => l

lemma canonPairs_canonB : ∀ l, wfPairsB l = true → canonPairsB (canonPairs l) = true
  | [] => fun _ => rfl
  | p :: rest => fun h => by
    rw [wfPairsB.eq_def] at h
    simp only [Bool.and_eq_true] at h
    rw [canonPairs.eq_def]
    simp only []
    rw [canonPairsB.eq_def]
    simp only [Bool.and_eq_true]
    exact ⟨canonValue_canonB p.2 h.1, canonPairs_canonB rest h.2⟩
termination_by structural l => l

end

-- ── canonical values are fixed by canonValue ──

mutual

lemma canonValue_id : ∀ v, canonB v = true → canonValue v = v
  | .jnull => fun _ => rfl
  | .jbool _ => fun _ => rfl
  | .jstr _ => fun _ => rfl
  | .jarr items => fun h => by
    rw [canonB_arr_iff] at h
    rw [canonValue.eq_def]
    simp only []
    rw [canonList_id items h.2]
  | .jobj pairs => fun h => by
    rw [canonB_obj_iff] at h
    rw [canonValue.eq_def]
    simp only []
    rw [canonPairs_id pairs h.2.2.2, sortPairsByKey_sorted_id pairs h.2.1]
termination_by structural v => v

lemma canonList_id : ∀ l, canonListB l = true → canonList l = l
  | [] => fun _ => rfl
  | v :: rest => fun h => by
    rw [canonListB.eq_def] at h
    simp only [Bool.and_eq_true] at h
    rw [canonList.eq_def]
    simp only []
    rw [canonValue_id v h.1, canonList_id rest h.2]
termination_by structural l => l

lemma canonPairs_id : ∀ l, canonPairsB l = true → canonPairs l = l
  | [] => fun _ => rfl
  | p :: rest => fun h => by
    rw [canonPairsB.eq_def] at h
    simp only [Bool.and_eq_true] at h
    rw [canonPairs.eq_def]
    simp only []
    rw [canonValue_id p.2 h.1, canonPairs_id rest h.2]
termination_by structural l => l

end

-- ── emit length of a canonicalized object ──

lemma emitRaw_canonValue_obj_length (pairs : List (Bytes × JVal)) :
    (emitRaw (canonValue (.jobj pairs))).length =
      (emitMembers (canonPairs pairs)).length + 2 := by
  rw [canonValue.eq_def]
  simp only []
  rw [emitRaw.eq_def]
  simp only [List.length_cons, List.length_append]
  rw [emitMembers_length_perm (sortPairsByKey_perm (canonPairs pairs))]
  simp

end Kernel

namespace Kernel

-- ── forward bounds for string parsing ──

lemma exceptMap_ok_iff {ε α β : Type} (f : α → β) (x : Except ε α) (y : β) :
    x.map f = .ok y ↔ ∃ z, x = .ok z ∧ f z = y := by
  cases x <;> simp [Except.map]

lemma escStringByte_raw {b : Nat} (h32 : 32 ≤ b) (h34 : b ≠ 34) (h92 : b ≠ 92) :
    escStringByte b = [b] := by
  unfold escStringByte
  split_ifs <;> first | rfl | (exfalso; omega)

lemma escStringByte_length_le6 (b : Nat) : (escStringByte b).length ≤ 6 := by
  unfold escStringByte
  split_ifs <;> simp

lemma emit_content_append (x y : Bytes) :
    emit_string_content (x ++ y) = emit_string_content x ++ emit_string_content y := by
  simp [emit_string_content]

lemma emit_content_cons (b : Nat) (s : Bytes) :
    emit_string_content (b :: s) = escStringByte b ++ emit_string_content s := rfl

lemma emit_content_utf8_le6 (cp : Nat) :
    (emit_string_content (encodeUtf8 cp)).length ≤ 6 := by
  unfold encodeUtf8
  split_ifs with h1 h2 h3
  · have : emit_string_content [cp] = escStringByte cp ++ [] := rfl
    rw [this]
    simpa using escStringByte_length_le6 cp
  · have e1 : escStringByte (192 + cp / 64) = [192 + cp / 64] :=
      escStringByte_raw (by omega) (by omega) (by omega)
    have e2 : escStringByte (128 + cp % 64) = [128 + cp % 64] :=
      escStringByte_raw (by omega) (by omega) (by omega)
    have : emit_string_content [192 + cp / 64, 128 + cp % 64] =
        escStringByte (192 + cp / 64) ++ (escStringByte (128 + cp % 64) ++ []) := rfl
    rw [this, e1, e2]
    simp
  · have e1 : escStringByte (224 + cp / 4096) = [224 + cp / 4096] :=
      escStringByte_raw (by omega) (by omega) (by omega)
    have e2 : escStringByte (128 + cp / 64 % 64) = [128 + cp / 64 % 64] :=
      escStringByte_raw (by omega) (by omega) (by omega)
    have e3 : escStringByte (128 + cp % 64) = [128 + cp % 64] :=
      escStringByte_raw (by omega) (by omega) (by omega)
    have : emit_string_content [224 + cp / 4096, 128 + cp / 64 % 64, 128 + cp % 64] =
        escStringByte (224 + cp / 4096) ++ (escStringByte (128 + cp / 64 % 64) ++
          (escStringByte (128 + cp % 64) ++ [])) := rfl
    rw [this, e1, e2, e3]
    simp
  · have e1 : escStringByte (240 + cp / 262144) = [240 + cp / 262144] :=
      escStringByte_raw (by omega) (by omega) (by omega)
    have e2 : escStringByte (128 + cp / 4096 % 64) = [128 + cp / 4096 % 64] :=
      escStringByte_raw (by omega) (by omega) (by omega)
    have e3 : escStringByte (128 + cp / 64 % 64) = [128 + cp / 64 % 64] :=
      escStringByte_raw (by omega) (by omega) (by omega)
    have e4 : escStringByte (128 + cp % 64) = [128 + cp % 64] :=
      escStringByte_raw (by omega) (by omega) (by omega)
    have : emit_string_content
        [240 + cp / 262144, 128 + cp / 4096 % 64, 128 + cp / 64 % 64, 128 + cp % 64] =
        escStringByte (240 + cp / 262144) ++ (escStringByte (128 + cp / 4096 % 64) ++
          (escStringByte (128 + cp / 64 % 64) ++ (escStringByte (128 + cp % 64) ++ []))) := rfl
    rw [this, e1, e2, e3, e4]
    simp

end Kernel

namespace Kernel

lemma parseStringBody_fwd : ∀ (n : Nat) (s content r : Bytes), s.length ≤ n →
    parseStringBody s = .ok (content, r) →
    (emit_string_content content).length + 1 + r.length ≤ s.length := by
  intro n
  induction n with
  | zero =>
    intro s content r hle hp
    cases s with
    | nil =>
      rw [parseStringBody.eq_def] at hp
      exact absurd hp (by simp)
    | cons b rest => simp at hle
  | succ n ihn =>
    intro s content r hle hp
    cases s with
    | nil =>
      rw [parseStringBody.eq_def] at hp
      exact absurd hp (by simp)
    | cons b rest =>
      rw [parseStringBody.eq_def] at hp
      simp only [] at hp
      by_cases h34 : b = 34
      · rw [if_pos h34] at hp
        simp only [Except.ok.injEq, Prod.mk.injEq] at hp
        obtain ⟨hc, hr⟩ := hp
        subst hc
        subst hr
        simp [emit_string_content]
        omega
      · rw [if_neg h34] at hp
        by_cases h92 : b = 92
        · rw [if_pos h92] at hp
          cases rest with
          | nil => exact absurd hp (by simp)
          | cons e r1 =>
            simp only [] at hp
            by_cases he34 : e = 34
            · rw [if_pos he34] at hp
              rw [exceptMap_ok_iff] at hp
              obtain ⟨⟨c1, r2⟩, hps, hf⟩ := hp
              simp only [Prod.mk.injEq] at hf
              obtain ⟨hc, hr⟩ := hf
              subst hc
              subst hr
              have hih := ihn r1 c1 r2 (by simp at hle; omega) hps
              rw [emit_content_cons]
              simp only [List.length_append, List.length_cons]
              have hl : (escStringByte 34).length = 2 := rfl
              omega
            · rw [if_neg he34] at hp
              by_cases he92 : e = 92
              · rw [if_pos he92] at hp
                rw [exceptMap_ok_iff] at hp
                obtain ⟨⟨c1, r2⟩, hps, hf⟩ := hp
                simp only [Prod.mk.injEq] at hf
                obtain ⟨hc, hr⟩ := hf
                subst hc
                subst hr
                have hih := ihn r1 c1 r2 (by simp at hle; omega) hps
                rw [emit_content_cons]
                simp only [List.length_append, List.length_cons]
                have hl : (escStringByte 92).length = 2 := rfl
                omega
              · rw [if_neg he92] at hp
                by_cases he47 : e = 47
                · rw [if_pos he47] at hp
                  rw [exceptMap_ok_iff] at hp
                  obtain ⟨⟨c1, r2⟩, hps, hf⟩ := hp
                  simp only [Prod.mk.injEq] at hf
                  obtain ⟨hc, hr⟩ := hf
                  subst hc
                  subst hr
                  have hih := ihn r1 c1 r2 (by simp at hle; omega) hps
                  rw [emit_content_cons]
                  simp only [List.length_append, List.length_cons]
                  have hl : (escStringByte 47).length = 1 := rfl
                  omega
                · rw [if_neg he47] at hp
                  by_cases he98 : e = 98
                  · rw [if_pos he98] at hp
                    rw [exceptMap_ok_iff] at hp
                    obtain ⟨⟨c1, r2⟩, hps, hf⟩ := hp
                    simp only [Prod.mk.injEq] at hf
                    obtain ⟨hc, hr⟩ := hf
                    subst hc
                    subst hr
                    have hih := ihn r1 c1 r2 (by simp at hle; omega) hps
                    rw [emit_content_cons]
                    simp only [List.length_append, List.length_cons]
                    have hl : (escStringByte 8).length = 2 := rfl
                    omega
                  · rw [if_neg he98] at hp
                    by_cases he102 : e = 102
                    · rw [if_pos he102] at hp
                      rw [exceptMap_ok_iff] at hp
                      obtain ⟨⟨c1, r2⟩, hps, hf⟩ := hp
                      simp only [Prod.mk.injEq] at hf
                      obtain ⟨hc, hr⟩ := hf
                      subst hc
                      subst hr
                      have hih := ihn r1 c1 r2 (by simp at hle; omega) hps
                      rw [emit_content_cons]
                      simp only [List.length_append, List.length_cons]
                      have hl : (escStringByte 12).length = 2 := rfl
                      omega
                    · rw [if_neg he102] at hp
                      by_cases he110 : e = 110
                      · rw [if_pos he110] at hp
                        rw [exceptMap_ok_iff] at hp
                        obtain ⟨⟨c1, r2⟩, hps, hf⟩ := hp
                        simp only [Prod.mk.injEq] at hf
                        obtain ⟨hc, hr⟩ := hf
                        subst hc
                        subst hr
                        have hih := ihn r1 c1 r2 (by simp at hle; omega) hps
                        rw [emit_content_cons]
                        simp only [List.length_append, List.length_cons]
                        have hl : (escStringByte 10).length = 2 := rfl
                        omega
                      · rw [if_neg he110] at hp
                        by_cases he114 : e = 114
                        · rw [if_pos he114] at hp
                          rw [exceptMap_ok_iff] at hp
                          obtain ⟨⟨c1, r2⟩, hps, hf⟩ := hp
                          simp only [Prod.mk.injEq] at hf
                          obtain ⟨hc, hr⟩ := hf
                          subst hc
                          subst hr
                          have hih := ihn r1 c1 r2 (by simp at hle; omega) hps
                          rw [emit_content_cons]
                          simp only [List.length_append, List.length_cons]
                          have hl : (escStringByte 13).length = 2 := rfl
                          omega
                        · rw [if_neg he114] at hp
                          by_cases he116 : e = 116
                          · rw [if_pos he116] at hp
                            rw [exceptMap_ok_iff] at hp
                            obtain ⟨⟨c1, r2⟩, hps, hf⟩ := hp
                            simp only [Prod.mk.injEq] at hf
                            obtain ⟨hc, hr⟩ := hf
                            subst hc
                            subst hr
                            have hih := ihn r1 c1 r2 (by simp at hle; omega) hps
                            rw [emit_content_cons]
                            simp only [List.length_append, List.length_cons]
                            have hl : (escStringByte 9).length = 2 := rfl
                            omega
                          · rw [if_neg he116] at hp
                            by_cases he117 : e = 117
                            · rw [if_pos he117] at hp
                              cases r1 with
                              | nil => exact absurd hp (by simp)
                              | cons a t1 =>
                                cases t1 with
                                | nil => exact absurd hp (by simp)
                                | cons b2 t2 =>
                                  cases t2 with
                                  | nil => exact absurd hp (by simp)
                                  | cons c t3 =>
                                    cases t3 with
                                    | nil => exact absurd hp (by simp)
                                    | cons dd r2 =>
                                      simp only [] at hp
                                      cases hq : hexQuad? a b2 c dd with
                                      | none =>
                                        rw [hq] at hp
                                        exact absurd hp (by simp)
                                      | some nn =>
                                        rw [hq] at hp
                                        simp only [] at hp
                                        cases hcp : charFromCodepoint? nn with
                                        | none =>
                                          rw [hcp] at hp
                                          exact absurd hp (by simp)
                                        | some cp =>
                                          rw [hcp] at hp
                                          simp only [] at hp
                                          rw [exceptMap_ok_iff] at hp
                                          obtain ⟨⟨c1, r3⟩, hps, hf⟩ := hp
                                          simp only [Prod.mk.injEq] at hf
                                          obtain ⟨hc, hr⟩ := hf
                                          subst hc
                                          subst hr
                                          have hih := ihn r2 c1 r3
                                            (by simp at hle; omega) hps
                                          rw [emit_content_append]
                                          simp only [List.length_append,
                                            List.length_cons]
                                          have h6 := emit_content_utf8_le6 cp
                                          omega
                            · rw [if_neg he117] at hp
                              exact absurd hp (by simp)
        · rw [if_neg h92] at hp
          by_cases hlt : b < 32
          · rw [if_pos hlt] at hp
            exact absurd hp (by simp)
          · rw [if_neg hlt] at hp
            rw [exceptMap_ok_iff] at hp
            obtain ⟨⟨c1, r2⟩, hps, hf⟩ := hp
            simp only [Prod.mk.injEq] at hf
            obtain ⟨hc, hr⟩ := hf
            subst hc
            subst hr
            have hih := ihn rest c1 r2 (by simp at hle; omega) hps
            rw [emit_content_cons]
            rw [escStringByte_raw (by omega) h34 h92]
            simp only [List.cons_append, List.nil_append, List.length_append,
              List.length_cons, List.length_nil]
            omega

lemma parseString_fwd {s content r : Bytes}
    (hp : parseString s = .ok (content, r)) :
    (emit_string_content content).length + 2 + r.length ≤ s.length := by
  cases s with
  | nil =>
    rw [parseString.eq_def] at hp
    exact absurd hp (by simp)
  | cons b rest =>
    rw [parseString.eq_def] at hp
    simp only [] at hp
    by_cases h34 : b = 34
    · rw [if_pos h34] at hp
      have := parseStringBody_fwd rest.length rest content r (Nat.le_refl _) hp
      simp only [List.length_cons]
      omega
    · rw [if_neg h34] at hp
      exact absurd hp (by simp)

end Kernel

namespace Kernel

-- ── emitted-length unfoldings ──

lemma emitMembers_cons_length (p : Bytes × JVal) (l : List (Bytes × JVal)) :
    (emitMembers (p :: l)).length =
      3 + (emit_string_content p.1).length + (emitRaw p.2).length +
        (emitMembersTail l).length := by
  rw [emitMembers.eq_def]
  simp
  omega

lemma emitItems_cons_length (v : JVal) (l : List JVal) :
    (emitItems (v :: l)).length = (emitRaw v).length + (emitItemsTail l).length := by
  rw [emitItems.eq_def]
  simp

lemma emitRaw_canonValue_arr_length (items : List JVal) :
    (emitRaw (canonValue (.jarr items))).length =
      (emitItems (canonList items)).length + 2 := by
  rw [canonValue.eq_def]
  simp only []
  rw [emitRaw.eq_def]
  simp

lemma canonPairs_ne_nil {l : List (Bytes × JVal)} (h : l ≠ []) :
    canonPairs l ≠ [] := by
  rw [canonPairs_eq_map]
  simpa using h

lemma canonList_ne_nil {l : List JVal} (h : l ≠ []) : canonList l ≠ [] := by
  rw [canonList_eq_map]
  simpa using h

-- ── forward invariants of the strict parser ──

theorem parseFwd : ∀ fuel : Nat,
    (∀ (d : Nat) (s : Bytes) (v : JVal) (r : Bytes),
      parseValue true fuel d s = some (.ok (v, r)) →
      wfB v = true ∧ heightOf v ≤ MAX_DEPTH - d ∧
      (emitRaw (canonValue v)).length + r.length ≤ s.length) ∧
    (∀ (d : Nat) (prev : List (Bytes × JVal)) (s : Bytes) (v : JVal) (r : Bytes),
      parseMembers true fuel d prev s = some (.ok (v, r)) →
      ∃ new, new ≠ [] ∧ v = .jobj (prev ++ new) ∧
        (prev ++ new).length ≤ MAX_OBJECT_FIELDS ∧
        (keysDup prev = false → keysDup (prev ++ new) = false) ∧
        (new.all fun p => validKey p.1) = true ∧
        wfPairsB new = true ∧
        heightPairs new ≤ MAX_DEPTH - d ∧
        (emitMembers (canonPairs new)).length + 1 + r.length ≤ s.length) ∧
    (∀ (d : Nat) (prevI : List JVal) (s : Bytes) (v : JVal) (r : Bytes),
      parseItems true fuel d prevI s = some (.ok (v, r)) →
      ∃ new, new ≠ [] ∧ v = .jarr (prevI ++ new) ∧
        (prevI ++ new).length ≤ MAX_ARRAY_ITEMS ∧
        wfListB new = true ∧
        heightList new ≤ MAX_DEPTH - d ∧
        (emitItems (canonList new)).length + 1 + r.length ≤ s.length) := by
  intro fuel
  induction fuel using Nat.strong_induction_on with
  | _ fuel ih =>
  refine ⟨?_, ?_, ?_⟩
  · -- parseValue
    intro d s v r hp
    cases fuel with
    | zero =>
      rw [parseValue.eq_def] at hp
      exact absurd hp (by simp)
    | succ f =>
    rw [parseValue.eq_def] at hp
    simp only [] at hp
    have hsl := skipWs_len s
    split at hp
    · -- string
      rename_i x heq
      cases hps : parseString (skipWs s) with
      | error e =>
        rw [hps] at hp
        simp at hp
      | ok p =>
        obtain ⟨str, r1⟩ := p
        rw [hps] at hp
        simp only [Option.some.injEq, Except.ok.injEq, Prod.mk.injEq] at hp
        obtain ⟨hv, hr⟩ := hp
        subst hv
        subst hr
        have hf := parseString_fwd hps
        refine ⟨by simp [wfB], by simp [heightOf], ?_⟩
        have hlen : (emitRaw (canonValue (.jstr str))).length =
            (emit_string_content str).length + 2 := by
          rw [show canonValue (.jstr str) = .jstr str from by simp [canonValue]]
          rw [emitRaw.eq_def]
          simp
        omega
    · -- object
      rename_i x heq
      cases f with
      | zero =>
        rw [parseObject.eq_def] at hp
        exact absurd hp (by simp)
      | succ g =>
      rw [heq] at hsl hp
      rw [parseObject.eq_def] at hp
      simp only [] at hp
      by_cases hd1 : d + 1 > MAX_DEPTH
      · rw [if_pos hd1] at hp
        simp at hp
      · rw [if_neg hd1] at hp
        have hsx := skipWs_len x
        by_cases hh125 : (skipWs x).head? = some 125
        · rw [if_pos hh125] at hp
          simp only [Option.some.injEq, Except.ok.injEq, Prod.mk.injEq] at hp
          obtain ⟨hv, hr⟩ := hp
          subst hv
          subst hr
          obtain ⟨t1, ht1⟩ : ∃ t1, skipWs x = 125 :: t1 := by
            cases hsw2 : skipWs x with
            | nil => rw [hsw2] at hh125; simp at hh125
            | cons a t =>
              rw [hsw2] at hh125
              simp at hh125
              exact ⟨t, by rw [hh125]⟩
          have hlt1 := congrArg List.length ht1
          simp only [List.length_cons] at hlt1 hsl
          refine ⟨by decide, ?_, ?_⟩
          · have h1 : heightOf (JVal.jobj []) = 1 := by decide
            omega
          · have h2 : (emitRaw (canonValue (.jobj []))).length = 2 := by decide
            rw [ht1]
            simp only [List.tail_cons]
            omega
        · rw [if_neg hh125] at hp
          obtain ⟨new, hne, hv, hlen, hdup, hvalid, hwfp, hhei, hemit⟩ :=
            (ih g (by omega)).2.1 (d + 1) [] (skipWs x) v r hp
          simp only [List.nil_append] at hv hlen hdup
          subst hv
          refine ⟨?_, ?_, ?_⟩
          · rw [wfB_obj_iff]
            exact ⟨hlen, hdup rfl, hvalid, hwfp⟩
          · have h1 : heightOf (JVal.jobj new) = 1 + heightPairs new := by
              simp [heightOf]
            omega
          · have h2 := emitRaw_canonValue_obj_length new
            simp only [List.length_cons] at hsl
            omega
    · -- array
      rename_i x heq
      cases f with
      | zero =>
        rw [parseArray.eq_def] at hp
        exact absurd hp (by simp)
      | succ g =>
      rw [heq] at hsl hp
      rw [parseArray.eq_def] at hp
      simp only [] at hp
      by_cases hd1 : d + 1 > MAX_DEPTH
      · rw [if_pos hd1] at hp
        simp at hp
      · rw [if_neg hd1] at hp
        have hsx := skipWs_len x
        by_cases hh93 : (skipWs x).head? = some 93
        · rw [if_pos hh93] at hp
          simp only [Option.some.injEq, Except.ok.injEq, Prod.mk.injEq] at hp
          obtain ⟨hv, hr⟩ := hp
          subst hv
          subst hr
          obtain ⟨t1, ht1⟩ : ∃ t1, skipWs x = 93 :: t1 := by
            cases hsw2 : skipWs x with
            | nil => rw [hsw2] at hh93; simp at hh93
            | cons a t =>
              rw [hsw2] at hh93
              simp at hh93
              exact ⟨t, by rw [hh93]⟩
          have hlt1 := congrArg List.length ht1
          simp only [List.length_cons] at hlt1 hsl
          refine ⟨by decide, ?_, ?_⟩
          · have h1 : heightOf (JVal.jarr []) = 1 := by decide
            omega
          · have h2 : (emitRaw (canonValue (.jarr []))).length = 2 := by decide
            rw [ht1]
            simp only [List.tail_cons]
            omega
        · rw [if_neg hh93] at hp
          obtain ⟨new, hne, hv, hlen, hwfl, hhei, hemit⟩ :=
            (ih g (by omega)).2.2 (d + 1) [] (skipWs x) v r hp
          simp only [List.nil_append] at hv hlen
          subst hv
          refine ⟨?_, ?_, ?_⟩
          · rw [wfB_arr_iff]
            exact ⟨hlen, hwfl⟩
          · have h1 : heightOf (JVal.jarr new) = 1 + heightList new := by
              simp [heightOf]
            omega
          · have h2 := emitRaw_canonValue_arr_length new
            simp only [List.length_cons] at hsl
            omega
    · -- true literal
      rename_i x heq
      by_cases ht : (skipWs s).take 4 = [116, 114, 117, 101]
      · rw [if_pos ht] at hp
        simp only [Option.some.injEq, Except.ok.injEq, Prod.mk.injEq] at hp
        obtain ⟨hv, hr⟩ := hp
        subst hv
        subst hr
        have hlt := congrArg List.length ht
        simp only [List.length_take] at hlt
        have hld : ((skipWs s).drop 4).length = (skipWs s).length - 4 :=
          List.length_drop 4 (skipWs s)
        refine ⟨by simp [wfB], by simp [heightOf], ?_⟩
        have h2 : (emitRaw (canonValue (.jbool true))).length = 4 := by decide
        simp only [List.length_cons] at hlt
        omega
      · rw [if_neg ht] at hp
        simp at hp
    · -- false literal
      rename_i x heq
      by_cases ht : (skipWs s).take 5 = [102, 97, 108, 115, 101]
      · rw [if_pos ht] at hp
        simp only [Option.some.injEq, Except.ok.injEq, Prod.mk.injEq] at hp
        obtain ⟨hv, hr⟩ := hp
        subst hv
        subst hr
        have hlt := congrArg List.length ht
        simp only [List.length_take] at hlt
        have hld : ((skipWs s).drop 5).length = (skipWs s).length - 5 :=
          List.length_drop 5 (skipWs s)
        refine ⟨by simp [wfB], by simp [heightOf], ?_⟩
        have h2 : (emitRaw (canonValue (.jbool false))).length = 5 := by decide
        simp only [List.length_cons] at hlt
        omega
      · rw [if_neg ht] at hp
        simp at hp
    · -- null literal
      rename_i x heq
      by_cases ht : (skipWs s).take 4 = [110, 117, 108, 108]
      · rw [if_pos ht] at hp
        simp only [Option.some.injEq, Except.ok.injEq, Prod.mk.injEq] at hp
        obtain ⟨hv, hr⟩ := hp
        subst hv
        subst hr
        have hlt := congrArg List.length ht
        simp only [List.length_take] at hlt
        have hld : ((skipWs s).drop 4).length = (skipWs s).length - 4 :=
          List.length_drop 4 (skipWs s)
        refine ⟨by simp [wfB], by simp [heightOf], ?_⟩
        have h2 : (emitRaw (canonValue .jnull)).length = 4 := by decide
        simp only [List.length_cons] at hlt
        omega
      · rw [if_neg ht] at hp
        simp at hp
    · -- catch-all
      simp at hp
  · -- parseMembers
    intro d prev s v r hp
    cases fuel with
    | zero =>
      rw [parseMembers.eq_def] at hp
      exact absurd hp (by simp)
    | succ g =>
    rw [parseMembers.eq_def] at hp
    simp only [] at hp
    have hsl := skipWs_len s
    by_cases hcap : prev.length ≥ MAX_OBJECT_FIELDS
    · rw [if_pos hcap] at hp
      simp at hp
    · rw [if_neg hcap] at hp
      cases hps : parseString (skipWs s) with
      | error e =>
        rw [hps] at hp
        simp at hp
      | ok kv =>
        obtain ⟨key, r1⟩ := kv
        rw [hps] at hp
        simp only [] at hp
        have hkf := parseString_fwd hps
        by_cases hvk : validKey key = true
        · simp only [hvk, Bool.not_true, Bool.false_eq_true, if_false] at hp
          simp only [Bool.true_and] at hp
          by_cases hfr : (prev.any fun p => p.1 == key) = true
          · rw [if_pos hfr] at hp
            simp at hp
          · rw [if_neg hfr] at hp
            have hfr' : (prev.any fun p => p.1 == key) = false := by
              cases h : (prev.any fun p => p.1 == key) with
              | false => rfl
              | true => exact absurd h hfr
            have hsr1l := skipWs_len r1
            cases hsr1 : skipWs r1 with
            | nil =>
              rw [hsr1] at hp
              simp at hp
            | cons c1 t1 =>
              rw [hsr1] at hp
              have hlr1 := congrArg List.length hsr1
              simp only [List.length_cons] at hlr1
              by_cases h58 : c1 = 58
              · subst h58
                simp only [] at hp
                have hst1 := skipWs_len t1
                cases hpv : parseValue true g d (skipWs t1) with
                | none =>
                  rw [hpv] at hp
                  simp at hp
                | some res =>
                  cases res with
                  | error e =>
                    rw [hpv] at hp
                    simp at hp
                  | ok p2 =>
                    obtain ⟨vv, r3⟩ := p2
                    rw [hpv] at hp
                    simp only [] at hp
                    obtain ⟨hwfv, hheiv, hemitv⟩ :=
                      (ih g (by omega)).1 d (skipWs t1) vv r3 hpv
                    have hsr3l := skipWs_len r3
                    cases hsr3 : skipWs r3 with
                    | nil =>
                      rw [hsr3] at hp
                      simp at hp
                    | cons c2 t2 =>
                      rw [hsr3] at hp
                      have hlr3 := congrArg List.length hsr3
                      simp only [List.length_cons] at hlr3
                      by_cases h44 : c2 = 44
                      · subst h44
                        simp only [] at hp
                        obtain ⟨new1, hne1, hv1, hlen1, hdup1, hvalid1, hwfp1,
                          hhei1, hemit1⟩ :=
                          (ih g (by omega)).2.1 d (prev ++ [(key, vv)]) t2 v r hp
                        refine ⟨(key, vv) :: new1, by simp, ?_, ?_, ?_, ?_, ?_, ?_, ?_⟩
                        · rw [hv1]
                          simp
                        · simp only [List.length_append, List.length_cons,
                            List.length_nil] at hlen1 ⊢
                          omega
                        · intro hkd
                          have h1 : keysDup (prev ++ [(key, vv)]) = false :=
                            keysDup_append_one prev (key, vv) hkd hfr'
                          have h2 := hdup1 h1
                          rw [show prev ++ (key, vv) :: new1 =
                            (prev ++ [(key, vv)]) ++ new1 by simp]
                          exact h2
                        · simp only [List.all_cons, Bool.and_eq_true]
                          exact ⟨hvk, hvalid1⟩
                        · rw [wfPairsB.eq_def]
                          simp only [Bool.and_eq_true]
                          exact ⟨hwfv, hwfp1⟩
                        · have hc : heightPairs ((key, vv) :: new1) =
                              max (heightOf vv) (heightPairs new1) := by
                            simp [heightPairs]
                          rw [hc]
                          exact Nat.max_le.2 ⟨hheiv, hhei1⟩
                        · have hcc : canonPairs ((key, vv) :: new1) =
                              (key, canonValue vv) :: canonPairs new1 := by
                            simp [canonPairs]
                          have hml : (emitMembers ((key, canonValue vv) ::
                              canonPairs new1)).length =
                              3 + (emit_string_content key).length +
                                (emitRaw (canonValue vv)).length +
                                (emitMembersTail (canonPairs new1)).length :=
                            emitMembers_cons_length _ _
                          have htl : (emitMembersTail (canonPairs new1)).length =
                              1 + (emitMembers (canonPairs new1)).length := by
                            cases hnn : canonPairs new1 with
                            | nil => exact absurd hnn (canonPairs_ne_nil hne1)
                            | cons q qs =>
                              rw [emitMembersTail_cons]
                              simp only [List.length_cons]
                              omega
                          rw [hcc, hml, htl]
                          omega
                      · by_cases h125 : c2 = 125
                        · subst h125
                          simp only [] at hp
                          simp only [Option.some.injEq, Except.ok.injEq,
                            Prod.mk.injEq] at hp
                          obtain ⟨hv1, hr1⟩ := hp
                          subst hr1
                          refine ⟨[(key, vv)], by simp, hv1.symm, ?_, ?_, ?_, ?_,
                            ?_, ?_⟩
                          · simp only [List.length_append, List.length_cons,
                              List.length_nil]
                            simp only [ge_iff_le, Nat.not_le] at hcap
                            omega
                          · intro hkd
                            exact keysDup_append_one prev (key, vv) hkd hfr'
                          · simp [hvk]
                          · rw [wfPairsB.eq_def]
                            simp only [Bool.and_eq_true]
                            refine ⟨hwfv, by rfl⟩
                          · simpa [heightPairs] using hheiv
                          · have hcc : canonPairs [(key, vv)] =
                                [(key, canonValue vv)] := by
                              simp [canonPairs]
                            have hml : (emitMembers ([(key, canonValue vv)] :
                                List (Bytes × JVal))).length =
                                3 + (emit_string_content key).length +
                                  (emitRaw (canonValue vv)).length +
                                  (emitMembersTail ([] : List (Bytes × JVal))).length :=
                              emitMembers_cons_length _ _
                            have htl : (emitMembersTail
                                ([] : List (Bytes × JVal))).length = 0 := rfl
                            rw [hcc, hml, htl]
                            omega
                        · split at hp
                          · rename_i r4 heq2
                            injection heq2 with hc2 ht2
                            exact absurd hc2 h44
                          · rename_i r4 heq2
                            injection heq2 with hc2 ht2
                            exact absurd hc2 h125
                          · simp at hp
              · split at hp
                · rename_i r2 heq2
                  injection heq2 with hc1 ht1'
                  exact absurd hc1 h58
                · simp at hp
        · have hvk' : validKey key = false := by simpa using hvk
          simp only [hvk', Bool.not_false, if_true] at hp
          simp at hp
  · -- parseItems
    intro d prevI s v r hp
    cases fuel with
    | zero =>
      rw [parseItems.eq_def] at hp
      exact absurd hp (by simp)
    | succ g =>
    rw [parseItems.eq_def] at hp
    simp only [] at hp
    have hsl := skipWs_len s
    by_cases hcap : prevI.length ≥ MAX_ARRAY_ITEMS
    · rw [if_pos hcap] at hp
      simp at hp
    · rw [if_neg hcap] at hp
      cases hpv : parseValue true g d (skipWs s) with
      | none =>
        rw [hpv] at hp
        simp at hp
      | some res =>
        cases res with
        | error e =>
          rw [hpv] at hp
          simp at hp
        | ok p2 =>
          obtain ⟨vv, r3⟩ := p2
          rw [hpv] at hp
          simp only [] at hp
          obtain ⟨hwfv, hheiv, hemitv⟩ := (ih g (by omega)).1 d (skipWs s) vv r3 hpv
          have hsr3l := skipWs_len r3
          cases hsr3 : skipWs r3 with
          | nil =>
            rw [hsr3] at hp
            simp at hp
          | cons c2 t2 =>
            rw [hsr3] at hp
            have hlr3 := congrArg List.length hsr3
            simp only [List.length_cons] at hlr3
            by_cases h44 : c2 = 44
            · subst h44
              simp only [] at hp
              obtain ⟨new1, hne1, hv1, hlen1, hwfl1, hhei1, hemit1⟩ :=
                (ih g (by omega)).2.2 d (prevI ++ [vv]) t2 v r hp
              refine ⟨vv :: new1, by simp, ?_, ?_, ?_, ?_, ?_⟩
              · rw [hv1]
                simp
              · simp only [List.length_append, List.length_cons,
                  List.length_nil] at hlen1 ⊢
                omega
              · rw [wfListB.eq_def]
                simp only [Bool.and_eq_true]
                exact ⟨hwfv, hwfl1⟩
              · have hc : heightList (vv :: new1) =
                    max (heightOf vv) (heightList new1) := by
                  simp [heightList]
                rw [hc]
                exact Nat.max_le.2 ⟨hheiv, hhei1⟩
              · have hcc : canonList (vv :: new1) =
                    canonValue vv :: canonList new1 := by
                  simp [canonList]
                have hml : (emitItems (canonValue vv :: canonList new1)).length =
                    (emitRaw (canonValue vv)).length +
                      (emitItemsTail (canonList new1)).length :=
                  emitItems_cons_length _ _
                have htl : (emitItemsTail (canonList new1)).length =
                    1 + (emitItems (canonList new1)).length := by
                  cases hnn : canonList new1 with
                  | nil => exact absurd hnn (canonList_ne_nil hne1)
                  | cons q qs =>
                    rw [emitItemsTail_cons]
                    simp only [List.length_cons]
                    omega
                rw [hcc, hml, htl]
                omega
            · by_cases h93 : c2 = 93
              · subst h93
                simp only [] at hp
                simp only [Option.some.injEq, Except.ok.injEq, Prod.mk.injEq] at hp
                obtain ⟨hv1, hr1⟩ := hp
                subst hr1
                refine ⟨[vv], by simp, hv1.symm, ?_, ?_, ?_, ?_⟩
                · simp only [List.length_append, List.length_cons, List.length_nil]
                  simp only [ge_iff_le, Nat.not_le] at hcap
                  omega
                · rw [wfListB.eq_def]
                  simp only [Bool.and_eq_true]
                  exact ⟨hwfv, by rfl⟩
                · simpa [heightList] using hheiv
                · have hcc : canonList [vv] = [canonValue vv] := by
                    simp [canonList]
                  have hml : (emitItems ([canonValue vv] : List JVal)).length =
                      (emitRaw (canonValue vv)).length +
                        (emitItemsTail ([] : List JVal)).length :=
                    emitItems_cons_length _ _
                  have htl : (emitItemsTail ([] : List JVal)).length = 0 := rfl
                  rw [hcc, hml, htl]
                  omega
              · split at hp
                · rename_i r4 heq2
                  injection heq2 with hc2 ht2
                  exact absurd hc2 h44
                · rename_i r4 heq2
                  injection heq2 with hc2 ht2
                  exact absurd hc2 h93
                · simp at hp

end Kernel

namespace Kernel

-- ── duplicate-key observations ──

lemma hasDupKeys_obj (pairs : List (Bytes × JVal)) :
    hasDupKeys (.jobj pairs) = (keysDup pairs || hasDupKeysPairs pairs) := by
  simp [hasDupKeys]

lemma hasDupKeysPairs_eq_any : ∀ l : List (Bytes × JVal),
    hasDupKeysPairs l = l.any fun p => hasDupKeys p.2
  | [] => rfl
  | p :: rest => by
    rw [hasDupKeysPairs.eq_def]
    simp only []
    rw [hasDupKeysPairs_eq_any rest, List.any_cons]

lemma hasDupKeysList_eq_any : ∀ l : List JVal,
    hasDupKeysList l = l.any hasDupKeys
  | [] => rfl
  | v :: rest => by
    rw [hasDupKeysList.eq_def]
    simp only []
    rw [hasDupKeysList_eq_any rest, List.any_cons]

-- ── the member loop only ever extends its accumulator ──

lemma parseMembers_extends : ∀ (fuel : Nat) (b : Bool) (d : Nat)
    (prev : List (Bytes × JVal)) (s : Bytes) (v : JVal) (r : Bytes),
    parseMembers b fuel d prev s = some (.ok (v, r)) →
    ∃ new, new ≠ [] ∧ v = .jobj (prev ++ new) := by
  intro fuel
  induction fuel with
  | zero =>
    intro b d prev s v r hp
    rw [parseMembers.eq_def] at hp
    exact absurd hp (by simp)
  | succ g ihg =>
    intro b d prev s v r hp
    rw [parseMembers.eq_def] at hp
    simp only [] at hp
    by_cases hcap : prev.length ≥ MAX_OBJECT_FIELDS
    · rw [if_pos hcap] at hp
      simp at hp
    · rw [if_neg hcap] at hp
      cases hps : parseString (skipWs s) with
      | error e =>
        rw [hps] at hp
        simp at hp
      | ok kv =>
        obtain ⟨key, r1⟩ := kv
        rw [hps] at hp
        simp only [] at hp
        by_cases hvk : validKey key = true
        · simp only [hvk, Bool.not_true, Bool.false_eq_true, if_false] at hp
          by_cases hdup : (b && prev.any fun p => p.1 == key) = true
          · rw [if_pos hdup] at hp
            simp at hp
          · rw [if_neg hdup] at hp
            cases hsr1 : skipWs r1 with
            | nil =>
              rw [hsr1] at hp
              simp at hp
            | cons c1 t1 =>
              rw [hsr1] at hp
              by_cases h58 : c1 = 58
              · subst h58
                simp only [] at hp
                cases hpv : parseValue b g d (skipWs t1) with
                | none =>
                  rw [hpv] at hp
                  simp at hp
                | some res =>
                  cases res with
                  | error e =>
                    rw [hpv] at hp
                    simp at hp
                  | ok p2 =>
                    obtain ⟨vv, r3⟩ := p2
                    rw [hpv] at hp
                    simp only [] at hp
                    cases hsr3 : skipWs r3 with
                    | nil =>
                      rw [hsr3] at hp
                      simp at hp
                    | cons c2 t2 =>
                      rw [hsr3] at hp
                      by_cases h44 : c2 = 44
                      · subst h44
                        simp only [] at hp
                        obtain ⟨new1, hne1, hv1⟩ :=
                          ihg b d (prev ++ [(key, vv)]) t2 v r hp
                        refine ⟨(key, vv) :: new1, by simp, ?_⟩
                        rw [hv1]
                        simp
                      · by_cases h125 : c2 = 125
                        · subst h125
                          simp only [] at hp
                          simp only [Option.some.injEq, Except.ok.injEq,
                            Prod.mk.injEq] at hp
                          exact ⟨[(key, vv)], by simp, hp.1.symm⟩
                        · split at hp
                          · rename_i r4 heq2
                            injection heq2 with hc2 ht2
                            exact absurd hc2 h44
                          · rename_i r4 heq2
                            injection heq2 with hc2 ht2
                            exact absurd hc2 h125
                          · simp at hp
              · split at hp
                · rename_i r2 heq2
                  injection heq2 with hc1 ht1
                  exact absurd hc1 h58
                · simp at hp
        · have hvk2 : validKey key = false := by simpa using hvk
          simp only [hvk2, Bool.not_false, if_true] at hp
          simp at hp

end Kernel

namespace Kernel

lemma parseItems_extends : ∀ (fuel : Nat) (b : Bool) (d : Nat)
    (prevI : List JVal) (s : Bytes) (v : JVal) (r : Bytes),
    parseItems b fuel d prevI s = some (.ok (v, r)) →
    ∃ new, new ≠ [] ∧ v = .jarr (prevI ++ new) := by
  intro fuel
  induction fuel with
  | zero =>
    intro b d prevI s v r hp
    rw [parseItems.eq_def] at hp
    exact absurd hp (by simp)
  | succ g ihg =>
    intro b d prevI s v r hp
    rw [parseItems.eq_def] at hp
    simp only [] at hp
    by_cases hcap : prevI.length ≥ MAX_ARRAY_ITEMS
    · rw [if_pos hcap] at hp
      simp at hp
    · rw [if_neg hcap] at hp
      cases hpv : parseValue b g d (skipWs s) with
      | none =>
        rw [hpv] at hp
        simp at hp
      | some res =>
        cases res with
        | error e =>
          rw [hpv] at hp
          simp at hp
        | ok p2 =>
          obtain ⟨vv, r3⟩ := p2
          rw [hpv] at hp
          simp only [] at hp
          cases hsr3 : skipWs r3 with
          | nil =>
            rw [hsr3] at hp
            simp at hp
          | cons c2 t2 =>
            rw [hsr3] at hp
            by_cases h44 : c2 = 44
            · subst h44
              simp only [] at hp
              obtain ⟨new1, hne1, hv1⟩ := ihg b d (prevI ++ [vv]) t2 v r hp
              refine ⟨vv :: new1, by simp, ?_⟩
              rw [hv1]
              simp
            · by_cases h93 : c2 = 93
              · subst h93
                simp only [] at hp
                simp only [Option.some.injEq, Except.ok.injEq, Prod.mk.injEq] at hp
                exact ⟨[vv], by simp, hp.1.symm⟩
              · split at hp
                · rename_i r4 heq2
                  injection heq2 with hc2 ht2
                  exact absurd hc2 h44
                · rename_i r4 heq2
                  injection heq2 with hc2 ht2
                  exact absurd hc2 h93
                · simp at hp

end Kernel

namespace Kernel

theorem parseAgree : ∀ fuel : Nat,
    (∀ (d : Nat) (s : Bytes) (v : JVal) (r : Bytes),
      parseValue false fuel d s = some (.ok (v, r)) →
      parseValue true fuel d s =
        (if hasDupKeys v = true then some (.error .DuplicateKey)
          else some (.ok (v, r)))) ∧
    (∀ (d : Nat) (prev : List (Bytes × JVal)) (s : Bytes) (v : JVal) (r : Bytes),
      parseMembers false fuel d prev s = some (.ok (v, r)) →
      keysDup prev = false → hasDupKeysPairs prev = false →
      parseMembers true fuel d prev s =
        (if hasDupKeys v = true then some (.error .DuplicateKey)
          else some (.ok (v, r)))) ∧
    (∀ (d : Nat) (prevI : List JVal) (s : Bytes) (v : JVal) (r : Bytes),
      parseItems false fuel d prevI s = some (.ok (v, r)) →
      hasDupKeysList prevI = false →
      parseItems true fuel d prevI s =
        (if hasDupKeys v = true then some (.error .DuplicateKey)
          else some (.ok (v, r)))) := by
  intro fuel
  induction fuel using Nat.strong_induction_on with
  | _ fuel ih =>
  refine ⟨?_, ?_, ?_⟩
  · -- parseValue agreement
    intro d s v r hp
    cases fuel with
    | zero =>
      rw [parseValue.eq_def] at hp
      exact absurd hp (by simp)
    | succ f =>
    rw [parseValue.eq_def] at hp
    try simp only [] at hp
    rw [parseValue.eq_def]
    try simp only []
    split at hp
    · -- string
      rename_i x heq
      rw [heq] at hp ⊢
      try simp only []
      cases hps : parseString (34 :: x) with
      | error e =>
        rw [hps] at hp
        simp at hp
      | ok p =>
        obtain ⟨str, r1⟩ := p
        rw [hps] at hp
        simp only [Option.some.injEq, Except.ok.injEq, Prod.mk.injEq] at hp
        obtain ⟨hv, hr⟩ := hp
        subst hv
        subst hr
        simp [hasDupKeys]
    · -- object
      rename_i x heq
      rw [heq] at hp ⊢
      try simp only []
      cases f with
      | zero =>
        rw [parseObject.eq_def] at hp
        exact absurd hp (by simp)
      | succ g =>
      rw [parseObject.eq_def] at hp ⊢
      try simp only [] at hp
      try simp only []
      by_cases hd1 : d + 1 > MAX_DEPTH
      · rw [if_pos hd1] at hp
        simp at hp
      · rw [if_neg hd1] at hp ⊢
        by_cases hh125 : (skipWs x).head? = some 125
        · rw [if_pos hh125] at hp ⊢
          simp only [Option.some.injEq, Except.ok.injEq, Prod.mk.injEq] at hp
          obtain ⟨hv, hr⟩ := hp
          subst hv
          subst hr
          rw [if_neg (by decide : ¬(hasDupKeys (JVal.jobj []) = true))]
        · rw [if_neg hh125] at hp ⊢
          exact (ih g (by omega)).2.1 (d + 1) [] (skipWs x) v r hp rfl rfl
    · -- array
      rename_i x heq
      rw [heq] at hp ⊢
      try simp only []
      cases f with
      | zero =>
        rw [parseArray.eq_def] at hp
        exact absurd hp (by simp)
      | succ g =>
      rw [parseArray.eq_def] at hp ⊢
      try simp only [] at hp
      try simp only []
      by_cases hd1 : d + 1 > MAX_DEPTH
      · rw [if_pos hd1] at hp
        simp at hp
      · rw [if_neg hd1] at hp ⊢
        by_cases hh93 : (skipWs x).head? = some 93
        · rw [if_pos hh93] at hp ⊢
          simp only [Option.some.injEq, Except.ok.injEq, Prod.mk.injEq] at hp
          obtain ⟨hv, hr⟩ := hp
          subst hv
          subst hr
          rw [if_neg (by decide : ¬(hasDupKeys (JVal.jarr []) = true))]
        · rw [if_neg hh93] at hp ⊢
          exact (ih g (by omega)).2.2 (d + 1) [] (skipWs x) v r hp rfl
    · -- true literal
      rename_i x heq
      rw [heq] at hp ⊢
      try simp only [] at hp
      try simp only []
      by_cases ht : (116 :: x).take 4 = [116, 114, 117, 101]
      · rw [if_pos ht] at hp ⊢
        simp only [Option.some.injEq, Except.ok.injEq, Prod.mk.injEq] at hp
        obtain ⟨hv, hr⟩ := hp
        subst hv
        subst hr
        rw [if_neg (by decide : ¬(hasDupKeys (JVal.jbool true) = true))]
      · rw [if_neg ht] at hp
        simp at hp
    · -- false literal
      rename_i x heq
      rw [heq] at hp ⊢
      try simp only [] at hp
      try simp only []
      by_cases ht : (102 :: x).take 5 = [102, 97, 108, 115, 101]
      · rw [if_pos ht] at hp ⊢
        simp only [Option.some.injEq, Except.ok.injEq, Prod.mk.injEq] at hp
        obtain ⟨hv, hr⟩ := hp
        subst hv
        subst hr
        rw [if_neg (by decide : ¬(hasDupKeys (JVal.jbool false) = true))]
      · rw [if_neg ht] at hp
        simp at hp
    · -- null literal
      rename_i x heq
      rw [heq] at hp ⊢
      try simp only [] at hp
      try simp only []
      by_cases ht : (110 :: x).take 4 = [110, 117, 108, 108]
      · rw [if_pos ht] at hp ⊢
        simp only [Option.some.injEq, Except.ok.injEq, Prod.mk.injEq] at hp
        obtain ⟨hv, hr⟩ := hp
        subst hv
        subst hr
        rw [if_neg (by decide : ¬(hasDupKeys JVal.jnull = true))]
      · rw [if_neg ht] at hp
        simp at hp
    · -- catch-all
      simp at hp
  · -- parseMembers agreement
    intro d prev s v r hp hkd hpdp
    cases fuel with
    | zero =>
      rw [parseMembers.eq_def] at hp
      exact absurd hp (by simp)
    | succ g =>
    rw [parseMembers.eq_def] at hp
    try simp only [] at hp
    rw [parseMembers.eq_def]
    try simp only []
    by_cases hcap : prev.length ≥ MAX_OBJECT_FIELDS
    · rw [if_pos hcap] at hp
      simp at hp
    · rw [if_neg hcap] at hp ⊢
      cases hps : parseString (skipWs s) with
      | error e =>
        rw [hps] at hp
        simp at hp
      | ok kv =>
        obtain ⟨key, r1⟩ := kv
        rw [hps] at hp
        try simp only [] at hp
        try simp only []
        by_cases hvk : validKey key = true
        · simp only [hvk, Bool.not_true, Bool.false_eq_true, if_false] at hp ⊢
          simp only [Bool.false_and, Bool.false_eq_true, if_false] at hp
          simp only [Bool.true_and]
          by_cases hfr : (prev.any fun p => p.1 == key) = true
          · -- strict parser rejects the duplicate right here
            rw [if_pos hfr]
            obtain ⟨q, hqmem, hqeq⟩ := List.any_eq_true.1 hfr
            rw [beq_iff_eq] at hqeq
            cases hsr1 : skipWs r1 with
            | nil =>
              rw [hsr1] at hp
              simp at hp
            | cons c1 t1 =>
              rw [hsr1] at hp
              by_cases h58 : c1 = 58
              · subst h58
                try simp only [] at hp
                cases hpv : parseValue false g d (skipWs t1) with
                | none =>
                  rw [hpv] at hp
                  simp at hp
                | some res =>
                  cases res with
                  | error e =>
                    rw [hpv] at hp
                    simp at hp
                  | ok p2 =>
                    obtain ⟨vv, r3⟩ := p2
                    rw [hpv] at hp
                    try simp only [] at hp
                    cases hsr3 : skipWs r3 with
                    | nil =>
                      rw [hsr3] at hp
                      simp at hp
                    | cons c2 t2 =>
                      rw [hsr3] at hp
                      by_cases h44 : c2 = 44
                      · subst h44
                        try simp only [] at hp
                        obtain ⟨new1, hne1, hv1⟩ :=
                          parseMembers_extends g false d (prev ++ [(key, vv)]) t2 v r hp
                        rw [show (prev ++ [(key, vv)]) ++ new1 =
                          prev ++ (key, vv) :: new1 by simp] at hv1
                        have hkdt : keysDup (prev ++ (key, vv) :: new1) = true :=
                          keysDup_true_of_mem prev (key, vv) new1 q hqmem hqeq
                        rw [if_pos (by rw [hv1, hasDupKeys_obj, hkdt]; simp)]
                      · by_cases h125 : c2 = 125
                        · subst h125
                          try simp only [] at hp
                          simp only [Option.some.injEq, Except.ok.injEq,
                            Prod.mk.injEq] at hp
                          obtain ⟨hv1, hr1⟩ := hp
                          have hkdt : keysDup (prev ++ (key, vv) :: []) = true :=
                            keysDup_true_of_mem prev (key, vv) [] q hqmem hqeq
                          rw [if_pos (by rw [← hv1, hasDupKeys_obj, hkdt]; simp)]
                        · split at hp
                          · rename_i r4 heq2
                            injection heq2 with hc2 ht2
                            exact absurd hc2 h44
                          · rename_i r4 heq2
                            injection heq2 with hc2 ht2
                            exact absurd hc2 h125
                          · simp at hp
              · split at hp
                · rename_i r2 heq2
                  injection heq2 with hc1 ht1
                  exact absurd hc1 h58
                · simp at hp
          · have hfr' : (prev.any fun p => p.1 == key) = false := by
              cases h : (prev.any fun p => p.1 == key) with
              | false => rfl
              | true => exact absurd h hfr
            rw [if_neg hfr]
            cases hsr1 : skipWs r1 with
            | nil =>
              rw [hsr1] at hp
              simp at hp
            | cons c1 t1 =>
              rw [hsr1] at hp
              by_cases h58 : c1 = 58
              · subst h58
                try simp only [] at hp
                try simp only []
                cases hpv : parseValue false g d (skipWs t1) with
                | none =>
                  rw [hpv] at hp
                  simp at hp
                | some res =>
                  cases res with
                  | error e =>
                    rw [hpv] at hp
                    simp at hp
                  | ok p2 =>
                    obtain ⟨vv, r3⟩ := p2
                    rw [hpv] at hp
                    try simp only [] at hp
                    have hagv := (ih g (by omega)).1 d (skipWs t1) vv r3 hpv
                    by_cases hdv : hasDupKeys vv = true
                    · -- strict value parse reports the duplicate
                      rw [hagv, if_pos hdv]
                      try simp only []
                      cases hsr3 : skipWs r3 with
                      | nil =>
                        rw [hsr3] at hp
                        simp at hp
                      | cons c2 t2 =>
                        rw [hsr3] at hp
                        by_cases h44 : c2 = 44
                        · subst h44
                          try simp only [] at hp
                          obtain ⟨new1, hne1, hv1⟩ :=
                            parseMembers_extends g false d (prev ++ [(key, vv)]) t2 v r hp
                          rw [show (prev ++ [(key, vv)]) ++ new1 =
                            prev ++ (key, vv) :: new1 by simp] at hv1
                          have hdp : hasDupKeysPairs (prev ++ (key, vv) :: new1) = true := by
                            rw [hasDupKeysPairs_eq_any, List.any_eq_true]
                            exact ⟨(key, vv), by simp, hdv⟩
                          rw [if_pos (by rw [hv1, hasDupKeys_obj, hdp]; simp)]
                        · by_cases h125 : c2 = 125
                          · subst h125
                            try simp only [] at hp
                            simp only [Option.some.injEq, Except.ok.injEq,
                              Prod.mk.injEq] at hp
                            obtain ⟨hv1, hr1⟩ := hp
                            have hdp : hasDupKeysPairs (prev ++ (key, vv) :: []) = true := by
                              rw [hasDupKeysPairs_eq_any, List.any_eq_true]
                              exact ⟨(key, vv), by simp, hdv⟩
                            rw [if_pos (by rw [← hv1, hasDupKeys_obj, hdp]; simp)]
                          · split at hp
                            · rename_i r4 heq2
                              injection heq2 with hc2 ht2
                              exact absurd hc2 h44
                            · rename_i r4 heq2
                              injection heq2 with hc2 ht2
                              exact absurd hc2 h125
                            · simp at hp
                    · have hdv' : hasDupKeys vv = false := by
                        cases h : hasDupKeys vv with
                        | false => rfl
                        | true => exact absurd h hdv
                      rw [hagv, if_neg hdv]
                      try simp only []
                      cases hsr3 : skipWs r3 with
                      | nil =>
                        rw [hsr3] at hp
                        simp at hp
                      | cons c2 t2 =>
                        rw [hsr3] at hp
                        by_cases h44 : c2 = 44
                        · subst h44
                          try simp only [] at hp
                          try simp only []
                          have hkd2 : keysDup (prev ++ [(key, vv)]) = false :=
                            keysDup_append_one prev (key, vv) hkd hfr'
                          have hpdp2 : hasDupKeysPairs (prev ++ [(key, vv)]) = false := by
                            rw [hasDupKeysPairs_eq_any, List.any_append]
                            rw [hasDupKeysPairs_eq_any] at hpdp
                            simp [hpdp, hdv']
                          exact (ih g (by omega)).2.1 d (prev ++ [(key, vv)]) t2 v r
                            hp hkd2 hpdp2
                        · by_cases h125 : c2 = 125
                          · subst h125
                            try simp only [] at hp
                            try simp only []
                            simp only [Option.some.injEq, Except.ok.injEq,
                              Prod.mk.injEq] at hp
                            obtain ⟨hv1, hr1⟩ := hp
                            subst hr1
                            have hkd2 : keysDup (prev ++ [(key, vv)]) = false :=
                              keysDup_append_one prev (key, vv) hkd hfr'
                            have hpdp2 : hasDupKeysPairs (prev ++ [(key, vv)]) = false := by
                              rw [hasDupKeysPairs_eq_any, List.any_append]
                              rw [hasDupKeysPairs_eq_any] at hpdp
                              simp [hpdp, hdv']
                            rw [if_neg (by
                              rw [← hv1, hasDupKeys_obj, hkd2, hpdp2]
                              simp)]
                            rw [hv1]
                          · split at hp
                            · rename_i r4 heq2
                              injection heq2 with hc2 ht2
                              exact absurd hc2 h44
                            · rename_i r4 heq2
                              injection heq2 with hc2 ht2
                              exact absurd hc2 h125
                            · simp at hp
              · split at hp
                · rename_i r2 heq2
                  injection heq2 with hc1 ht1
                  exact absurd hc1 h58
                · simp at hp
        · have hvk2 : validKey key = false := by simpa using hvk
          simp only [hvk2, Bool.not_false, if_true] at hp
          simp at hp
  · -- parseItems agreement
    intro d prevI s v r hp hdl
    cases fuel with
    | zero =>
      rw [parseItems.eq_def] at hp
      exact absurd hp (by simp)
    | succ g =>
    rw [parseItems.eq_def] at hp
    try simp only [] at hp
    rw [parseItems.eq_def]
    try simp only []
    by_cases hcap : prevI.length ≥ MAX_ARRAY_ITEMS
    · rw [if_pos hcap] at hp
      simp at hp
    · rw [if_neg hcap] at hp ⊢
      cases hpv : parseValue false g d (skipWs s) with
      | none =>
        rw [hpv] at hp
        simp at hp
      | some res =>
        cases res with
        | error e =>
          rw [hpv] at hp
          simp at hp
        | ok p2 =>
          obtain ⟨vv, r3⟩ := p2
          rw [hpv] at hp
          try simp only [] at hp
          have hagv := (ih g (by omega)).1 d (skipWs s) vv r3 hpv
          by_cases hdv : hasDupKeys vv = true
          · rw [hagv, if_pos hdv]
            try simp only []
            cases hsr3 : skipWs r3 with
            | nil =>
              rw [hsr3] at hp
              simp at hp
            | cons c2 t2 =>
              rw [hsr3] at hp
              by_cases h44 : c2 = 44
              · subst h44
                try simp only [] at hp
                obtain ⟨new1, hne1, hv1⟩ :=
                  parseItems_extends g false d (prevI ++ [vv]) t2 v r hp
                rw [show (prevI ++ [vv]) ++ new1 = prevI ++ vv :: new1 by simp] at hv1
                have hdp : hasDupKeysList (prevI ++ vv :: new1) = true := by
                  rw [hasDupKeysList_eq_any, List.any_eq_true]
                  exact ⟨vv, by simp, hdv⟩
                rw [if_pos (by rw [hv1]; simpa [hasDupKeys] using hdp)]
              · by_cases h93 : c2 = 93
                · subst h93
                  try simp only [] at hp
                  simp only [Option.some.injEq, Except.ok.injEq, Prod.mk.injEq] at hp
                  obtain ⟨hv1, hr1⟩ := hp
                  have hdp : hasDupKeysList (prevI ++ vv :: []) = true := by
                    rw [hasDupKeysList_eq_any, List.any_eq_true]
                    exact ⟨vv, by simp, hdv⟩
                  rw [if_pos (by rw [← hv1]; simpa [hasDupKeys] using hdp)]
                · split at hp
                  · rename_i r4 heq2
                    injection heq2 with hc2 ht2
                    exact absurd hc2 h44
                  · rename_i r4 heq2
                    injection heq2 with hc2 ht2
                    exact absurd hc2 h93
                  · simp at hp
          · have hdv' : hasDupKeys vv = false := by
              cases h : hasDupKeys vv with
              | false => rfl
              | true => exact absurd h hdv
            rw [hagv, if_neg hdv]
            try simp only []
            cases hsr3 : skipWs r3 with
            | nil =>
              rw [hsr3] at hp
              simp at hp
            | cons c2 t2 =>
              rw [hsr3] at hp
              by_cases h44 : c2 = 44
              · subst h44
                try simp only [] at hp
                try simp only []
                have hdl2 : hasDupKeysList (prevI ++ [vv]) = false := by
                  rw [hasDupKeysList_eq_any, List.any_append]
                  rw [hasDupKeysList_eq_any] at hdl
                  simp [hdl, hdv']
                exact (ih g (by omega)).2.2 d (prevI ++ [vv]) t2 v r hp hdl2
              · by_cases h93 : c2 = 93
                · subst h93
                  try simp only [] at hp
                  try simp only []
                  simp only [Option.some.injEq, Except.ok.injEq, Prod.mk.injEq] at hp
                  obtain ⟨hv1, hr1⟩ := hp
                  subst hr1
                  have hdl2 : hasDupKeysList (prevI ++ [vv]) = false := by
                    rw [hasDupKeysList_eq_any, List.any_append]
                    rw [hasDupKeysList_eq_any] at hdl
                    simp [hdl, hdv']
                  rw [if_neg (by
                    rw [← hv1]
                    simp only [hasDupKeys]
                    rw [show prevI ++ vv :: [] = prevI ++ [vv] from rfl, hdl2]
                    simp)]
                  rw [hv1]
                · split at hp
                  · rename_i r4 heq2
                    injection heq2 with hc2 ht2
                    exact absurd hc2 h44
                  · rename_i r4 heq2
                    injection heq2 with hc2 ht2
                    exact absurd hc2 h93
                  · simp at hp

end Kernel

namespace Kernel

-- ── emitted bytes always carry enough parse fuel ──

mutual

lemma fuelNeedV_le_emit : ∀ v, fuelNeedV v ≤ 2 * (emitRaw v).length
  | .jnull => by
    rw [emitRaw.eq_def]
    simp [fuelNeedV]
  | .jbool b => by
    cases b <;> (rw [emitRaw.eq_def]; simp [fuelNeedV])
  | .jstr s => by
    rw [emitRaw.eq_def]
    simp [fuelNeedV]
    omega
  | .jarr items => by
    rw [emitRaw.eq_def]
    simp only [fuelNeedV, List.length_cons, List.length_append,
      List.length_singleton]
    have h1 := fuelNeedItems_le_emit items
    omega
  | .jobj pairs => by
    rw [emitRaw.eq_def]
    simp only [fuelNeedV, List.length_cons, List.length_append,
      List.length_singleton]
    have h1 := fuelNeedPairs_le_emit pairs
    omega
termination_by structural v => v

lemma fuelNeedItems_le_emit : ∀ l, fuelNeedItems l ≤ 2 * (emitItems l).length + 2
  | [] => by simp [fuelNeedItems, emitItems]
  | v :: rest => by
    have h1 := fuelNeedV_le_emit v
    have hc := emitItems_cons_length v rest
    cases rest with
    | nil =>
      have ht : (emitItemsTail ([] : List JVal)).length = 0 := rfl
      simp only [fuelNeedItems]
      omega
    | cons w ws =>
      have h2 := fuelNeedItems_le_emit (w :: ws)
      have ht : (emitItemsTail (w :: ws)).length =
          1 + (emitItems (w :: ws)).length := by
        rw [emitItemsTail_cons]
        simp only [List.length_cons]
        omega
      have hun : fuelNeedItems (v :: w :: ws) =
          1 + fuelNeedV v + fuelNeedItems (w :: ws) := by
        rw [fuelNeedItems.eq_def]
      omega
termination_by structural l => l

lemma fuelNeedPairs_le_emit : ∀ l,
    fuelNeedPairs l ≤ 2 * (emitMembers l).length + 2
  | [] => by simp [fuelNeedPairs, emitMembers]
  | p :: rest => by
    have h1 := fuelNeedV_le_emit p.2
    have hc := emitMembers_cons_length p rest
    cases rest with
    | nil =>
      have ht : (emitMembersTail ([] : List (Bytes × JVal))).length = 0 := rfl
      simp only [fuelNeedPairs]
      omega
    | cons q qs =>
      have h2 := fuelNeedPairs_le_emit (q :: qs)
      have ht : (emitMembersTail (q :: qs)).length =
          1 + (emitMembers (q :: qs)).length := by
        rw [emitMembersTail_cons]
        simp only [List.length_cons]
        omega
      have hun : fuelNeedPairs (p :: q :: qs) =
          1 + fuelNeedV p.2 + fuelNeedPairs (q :: qs) := by
        rw [fuelNeedPairs.eq_def]
      omega
termination_by structural l => l

end

-- ── claim C8: canonicalize is idempotent ──

/-- C8: `canonicalize` is idempotent — whenever it returns `Ok c`,
running it again on the canonical output `c` returns `Ok c` unchanged. -/
theorem C8_canonicalize_idempotent :
    ∀ (x c : Bytes), canonicalize x = .ok c → canonicalize c = .ok c := by
  intro x c h
  simp only [canonicalize] at h
  by_cases h1 : x.length > MAX_INPUT_BYTES
  · rw [if_pos h1] at h
    exact absurd h (by simp)
  · rw [if_neg h1] at h
    by_cases h2 : x.take 3 = [239, 187, 191]
    · rw [if_pos h2] at h
      exact absurd h (by simp)
    · rw [if_neg h2] at h
      cases hpv : parseValue true (parseFuel x.length) 0 x with
      | none =>
        rw [hpv] at h
        exact absurd h (by simp)
      | some res =>
        cases res with
        | error e =>
          rw [hpv] at h
          exact absurd h (by simp)
        | ok p =>
          obtain ⟨v, rest⟩ := p
          rw [hpv] at h
          simp only [] at h
          by_cases h3 : skipWs rest = []
          · rw [if_pos h3] at h
            simp only [Except.ok.injEq] at h
            obtain ⟨hwf, hhei, hemit⟩ := (parseFwd (parseFuel x.length)).1 0 x v rest hpv
            have hcanon : canonB (canonValue v) = true := canonValue_canonB v hwf
            have hhw : heightOf (canonValue v) ≤ MAX_DEPTH := by
              rw [heightOf_canonValue]
              omega
            have hcw : c = emitRaw (canonValue v) := by
              rw [← h]
              rfl
            have hcl := congrArg List.length hcw
            have hclen : c.length ≤ MAX_INPUT_BYTES := by omega
            simp only [canonicalize]
            rw [if_neg (by omega : ¬(c.length > MAX_INPUT_BYTES))]
            obtain ⟨hb, t, hvw, hbset⟩ := emitRaw_head (canonValue v)
            have hbom : ¬(c.take 3 = [239, 187, 191]) := by
              rw [hcw, hvw]
              intro habs
              rw [List.take_succ_cons] at habs
              injection habs with hb1 _
              omega
            rw [if_neg hbom]
            have hfuel : fuelNeedV (canonValue v) ≤ parseFuel c.length := by
              have := fuelNeedV_le_emit (canonValue v)
              simp only [parseFuel]
              omega
            have hrt := (jsonRoundTrip (parseFuel c.length)).1 true (canonValue v)
              0 [] hcanon (by omega) hfuel
            rw [List.append_nil, ← hcw] at hrt
            rw [hrt]
            simp only []
            rw [if_pos (by rfl : skipWs ([] : Bytes) = [])]
            have hres : emit (canonValue v) = c := by
              rw [show emit (canonValue v) = emitRaw (canonValue (canonValue v))
                from rfl]
              rw [canonValue_id (canonValue v) hcanon, ← hcw]
            rw [hres]
          · rw [if_neg h3] at h
            exact absurd h (by simp)

-- ── claim C9: duplicate keys are always a hard DuplicateKey error ──

/-- C9: duplicate object keys are a hard error — any document whose
duplicate-tolerant parse yields a tree with a repeated key in some object,
at any depth, makes `canonicalize` return `DuplicateKey`; there is no
last-wins (or first-wins) resolution on any path. -/
theorem C9_duplicate_keys_hard_error :
    ∀ (x : Bytes) (v : JVal), parseDocumentLastWins x = .ok v →
    hasDupKeys v = true → canonicalize x = .error .DuplicateKey := by
  intro x v hp hdup
  simp only [parseDocumentLastWins] at hp
  by_cases h1 : x.length > MAX_INPUT_BYTES
  · rw [if_pos h1] at hp
    exact absurd hp (by simp)
  · rw [if_neg h1] at hp
    by_cases h2 : x.take 3 = [239, 187, 191]
    · rw [if_pos h2] at hp
      exact absurd hp (by simp)
    · rw [if_neg h2] at hp
      cases hpv : parseValue false (parseFuel x.length) 0 x with
      | none =>
        rw [hpv] at hp
        exact absurd hp (by simp)
      | some res =>
        cases res with
        | error e =>
          rw [hpv] at hp
          exact absurd hp (by simp)
        | ok p =>
          obtain ⟨w, rest⟩ := p
          rw [hpv] at hp
          simp only [] at hp
          by_cases h3 : skipWs rest = []
          · rw [if_pos h3] at hp
            simp only [Except.ok.injEq] at hp
            subst hp
            have hag := (parseAgree (parseFuel x.length)).1 0 x w rest hpv
            simp only [canonicalize]
            rw [if_neg h1, if_neg h2, hag, if_pos hdup]
          · rw [if_neg h3] at hp
            exact absurd hp (by simp)

end Kernel

namespace Kernel

-- ── the commitment JSON as a canonical value ──


lemma emit_plain : ∀ s : Bytes, (∀ b ∈ s, 32 ≤ b ∧ b ≠ 34 ∧ b ≠ 92) →
    emit_string_content s = s
  | [] => fun _ => rfl
  | b :: rest => fun h => by
    rw [emit_content_cons,
      escStringByte_raw (h b (by simp)).1 (h b (by simp)).2.1 (h b (by simp)).2.2,
      emit_plain rest (fun q hq => h q (by simp [hq]))]
    rfl

lemma hexLowerDigit_range (n : Nat) :
    32 ≤ hexLowerDigit n ∧ hexLowerDigit n ≠ 34 ∧ hexLowerDigit n ≠ 92 := by
  unfold hexLowerDigit
  split <;> omega

lemma encode_digest_plain (d : Bytes) :
    ∀ b ∈ encode_digest d, 32 ≤ b ∧ b ≠ 34 ∧ b ≠ 92 := by
  intro b hb
  unfold encode_digest at hb
  rw [List.mem_flatMap] at hb
  obtain ⟨a, _, hba⟩ := hb
  simp only [List.mem_cons, List.not_mem_nil, or_false] at hba
  rcases hba with rfl | rfl <;> exact hexLowerDigit_range _

lemma encode_digest_emit (d : Bytes) :
    emit_string_content (encode_digest d) = encode_digest d :=
  emit_plain _ (encode_digest_plain d)

lemma decDigitsRev_digits : ∀ fuel v, ∀ b ∈ decDigitsRev fuel v, 48 ≤ b ∧ b ≤ 57
  | 0, v => by simp [decDigitsRev]
  | fuel + 1, v => by
    intro b hb
    by_cases hv : v = 0
    · simp [decDigitsRev, hv] at hb
    · rw [show decDigitsRev (fuel + 1) v =
        (48 + v % 10) :: decDigitsRev fuel (v / 10) from by
          rw [decDigitsRev.eq_def]; simp [hv]] at hb
      rcases List.mem_cons.1 hb with rfl | hmem
      · omega
      · exact decDigitsRev_digits fuel (v / 10) b hmem

lemma encode_u128_plain (n : Nat) :
    ∀ b ∈ encode_u128 n, 32 ≤ b ∧ b ≠ 34 ∧ b ≠ 92 := by
  intro b hb
  unfold encode_u128 at hb
  by_cases hn : n = 0
  · simp [hn] at hb
    omega
  · rw [if_neg hn, List.mem_reverse] at hb
    have := decDigitsRev_digits n n b hb
    omega

lemma encode_u128_emit (n : Nat) :
    emit_string_content (encode_u128 n) = encode_u128 n :=
  emit_plain _ (encode_u128_plain n)

lemma encode_u64_emit (n : Nat) :
    emit_string_content (encode_u64 n) = encode_u64 n :=
  encode_u128_emit n

-- ── lengths of the encodings ──

lemma encode_digest_length (d : Bytes) :
    (encode_digest d).length = 2 * d.length := by
  unfold encode_digest
  induction d with
  | nil => rfl
  | cons b rest ih =>
    rw [List.flatMap_cons]
    simp [ih]
    omega

lemma decDigitsRev_len_le : ∀ (fuel v k : Nat), v < 10 ^ k →
    (decDigitsRev fuel v).length ≤ k
  | 0, v, k => by
    intro _
    simp [decDigitsRev]
  | fuel + 1, v, k => by
    intro hv
    by_cases h0 : v = 0
    · simp [decDigitsRev, h0]
    · have hk : k ≠ 0 := by
        intro hk0
        rw [hk0] at hv
        simp at hv
        omega
      rw [show decDigitsRev (fuel + 1) v =
        (48 + v % 10) :: decDigitsRev fuel (v / 10) from by
          rw [decDigitsRev.eq_def]; simp [h0]]
      simp only [List.length_cons]
      have hlt : v / 10 < 10 ^ (k - 1) := by
        have hp : 10 ^ k = 10 * 10 ^ (k - 1) := by
          rw [← pow_succ']
          congr 1
          omega
        rw [hp] at hv
        omega
      have := decDigitsRev_len_le fuel (v / 10) (k - 1) hlt
      omega

lemma encode_u128_len_le {n k : Nat} (h : n < 10 ^ k) (hk : 1 ≤ k) :
    (encode_u128 n).length ≤ k := by
  unfold encode_u128
  by_cases hn : n = 0
  · simp [hn]
    omega
  · rw [if_neg hn, List.length_reverse]
    exact decDigitsRev_len_le n n k h

-- ── literal byte expansions ──

lemma chunkBond_bytes : asciiBytes "\x7b\"bond_pool_root\":\"" = [123, 34, 98, 111, 110, 100, 95, 112, 111, 111, 108, 95, 114, 111, 111, 116, 34, 58, 34] := by decide

lemma chunkEntropy_bytes : asciiBytes "\",\"entropy_metric_scaled\":\"" = [34, 44, 34, 101, 110, 116, 114, 111, 112, 121, 95, 109, 101, 116, 114, 105, 99, 95, 115, 99, 97, 108, 101, 100, 34, 58, 34] := by decide

lemma chunkEpoch_bytes : asciiBytes "\",\"epoch_number\":\"" = [34, 44, 34, 101, 112, 111, 99, 104, 95, 110, 117, 109, 98, 101, 114, 34, 58, 34] := by decide

lemma chunkImpact_bytes : asciiBytes "\",\"impact_pool_root\":\"" = [34, 44, 34, 105, 109, 112, 97, 99, 116, 95, 112, 111, 111, 108, 95, 114, 111, 111, 116, 34, 58, 34] := by decide

lemma chunkKernel_bytes : asciiBytes "\",\"kernel_hash\":\"" = [34, 44, 34, 107, 101, 114, 110, 101, 108, 95, 104, 97, 115, 104, 34, 58, 34] := by decide

lemma chunkPrev_bytes : asciiBytes "\",\"previous_root\":\"" = [34, 44, 34, 112, 114, 101, 118, 105, 111, 117, 115, 95, 114, 111, 111, 116, 34, 58, 34] := by decide

lemma chunkValidator_bytes : asciiBytes "\",\"validator_set_root\":\"" = [34, 44, 34, 118, 97, 108, 105, 100, 97, 116, 111, 114, 95, 115, 101, 116, 95, 114, 111, 111, 116, 34, 58, 34] := by decide

lemma chunkVdf_bytes : asciiBytes "\",\"vdf_challenge_seed\":\"" = [34, 44, 34, 118, 100, 102, 95, 99, 104, 97, 108, 108, 101, 110, 103, 101, 95, 115, 101, 101, 100, 34, 58, 34] := by decide

lemma chunkEnd_bytes : asciiBytes "\"\x7d" = [34, 125] := by decide

lemma keyBond_bytes : asciiBytes "bond_pool_root" = [98, 111, 110, 100, 95, 112, 111, 111, 108, 95, 114, 111, 111, 116] := by decide

lemma keyEntropy_bytes : asciiBytes "entropy_metric_scaled" = [101, 110, 116, 114, 111, 112, 121, 95, 109, 101, 116, 114, 105, 99, 95, 115, 99, 97, 108, 101, 100] := by decide

lemma keyEpoch_bytes : asciiBytes "epoch_number" = [101, 112, 111, 99, 104, 95, 110, 117, 109, 98, 101, 114] := by decide

lemma keyImpact_bytes : asciiBytes "impact_pool_root" = [105, 109, 112, 97, 99, 116, 95, 112, 111, 111, 108, 95, 114, 111, 111, 116] := by decide

lemma keyKernel_bytes : asciiBytes "kernel_hash" = [107, 101, 114, 110, 101, 108, 95, 104, 97, 115, 104] := by decide

lemma keyPrev_bytes : asciiBytes "previous_root" = [112, 114, 101, 118, 105, 111, 117, 115, 95, 114, 111, 111, 116] := by decide

lemma keyValidator_bytes : asciiBytes "validator_set_root" = [118, 97, 108, 105, 100, 97, 116, 111, 114, 95, 115, 101, 116, 95, 114, 111, 111, 116] := by decide

lemma keyVdf_bytes : asciiBytes "vdf_challenge_seed" = [118, 100, 102, 95, 99, 104, 97, 108, 108, 101, 110, 103, 101, 95, 115, 101, 101, 100] := by decide

-- ── the raw commitment bytes are the plain emission of the value ──

lemma build_commitment_eq (s : EpochState) :
    build_commitment_json s = emitRaw (.jobj (commitmentPairs s)) := by
  rw [emitRaw.eq_def]
  simp only [commitmentPairs, emitMembers, emitMembersTail, emitRaw]
  rw [encode_digest_emit, encode_digest_emit, encode_digest_emit,
    encode_digest_emit, encode_digest_emit, encode_digest_emit,
    encode_u128_emit, encode_u64_emit]
  rw [emit_plain (asciiBytes "bond_pool_root") (by rw [keyBond_bytes]; decide),
    emit_plain (asciiBytes "entropy_metric_scaled") (by rw [keyEntropy_bytes]; decide),
    emit_plain (asciiBytes "epoch_number") (by rw [keyEpoch_bytes]; decide),
    emit_plain (asciiBytes "impact_pool_root") (by rw [keyImpact_bytes]; decide),
    emit_plain (asciiBytes "kernel_hash") (by rw [keyKernel_bytes]; decide),
    emit_plain (asciiBytes "previous_root") (by rw [keyPrev_bytes]; decide),
    emit_plain (asciiBytes "validator_set_root") (by rw [keyValidator_bytes]; decide),
    emit_plain (asciiBytes "vdf_challenge_seed") (by rw [keyVdf_bytes]; decide)]
  rw [build_commitment_json]
  rw [chunkBond_bytes, chunkEntropy_bytes, chunkEpoch_bytes, chunkImpact_bytes,
    chunkKernel_bytes, chunkPrev_bytes, chunkValidator_bytes, chunkVdf_bytes,
    chunkEnd_bytes, keyBond_bytes, keyEntropy_bytes, keyEpoch_bytes,
    keyImpact_bytes, keyKernel_bytes, keyPrev_bytes, keyValidator_bytes,
    keyVdf_bytes]
  simp only [List.append_assoc, List.cons_append, List.nil_append,
    List.append_nil]

end Kernel

namespace Kernel

lemma commitment_canonB (s : EpochState) :
    canonB (.jobj (commitmentPairs s)) = true := by
  rw [canonB_obj_iff]
  refine ⟨by simp [commitmentPairs, MAX_OBJECT_FIELDS], ?_, ?_, ?_⟩
  · simp only [commitmentPairs, keyBond_bytes, keyEntropy_bytes, keyEpoch_bytes,
      keyImpact_bytes, keyKernel_bytes, keyPrev_bytes, keyValidator_bytes,
      keyVdf_bytes]
    simp [keysStrictSorted, bytesLt]
  · simp only [commitmentPairs, keyBond_bytes, keyEntropy_bytes, keyEpoch_bytes,
      keyImpact_bytes, keyKernel_bytes, keyPrev_bytes, keyValidator_bytes,
      keyVdf_bytes]
    simp [List.all_cons, List.all_nil, validKey, validKeyTailByte]
  · simp [commitmentPairs, canonPairsB, canonB]

lemma commitment_height (s : EpochState) :
    heightOf (.jobj (commitmentPairs s)) = 1 := by
  simp [commitmentPairs, heightOf, heightPairs]

lemma build_commitment_len (s : EpochState)
    (h1 : s.bond_pool_root.length = 32) (h2 : s.impact_pool_root.length = 32)
    (h3 : s.kernel_hash.length = 32) (h4 : s.previous_root.length = 32)
    (h5 : s.validator_set_root.length = 32) (h6 : s.vdf_challenge_seed.length = 32)
    (h7 : s.epoch_number ≤ U64_MAX) (h8 : s.entropy_metric_scaled ≤ U128_MAX) :
    (build_commitment_json s).length ≤ 620 := by
  have e1 : (encode_digest s.bond_pool_root).length = 64 := by
    rw [encode_digest_length, h1]
  have e2 : (encode_digest s.impact_pool_root).length = 64 := by
    rw [encode_digest_length, h2]
  have e3 : (encode_digest s.kernel_hash).length = 64 := by
    rw [encode_digest_length, h3]
  have e4 : (encode_digest s.previous_root).length = 64 := by
    rw [encode_digest_length, h4]
  have e5 : (encode_digest s.validator_set_root).length = 64 := by
    rw [encode_digest_length, h5]
  have e6 : (encode_digest s.vdf_challenge_seed).length = 64 := by
    rw [encode_digest_length, h6]
  have e7 : (encode_u64 s.epoch_number).length ≤ 20 := by
    rw [encode_u64]
    exact encode_u128_len_le (by
      have : (10 : Nat) ^ 20 = 100000000000000000000 := by norm_num
      rw [this]
      simp [U64_MAX] at h7
      omega) (by omega)
  have e8 : (encode_u128 s.entropy_metric_scaled).length ≤ 39 := by
    exact encode_u128_len_le (by
      have : (10 : Nat) ^ 39 = 1000000000000000000000000000000000000000 := by
        norm_num
      rw [this]
      simp [U128_MAX] at h8
      omega) (by omega)
  have l1 : (asciiBytes "\x7b\"bond_pool_root\":\"").length = 19 := by decide
  have l2 : (asciiBytes "\",\"entropy_metric_scaled\":\"").length = 27 := by decide
  have l3 : (asciiBytes "\",\"epoch_number\":\"").length = 18 := by decide
  have l4 : (asciiBytes "\",\"impact_pool_root\":\"").length = 22 := by decide
  have l5 : (asciiBytes "\",\"kernel_hash\":\"").length = 17 := by decide
  have l6 : (asciiBytes "\",\"previous_root\":\"").length = 19 := by decide
  have l7 : (asciiBytes "\",\"validator_set_root\":\"").length = 24 := by decide
  have l8 : (asciiBytes "\",\"vdf_challenge_seed\":\"").length = 24 := by decide
  have l9 : (asciiBytes "\"\x7d").length = 2 := by decide
  simp only [build_commitment_json, List.length_append]
  omega

lemma commitment_canonicalize (s : EpochState)
    (h1 : s.bond_pool_root.length = 32) (h2 : s.impact_pool_root.length = 32)
    (h3 : s.kernel_hash.length = 32) (h4 : s.previous_root.length = 32)
    (h5 : s.validator_set_root.length = 32) (h6 : s.vdf_challenge_seed.length = 32)
    (h7 : s.epoch_number ≤ U64_MAX) (h8 : s.entropy_metric_scaled ≤ U128_MAX) :
    canonicalize (build_commitment_json s) = .ok (build_commitment_json s) := by
  have hraw := build_commitment_eq s
  have hlen := build_commitment_len s h1 h2 h3 h4 h5 h6 h7 h8
  have hcb := commitment_canonB s
  have hcons : build_commitment_json s =
      123 :: (emitMembers (commitmentPairs s) ++ [125]) := by
    rw [hraw, emitRaw.eq_def]
  simp only [canonicalize]
  rw [if_neg (by simp [MAX_INPUT_BYTES]; omega : ¬((build_commitment_json s).length > MAX_INPUT_BYTES))]
  rw [if_neg (by
    rw [hcons]
    intro habs
    rw [List.take_succ_cons] at habs
    simp at habs)]
  have hfuel : fuelNeedV (.jobj (commitmentPairs s)) ≤
      parseFuel (build_commitment_json s).length := by
    have hb := fuelNeedV_le_emit (.jobj (commitmentPairs s))
    have hcl := congrArg List.length hraw
    simp only [parseFuel]
    omega
  have hrt := (jsonRoundTrip (parseFuel (build_commitment_json s).length)).1 true
    (.jobj (commitmentPairs s)) 0 [] hcb
    (by rw [commitment_height]; simp [MAX_DEPTH]) hfuel
  rw [List.append_nil, ← hraw] at hrt
  rw [hrt]
  simp only []
  rw [if_pos (by rfl : skipWs ([] : Bytes) = [])]
  have hres : emit (.jobj (commitmentPairs s)) = build_commitment_json s := by
    rw [show emit (.jobj (commitmentPairs s)) =
      emitRaw (canonValue (.jobj (commitmentPairs s))) from rfl]
    rw [canonValue_id _ hcb, ← hraw]
  rw [hres]

/-- C2: `commit` hashes the canonical JSON object of exactly the eight
committed fields in sorted key order — digests lowercase-hex, integers
decimal strings — and the current `state_root` is excluded: for every
state with 32-byte digests and in-range integers, `commit` returns `Ok`
with `state_root = sha256 (build_commitment_json s)`, the commitment
bytes are precisely the canonical emission of the eight-pair object
`commitmentPairs s`, and they do not depend on `s.state_root`. -/
theorem C2_commit_canonical_json :
    (∀ s : EpochState,
      s.bond_pool_root.length = 32 → s.impact_pool_root.length = 32 →
      s.kernel_hash.length = 32 → s.previous_root.length = 32 →
      s.validator_set_root.length = 32 → s.vdf_challenge_seed.length = 32 →
      s.epoch_number ≤ U64_MAX → s.entropy_metric_scaled ≤ U128_MAX →
      EpochState.commit s =
        .ok { s with state_root := sha256 (build_commitment_json s) } ∧
      build_commitment_json s = emit (.jobj (commitmentPairs s))) ∧
    (∀ (s : EpochState) (root : Bytes),
      build_commitment_json { s with state_root := root } =
        build_commitment_json s) := by
  constructor
  · intro s h1 h2 h3 h4 h5 h6 h7 h8
    have hc := commitment_canonicalize s h1 h2 h3 h4 h5 h6 h7 h8
    constructor
    · unfold EpochState.commit EpochState.compute_state_root
        EpochState.canonical_bytes
      simp only []
      rw [hc]
      simp only []
      rw [if_neg (by simp)]
      rfl
    · have hraw := build_commitment_eq s
      have hcb := commitment_canonB s
      rw [show emit (.jobj (commitmentPairs s)) =
        emitRaw (canonValue (.jobj (commitmentPairs s))) from rfl]
      rw [canonValue_id _ hcb, ← hraw]
  · intro s root
    rfl

end Kernel

namespace Kernel


/-- C8 witness: the unsorted document is canonicalized, and the theorem
applied at that output shows a second pass leaves it unchanged. -/
theorem C8_canonicalize_witness :
    canonicalize c8input = .ok c8output ∧ canonicalize c8output = .ok c8output :=
  ⟨by decide, C8_canonicalize_idempotent c8input c8output (by decide)⟩

/-- C9 witness: the theorem applied to a concrete two-member object
whose keys collide yields the `DuplicateKey` error. -/
theorem C9_duplicate_keys_witness :
    canonicalize c9input = .error .DuplicateKey ∧ hasDupKeys c9value = true :=
  ⟨C9_duplicate_keys_hard_error c9input c9value (by rfl) (by rfl), by rfl⟩

/-- C2 witness: the theorem applied at the all-zero state, whose
commitment hash is pinned as the genesis `state_root`. -/
theorem C2_commit_witness :
    EpochState.commit zeroState =
      .ok { zeroState with state_root := sha256 (build_commitment_json zeroState) } ∧
    EpochState.genesis.state_root = sha256 (build_commitment_json zeroState) :=
  ⟨((C2_commit_canonical_json.1 zeroState (by decide) (by decide) (by decide)
      (by decide) (by decide) (by decide) (by decide) (by decide))).1,
    by decide⟩

end Kernel
